import Mathlib

/-!
# Insert planning of the vtgate plan builder

A shallow embedding of `go/vt/vtgate/planbuilder/insert.go` and theorems about it.

Go features and how they are rendered here:

* `*sqlparser.Insert` is mutated in place by the planner.  Every function that receives the
  statement returns the statement as it is after the call, as the first component of its result,
  also when the call ends with an error or a runtime panic.
* `value *[]interface{}` and `route *engine.Route` are threaded the same way.
* A Go `error` return is `Outcome.error`, a runtime panic (index out of range, failed type
  assertion, explicit `panic`) is `Outcome.panic`.
* Slices are lists; `row[pos] = e` on the slice returned by `findOrInsertPos` writes through to
  the statement, since that slice shares its backing array with `ins.Rows[rowNum]`.
-/

namespace Planbuilder

/-! ## Data model -/

/-- Modelled from the spec: the `cistring.CIString` type, which lives in package `cistring`.  It
holds the identifier as written (`val`) and its lower-cased form (`lowered`). -/
structure CIString where
  val : String
  lowered : String
deriving DecidableEq, Repr

/-- Modelled from the spec: `CIString.Equal`, the case-insensitive identifier comparison. -/
def CIString.Equal (s other : CIString) : Bool := s.lowered == other.lowered

/-- Modelled from the spec: `CIString.Original`, the identifier as it was written. -/
def CIString.Original (s : CIString) : String := s.val

/-- The `sqlparser.ColIdent` type; the source converts freely between it and `CIString`. -/
abbrev ColIdent := CIString

/-- Modelled from the spec: the `sqlparser.ValExpr` value expressions.  The planner builds
`ValArg` and `NullVal` itself; every expression that is not a string, number, bind variable or
NULL literal is kept as `Other` with its printed text. -/
inductive ValExpr where
  | StrVal (b : String)
  | NumVal (b : String)
  | ValArg (b : String)
  | NullVal
  | Other (text : String)
deriving DecidableEq, Repr

/-- The `sqlparser.ValTuple` type, a slice of value expressions. -/
abbrev ValTuple := List ValExpr

/-- Modelled from the spec: the `sqlparser.RowTuple` interface, implemented by `ValTuple` and
`*Subquery`. -/
inductive RowTuple where
  | ValTuple (row : List ValExpr)
  | Subquery (text : String)
deriving DecidableEq, Repr

/-- Modelled from the spec: the `sqlparser.InsertRows` interface, implemented by `*Select`,
`*Union` and `Values`; `Nil` is any other dynamic value, which reaches the `default` branch of
the type switch in `buildInsertPlan`. -/
inductive InsertRows where
  | Select (text : String)
  | Union (text : String)
  | Values (values : List RowTuple)
  | Nil
deriving DecidableEq, Repr

/-- The table reference of an insert, `sqlparser.TableName`. -/
structure TableName where
  Qualifier : String
  Name : String
deriving DecidableEq, Repr

/-- The fields of `sqlparser.Insert` the planner reads and writes. -/
structure Insert where
  Table : TableName
  Columns : List ColIdent
  Rows : InsertRows
deriving DecidableEq, Repr

/-- The `vindexes.Keyspace` type. -/
structure Keyspace where
  Name : String
  Sharded : Bool
deriving DecidableEq, Repr

/-- The `vindexes.ColumnVindex` type: the column and the name of its routing function. -/
structure ColumnVindex where
  Column : CIString
  Name : String
deriving DecidableEq, Repr

/-- The sequence table an auto-increment descriptor points to (`*vindexes.Table`, of which the
planner reads the name and the keyspace). -/
structure Sequence where
  Name : String
  Keyspace : Keyspace
deriving DecidableEq, Repr

/-- The `vindexes.AutoIncrement` type. -/
structure AutoIncrement where
  Column : CIString
  Sequence : Sequence
  ColumnVindexNum : Int
deriving DecidableEq, Repr

/-- The `vindexes.Table` type. -/
structure Table where
  Name : String
  Keyspace : Keyspace
  ColumnVindexes : List ColumnVindex
  AutoIncrement : Option AutoIncrement
deriving DecidableEq, Repr

/-- The dynamic values (`interface{}`) stored in `route.Values` and `Generate.Value`: what
`valConvert` returns, or a Go `string` holding a bind-variable name.  `null` is the nil
interface. -/
inductive Value where
  | null
  | str (s : String)
  | bytes (b : String)
  | int64 (i : Int)
  | uint64 (n : Nat)
deriving DecidableEq, Repr

/-- The `engine.RouteOpcode` values the insert planner uses; `NoCode` is the zero value. -/
inductive RouteOpcode where
  | NoCode
  | SelectUnsharded
  | InsertUnsharded
  | InsertSharded
  | MultiInsertSharded
deriving DecidableEq, Repr

/-- The `engine.Generate` type. -/
structure Generate where
  Opcode : RouteOpcode
  Keyspace : Keyspace
  Query : String
  Value : Value
deriving DecidableEq, Repr

/-- The fields of `engine.Route` the insert planner sets.  `Values` is a nil interface until
the sharded path assigns the list of per-row lists, `Generate` a nil pointer until
`buildAutoIncrementPlan` assigns it. -/
structure Route where
  Opcode : RouteOpcode
  Keyspace : Option Keyspace
  Query : String
  Table : Option Table
  Values : Option (List (List Value))
  Generate : Option Generate
deriving DecidableEq, Repr

/-- How a call ends: normally, with a Go `error`, or with a runtime panic. -/
inductive Outcome (α : Type) where
  | ok (a : α)
  | error (msg : String)
  | panic (msg : String)
deriving DecidableEq, Repr

/-- The functions and the constant of this repository that `insert.go` uses and that live in
other files: `generateQuery`, `valConvert`, `sqlparser.String` and `engine.SeqVarName`. -/
structure Deps where
  generateQuery : Insert → String
  valConvert : ValExpr → Except String Value
  sqlparserString : ValExpr → String
  SeqVarName : String

/-- The `VSchema` interface: `Find` resolves a qualifier and a table name. -/
structure VSchema where
  Find : String → String → Except String Table

/-! ## The planner -/

/-- The row `ins.Rows.(sqlparser.Values)[rowNum].(sqlparser.ValTuple)`; the error case is the
runtime panic of a failed type assertion or of an index out of range. -/
def getRow (rows : InsertRows) (rowNum : Nat) : Except String (List ValExpr) :=
  match rows with
  | .Values values =>
    match values[rowNum]? with
    | some (.ValTuple row) => .ok row
    | some (.Subquery _) => .error "interface conversion: RowTuple is not ValTuple"
    | none => .error "index out of range"
  | _ => .error "interface conversion: InsertRows is not Values"

/-- The assignment `ins.Rows.(sqlparser.Values)[rowNum] = row` (only evaluated after `getRow`
succeeded on the same row). -/
def setRow (rows : InsertRows) (rowNum : Nat) (row : List ValExpr) : InsertRows :=
  match rows with
  | .Values values => .Values (values.set rowNum (.ValTuple row))
  | r => r

/-- The search loop of `findOrInsertPos` (lines 128–134): the first position whose column
equals `col` case-insensitively; `none` stands for `pos == -1`. -/
def findPos (columns : List ColIdent) (col : CIString) : Option Nat :=
  columns.findIdx? (fun column => col.Equal column)

/-- The function `findOrInsertPos`: the first position of `col` in the column list, or, when
there is none, a new column at the tail together with a NULL literal appended to row `rowNum`. -/
def findOrInsertPos (ins : Insert) (col : CIString) (rowNum : Nat) :
    Insert × Outcome (List ValExpr × Nat) :=
  match findPos ins.Columns col with
  | some pos =>
    match getRow ins.Rows rowNum with
    | .ok row => (ins, .ok (row, pos))
    | .error m => (ins, .panic m)
  | none =>
    let pos := ins.Columns.length
    let ins1 := { ins with Columns := ins.Columns ++ [col] }
    match getRow ins1.Rows rowNum with
    | .ok row =>
      ({ ins1 with Rows := setRow ins1.Rows rowNum (row ++ [ValExpr.NullVal]) },
        .ok (row ++ [ValExpr.NullVal], pos))
    | .error m => (ins1, .panic m)

/-- The function `buildIndexPlan`: appends the converted value of the descriptor's column in row
`rowNum` to `value` and rewrites the slot to the bind variable `:_<column><rowNum>`. -/
def buildIndexPlan (D : Deps) (ins : Insert) (colVindex : ColumnVindex) (value : List Value)
    (rowNum : Nat) : Insert × List Value × Outcome Unit :=
  match findOrInsertPos ins colVindex.Column rowNum with
  | (ins1, .ok (row, pos)) =>
    match row[pos]? with
    | none => (ins1, value, .panic "index out of range")
    | some e =>
      match D.valConvert e with
      | .error err =>
        (ins1, value, .error ("could not convert val: " ++ D.sqlparserString e ++ ", pos: "
          ++ toString pos ++ ": " ++ err))
      | .ok val =>
        let arg := ValExpr.ValArg (":_" ++ colVindex.Column.Original ++ toString rowNum)
        ({ ins1 with Rows := setRow ins1.Rows rowNum (row.set pos arg) }, value ++ [val], .ok ())
  | (ins1, .error m) => (ins1, value, .error m)
  | (ins1, .panic m) => (ins1, value, .panic m)

/-- The `Generate` sub-plan that `buildAutoIncrementPlan` assigns first; its `Value` is still
the zero value. -/
def newGenerate (autoinc : AutoIncrement) : Generate :=
  { Opcode := .SelectUnsharded
    Keyspace := autoinc.Sequence.Keyspace
    Query := "select next value from `" ++ autoinc.Sequence.Name ++ "`"
    Value := .null }

/-- The function `buildAutoIncrementPlan`. -/
def buildAutoIncrementPlan (D : Deps) (ins : Insert) (autoinc : AutoIncrement) (route : Route)
    (value : List Value) (rowNum : Nat) : Insert × Route × List Value × Outcome Unit :=
  let route1 := { route with Generate := some (newGenerate autoinc) }
  if autoinc.ColumnVindexNum ≥ 0 then
    match value[autoinc.ColumnVindexNum.toNat]? with
    | none => (ins, route1, value, .panic "index out of range")
    | some v =>
      (ins, { route1 with Generate := some { newGenerate autoinc with Value := v } },
        value.set autoinc.ColumnVindexNum.toNat (Value.str (":" ++ D.SeqVarName ++ toString rowNum)),
        .ok ())
  else
    match findOrInsertPos ins autoinc.Column rowNum with
    | (ins1, .ok (row, pos)) =>
      match row[pos]? with
      | none => (ins1, route1, value, .panic "index out of range")
      | some e =>
        match D.valConvert e with
        | .error err =>
          (ins1, route1, value, .error ("could not convert val: " ++ D.sqlparserString e
            ++ ", pos: " ++ toString pos ++ ": " ++ err))
        | .ok val =>
          let arg := ValExpr.ValArg (":" ++ D.SeqVarName ++ toString rowNum)
          ({ ins1 with Rows := setRow ins1.Rows rowNum (row.set pos arg) },
            { route1 with Generate := some { newGenerate autoinc with Value := val } },
            value, .ok ())
    | (ins1, .error m) => (ins1, route1, value, .error m)
    | (ins1, .panic m) => (ins1, route1, value, .panic m)

/-- The validation loop of `buildInsertPlan` (lines 52–61): the first offending row decides the
error; `none` when every row is a literal tuple of the column list's length. -/
def checkRows (ncols : Nat) : List RowTuple → Option String
  | [] => none
  | .Subquery _ :: _ => some "unsupported: subqueries in insert"
  | .ValTuple row :: rest =>
    if ncols ≠ row.length then some "column list doesn't match values" else checkRows ncols rest

/-- The inner loop of `buildInsertPlan` (lines 66–71): `buildIndexPlan` for each descriptor in
turn, stopping at the first failure. -/
def indexLoop (D : Deps) (rowNum : Nat) :
    List ColumnVindex → Insert → List Value → Insert × List Value × Outcome Unit
  | [], ins, value => (ins, value, .ok ())
  | index :: rest, ins, value =>
    match buildIndexPlan D ins index value rowNum with
    | (ins1, value1, .ok _) => indexLoop D rowNum rest ins1 value1
    | (ins1, value1, .error m) => (ins1, value1, .error m)
    | (ins1, value1, .panic m) => (ins1, value1, .panic m)

/-- The body of the row loop of `buildInsertPlan` (lines 65–78) for one `rowNum`: returns the
statement, the route and the row's value list. -/
def rowStep (D : Deps) (table : Table) (rowNum : Nat) (ins : Insert) (route : Route) :
    Insert × Route × List Value × Outcome Unit :=
  match indexLoop D rowNum table.ColumnVindexes ins [] with
  | (ins1, value, .ok _) =>
    match table.AutoIncrement with
    | some autoinc => buildAutoIncrementPlan D ins1 autoinc route value rowNum
    | none => (ins1, route, value, .ok ())
  | (ins1, value, .error m) => (ins1, route, value, .error m)
  | (ins1, value, .panic m) => (ins1, route, value, .panic m)

/-- The row loop of `buildInsertPlan` (lines 64–80): `remaining` is `len(values) - rowNum`. -/
def rowLoop (D : Deps) (table : Table) :
    (remaining rowNum : Nat) → Insert → Route → List (List Value) →
      Insert × Route × Outcome (List (List Value))
  | 0, _, ins, route, routeValues => (ins, route, .ok routeValues)
  | remaining + 1, rowNum, ins, route, routeValues =>
    match rowStep D table rowNum ins route with
    | (ins1, route1, value, .ok _) =>
      rowLoop D table remaining (rowNum + 1) ins1 route1 (routeValues ++ [value])
    | (ins1, route1, _, .error m) => (ins1, route1, .error m)
    | (ins1, route1, _, .panic m) => (ins1, route1, .panic m)

/-- The function `buildInsertPlan`: the statement after the call and the route, error or panic
the call ends with. -/
def buildInsertPlan (D : Deps) (vschema : VSchema) (ins : Insert) : Insert × Outcome Route :=
  let route : Route :=
    { Opcode := .NoCode, Keyspace := none, Query := D.generateQuery ins, Table := none,
      Values := none, Generate := none }
  match vschema.Find ins.Table.Qualifier ins.Table.Name with
  | .error err => (ins, .error err)
  | .ok table =>
    let route := { route with Table := some table, Keyspace := some table.Keyspace }
    if !table.Keyspace.Sharded then
      (ins, .ok { route with Opcode := .InsertUnsharded })
    else if ins.Columns.length = 0 then
      (ins, .error "no column list")
    else
      match ins.Rows with
      | .Select _ => (ins, .error "unsupported: insert into select")
      | .Union _ => (ins, .error "unsupported: insert into select")
      | .Nil => (ins, .panic "unexpected construct in insert")
      | .Values values =>
        let route :=
          if values.length ≠ 1 then { route with Opcode := .MultiInsertSharded }
          else { route with Opcode := .InsertSharded }
        match checkRows ins.Columns.length values with
        | some msg => (ins, .error msg)
        | none =>
          match rowLoop D table values.length 0 ins route [] with
          | (ins1, route1, .ok routeValues) =>
            (ins1, .ok { route1 with Values := some routeValues, Query := D.generateQuery ins1 })
          | (ins1, _, .error m) => (ins1, .error m)
          | (ins1, _, .panic m) => (ins1, .panic m)

/-! ## Concrete collaborators used by the examples -/

/-- Reads a string of decimal digits; `none` when it is empty or holds another character. -/
def decimal? (b : String) : Option Nat :=
  if b.data ≠ [] ∧ b.data.all Char.isDigit = true then
    some (b.data.foldl (fun acc c => acc * 10 + (c.toNat - 48)) 0)
  else none

/-- Modelled from the spec: `valConvert`, which converts a literal to a runtime value and fails
on an expression that is not a convertible scalar.  A bind variable converts to its name, a
string to its bytes, NULL to the nil value, and a number to a signed or else an unsigned 64-bit
integer (decimal digits only here). -/
def valConvertModel : ValExpr → Except String Value
  | .ValArg b => .ok (.str b)
  | .StrVal b => .ok (.bytes b)
  | .NumVal b =>
    match decimal? b with
    | some n =>
      if n < 2 ^ 63 then .ok (.int64 n)
      else if n < 2 ^ 64 then .ok (.uint64 n)
      else .error "value out of range"
    | none => .error "invalid syntax"
  | .NullVal => .ok .null
  | .Other _ => .error "unsupported expression"

/-- A printer for value expressions, standing for `sqlparser.String` in the examples. -/
def exprText : ValExpr → String
  | .StrVal b => "'" ++ b ++ "'"
  | .NumVal b => b
  | .ValArg b => b
  | .NullVal => "null"
  | .Other t => t

/-- A printer for rows, used by `queryText`. -/
def rowText : RowTuple → String
  | .ValTuple row => "(" ++ ", ".intercalate (row.map exprText) ++ ")"
  | .Subquery t => "(" ++ t ++ ")"

/-- A printer for insert statements, standing for `generateQuery` in the examples. -/
def queryText (ins : Insert) : String :=
  "insert into " ++ ins.Table.Name ++ "(" ++ ", ".intercalate (ins.Columns.map (·.val)) ++ ") "
    ++ (match ins.Rows with
        | .Values values => "values " ++ ", ".intercalate (values.map rowText)
        | .Select t => t
        | .Union t => t
        | .Nil => "")

/-- The collaborators of the examples; the reserved sequence variable is `__seq`. -/
def exampleDeps : Deps :=
  { generateQuery := queryText, valConvert := valConvertModel, sqlparserString := exprText,
    SeqVarName := "__seq" }

/-- An identifier written in lower case. -/
def ident (s : String) : CIString := { val := s, lowered := s }

/-- The route `buildInsertPlan` holds when it enters the row loop of a sharded insert. -/
def shardedRoute (D : Deps) (table : Table) (ins : Insert) (values : List RowTuple) : Route :=
  { Opcode := if values.length ≠ 1 then .MultiInsertSharded else .InsertSharded
    Keyspace := some table.Keyspace
    Query := D.generateQuery ins
    Table := some table
    Values := none
    Generate := none }

/-- A schema that knows one table, found under its name. -/
def vschemaOf (table : Table) : VSchema :=
  { Find := fun _ name => if name = table.Name then .ok table else .error "table not found" }

/-- An unsharded keyspace. -/
def mainKs : Keyspace := { Name := "main", Sharded := false }

/-- A sharded keyspace. -/
def userKs : Keyspace := { Name := "user", Sharded := true }

/-- A table of the unsharded keyspace. -/
def mainTable : Table :=
  { Name := "main1", Keyspace := mainKs, ColumnVindexes := [], AutoIncrement := none }

/-- The sharded table `user` with the single shard-routing column `id`. -/
def userTable : Table :=
  { Name := "user", Keyspace := userKs,
    ColumnVindexes := [{ Column := ident "id", Name := "user_index" }], AutoIncrement := none }

/-- The sequence `user_seq` of the unsharded keyspace. -/
def userSeq : Sequence := { Name := "user_seq", Keyspace := mainKs }

/-- The table `user` with an auto-increment on `id`, which is also shard-routing column 0. -/
def userTableAuto : Table :=
  { userTable with
    AutoIncrement := some { Column := ident "id", Sequence := userSeq, ColumnVindexNum := 0 } }

/-- The sharded table `music`, routed by `user_id`, with an auto-increment on `id` that is not a
shard-routing column. -/
def musicTable : Table :=
  { Name := "music", Keyspace := userKs,
    ColumnVindexes := [{ Column := ident "user_id", Name := "user_index" }],
    AutoIncrement := some { Column := ident "id", Sequence := userSeq, ColumnVindexNum := -1 } }

/-- The statement `insert into main1 select * from t`, without a column list. -/
def insertSelect : Insert :=
  { Table := { Qualifier := "", Name := "main1" }, Columns := [],
    Rows := .Select "select * from t" }

/-- The statement `insert into user select * from t`, without a column list. -/
def insertUserSelect : Insert :=
  { Table := { Qualifier := "", Name := "user" }, Columns := [],
    Rows := .Select "select * from t" }

/-- The statement `insert into user(id, name) values (1, 'a')`. -/
def insertUser : Insert :=
  { Table := { Qualifier := "", Name := "user" }, Columns := [ident "id", ident "name"],
    Rows := .Values [.ValTuple [.NumVal "1", .StrVal "a"]] }

/-- The statement `insert into user(name) values ('a'), ('b')`, which leaves out the
shard-routing column `id`. -/
def insertUserNames : Insert :=
  { Table := { Qualifier := "", Name := "user" }, Columns := [ident "name"],
    Rows := .Values [.ValTuple [.StrVal "a"], .ValTuple [.StrVal "b"]] }

/-- The statement `insert into music(user_id, id) values (1, 5), (2, 6)`. -/
def insertMusic : Insert :=
  { Table := { Qualifier := "", Name := "music" }, Columns := [ident "user_id", ident "id"],
    Rows := .Values [.ValTuple [.NumVal "1", .NumVal "5"], .ValTuple [.NumVal "2", .NumVal "6"]] }

/-- An empty route, as a caller of `buildAutoIncrementPlan` may hold it. -/
def emptyRoute : Route :=
  { Opcode := .InsertSharded, Keyspace := some userKs, Query := "", Table := none,
    Values := none, Generate := none }

/-- The statement `insertUser` after planning against `userTable`. -/
def insertUserPlanned : Insert :=
  { Table := { Qualifier := "", Name := "user" }, Columns := [ident "id", ident "name"],
    Rows := .Values [.ValTuple [.ValArg ":_id0", .StrVal "a"]] }

/-- The route planned for `insertUser` against `userTable`. -/
def insertUserRoute : Route :=
  { Opcode := .InsertSharded, Keyspace := some userKs,
    Query := "insert into user(id, name) values (:_id0, 'a')", Table := some userTable,
    Values := some [[.int64 1]], Generate := none }

/-- The statement `insertMusic` after planning against `musicTable`. -/
def insertMusicPlanned : Insert :=
  { Table := { Qualifier := "", Name := "music" }, Columns := [ident "user_id", ident "id"],
    Rows := .Values [.ValTuple [.ValArg ":_user_id0", .ValArg ":__seq0"],
                     .ValTuple [.ValArg ":_user_id1", .ValArg ":__seq1"]] }

/-- The route planned for `insertMusic` against `musicTable`. -/
def insertMusicRoute : Route :=
  { Opcode := .MultiInsertSharded, Keyspace := some userKs,
    Query := "insert into music(user_id, id) values (:_user_id0, :__seq0), (:_user_id1, :__seq1)",
    Table := some musicTable, Values := some [[.int64 1], [.int64 2]],
    Generate := some { Opcode := .SelectUnsharded, Keyspace := mainKs,
                       Query := "select next value from `user_seq`", Value := .int64 6 } }

/-- The statement `insertUserNames` after the loop body has run for row 0 against `userTable`:
the column `id` and a NULL literal for row 0 were appended, and the NULL was rewritten; row 1
still has one slot. -/
def insertUserNamesRow0 : Insert :=
  { Table := { Qualifier := "", Name := "user" }, Columns := [ident "name", ident "id"],
    Rows := .Values [.ValTuple [.StrVal "a", .ValArg ":_id0"], .ValTuple [.StrVal "b"]] }

/-- The table `user` with two shard-routing descriptors on the same column, written `id` and
`ID`. -/
def userTableTwice : Table :=
  { Name := "user", Keyspace := userKs,
    ColumnVindexes := [{ Column := ident "id", Name := "user_index" },
                       { Column := { val := "ID", lowered := "id" }, Name := "id_lookup" }],
    AutoIncrement := none }

/-- The statement `insertUser` after planning against `userTableTwice`. -/
def insertUserTwicePlanned : Insert :=
  { Table := { Qualifier := "", Name := "user" }, Columns := [ident "id", ident "name"],
    Rows := .Values [.ValTuple [.ValArg ":_ID0", .StrVal "a"]] }

/-- The route planned for `insertUser` against `userTableTwice`. -/
def insertUserTwiceRoute : Route :=
  { Opcode := .InsertSharded, Keyspace := some userKs,
    Query := "insert into user(id, name) values (:_ID0, 'a')", Table := some userTableTwice,
    Values := some [[.int64 1, .str ":_id0"]], Generate := none }

/-- What the descriptor loop makes of row `r` when every shard-routing column is in the column
list: `row0` is the row before, `row2` the row after, `l` the routing values of the row.  Each
descriptor `i` has converted the original slot of its column into `l[i]` and left the bind
variable `:_<column><r>` there; all other slots are as before. -/
def RowExtracted (D : Deps) (columns : List ColIdent) (cvs : List ColumnVindex) (r : Nat)
    (row0 row2 : List ValExpr) (l : List Value) : Prop :=
  row2.length = row0.length ∧ l.length = cvs.length ∧
  (∀ i (hi : i < cvs.length), ∃ pos e v,
    findPos columns cvs[i].Column = some pos ∧ row0[pos]? = some e ∧
    D.valConvert e = .ok v ∧ l[i]? = some v ∧
    row2[pos]? = some (ValExpr.ValArg (":_" ++ cvs[i].Column.Original ++ toString r))) ∧
  (∀ p, (∀ cv ∈ cvs, findPos columns cv.Column ≠ some p) → row2[p]? = row0[p]?)

/-- The statement `insert into user(id) values (1, 2), (select 1)`: the first row has two
slots for one column, the second row is a subquery. -/
def insertUserMixed : Insert :=
  { Table := { Qualifier := "", Name := "user" }, Columns := [ident "id"],
    Rows := .Values [.ValTuple [.NumVal "1", .NumVal "2"], .Subquery "select 1"] }

/-- The statement `insert into user(id) values (1), (select 1), (2, 3)`. -/
def insertUserSubquery : Insert :=
  { Table := { Qualifier := "", Name := "user" }, Columns := [ident "id"],
    Rows := .Values [.ValTuple [.NumVal "1"], .Subquery "select 1",
                     .ValTuple [.NumVal "2", .NumVal "3"]] }

/-- The statement `insert into user(id, name) values (1, 'a'), (2)`. -/
def insertUserShortRow : Insert :=
  { Table := { Qualifier := "", Name := "user" }, Columns := [ident "id", ident "name"],
    Rows := .Values [.ValTuple [.NumVal "1", .StrVal "a"], .ValTuple [.NumVal "2"]] }

/-- The route of an outcome, when the call returned one. -/
def Outcome.toOption {α : Type} : Outcome α → Option α
  | .ok a => some a
  | _ => none

/-- A sharded table with the two shard-routing columns `a` and `a1`. -/
def digitTable : Table :=
  { Name := "t", Keyspace := userKs,
    ColumnVindexes := [{ Column := ident "a", Name := "a_index" },
                       { Column := ident "a1", Name := "a1_index" }],
    AutoIncrement := none }

/-- The twelve-row statement `insert into t(a, a1) values (0, 100), (1, 101), ..., (11, 111)`. -/
def insertTwelve : Insert :=
  { Table := { Qualifier := "", Name := "t" }, Columns := [ident "a", ident "a1"],
    Rows := .Values ((List.range 12).map
      (fun i => RowTuple.ValTuple [.NumVal (toString i), .NumVal (toString (i + 100))])) }

/-- The invariant of the statement under plan: every literal row-tuple has the same length as
the column list. -/
def ShapeInvariant (ins : Insert) : Prop :=
  ∀ r row, getRow ins.Rows r = .ok row → row.length = ins.Columns.length

/-- The statement `insertUserNames` after `findOrInsertPos` looked up the column `id` for
row 0: the column list has grown, row 0 has a NULL slot, row 1 has not. -/
def insertUserNamesResolved : Insert :=
  { Table := { Qualifier := "", Name := "user" }, Columns := [ident "name", ident "id"],
    Rows := .Values [.ValTuple [.StrVal "a", .NullVal], .ValTuple [.StrVal "b"]] }

/-- The statement `insertMusic` after the loop body has run for row 0 against `musicTable`. -/
def insertMusicRow0 : Insert :=
  { Table := { Qualifier := "", Name := "music" }, Columns := [ident "user_id", ident "id"],
    Rows := .Values [.ValTuple [.ValArg ":_user_id0", .ValArg ":__seq0"],
                     .ValTuple [.NumVal "2", .NumVal "6"]] }

/-- The `Generate` sub-plan of `musicTable` with the default value `v`. -/
def musicGenerate (v : Value) : Generate :=
  { Opcode := .SelectUnsharded, Keyspace := mainKs,
    Query := "select next value from `user_seq`", Value := v }

/-- A one-row statement whose row has two slots for one column, `insert into user(name) values
('a', f())`; `buildInsertPlan` rejects it before any extraction. -/
def insertUserLong : Insert :=
  { Table := { Qualifier := "", Name := "user" }, Columns := [ident "name"],
    Rows := .Values [.ValTuple [.StrVal "a", .Other "f()"]] }

/-- The statement `insertUserLong` after `findOrInsertPos` looked up the absent column `id`. -/
def insertUserLongResolved : Insert :=
  { Table := { Qualifier := "", Name := "user" }, Columns := [ident "name", ident "id"],
    Rows := .Values [.ValTuple [.StrVal "a", .Other "f()", .NullVal]] }

/-- The statement `insert into user(id, name) values (f(), 'a')`, whose shard-routing value is
not a literal. -/
def insertUserExpr : Insert :=
  { Table := { Qualifier := "", Name := "user" }, Columns := [ident "id", ident "name"],
    Rows := .Values [.ValTuple [.Other "f()", .StrVal "a"]] }

/-- The columns the loop body of `buildInsertPlan` looks up with `findOrInsertPos` for one
row, in order: the column of every shard-routing descriptor and then, when the table has an
auto-increment descriptor with a negative `ColumnVindexNum`, the auto-increment column. -/
def lookupColumns (table : Table) : List CIString :=
  table.ColumnVindexes.map (fun cv => cv.Column) ++
    (match table.AutoIncrement with
     | some autoinc => if autoinc.ColumnVindexNum ≥ 0 then [] else [autoinc.Column]
     | none => [])

/-- One successful lookup with slot rewrite, as `buildIndexPlan` and the independent case of
`buildAutoIncrementPlan` perform it: `findOrInsertPos` locates a slot that is in range, and the
slot is overwritten. -/
def Lookup (ins : Insert) (col : CIString) (r : Nat) (ins2 : Insert) : Prop :=
  ∃ ins1 row pos e arg, findOrInsertPos ins col r = (ins1, .ok (row, pos)) ∧
    row[pos]? = some e ∧ ins2 = { ins1 with Rows := setRow ins1.Rows r (row.set pos arg) }

/-- A sequence of successful lookups in row `r`, one per column of the list. -/
def LookupChain (r : Nat) : List CIString → Insert → Insert → Prop
  | [], a, b => a = b
  | c :: cs, a, b => ∃ m, Lookup a c r m ∧ LookupChain r cs m b

/-- The statement `insert into music(name) values ('a')`, which leaves out the shard-routing
column `user_id` and the auto-increment column `id`. -/
def insertMusicName : Insert :=
  { Table := { Qualifier := "", Name := "music" }, Columns := [ident "name"],
    Rows := .Values [.ValTuple [.StrVal "a"]] }

/-- The statement `insertMusicName` after planning against `musicTable`: both columns were
appended with a slot each. -/
def insertMusicNamePlanned : Insert :=
  { Table := { Qualifier := "", Name := "music" },
    Columns := [ident "name", ident "user_id", ident "id"],
    Rows := .Values [.ValTuple [.StrVal "a", .ValArg ":_user_id0", .ValArg ":__seq0"]] }

/-- The route planned for `insertMusicName` against `musicTable`. -/
def insertMusicNameRoute : Route :=
  { Opcode := .InsertSharded, Keyspace := some userKs,
    Query := "insert into music(name, user_id, id) values ('a', :_user_id0, :__seq0)",
    Table := some musicTable, Values := some [[.null]],
    Generate := some (musicGenerate .null) }

/-- The table `user` with three shard-routing descriptors on the same column, written `id`,
`Id` and `ID`. -/
def userTableThrice : Table :=
  { Name := "user", Keyspace := userKs,
    ColumnVindexes := [{ Column := ident "id", Name := "user_index" },
                       { Column := { val := "Id", lowered := "id" }, Name := "id_lookup" },
                       { Column := { val := "ID", lowered := "id" }, Name := "id_other" }],
    AutoIncrement := none }

/-- The route planned for `insertUser` against `userTableThrice`. -/
def insertUserThriceRoute : Route :=
  { Opcode := .InsertSharded, Keyspace := some userKs,
    Query := "insert into user(id, name) values (:_ID0, 'a')", Table := some userTableThrice,
    Values := some [[.int64 1, .str ":_id0", .str ":_Id0"]], Generate := none }

/-- A sharded table whose shard-routing column and auto-increment column is named `_seq`. -/
def seqTable : Table :=
  { Name := "t", Keyspace := userKs,
    ColumnVindexes := [{ Column := ident "_seq", Name := "hash" }],
    AutoIncrement := some { Column := ident "_seq", Sequence := userSeq, ColumnVindexNum := 0 } }

/-- The statement `insert into t(_seq, name) values (7, 'a')`. -/
def insertSeq : Insert :=
  { Table := { Qualifier := "", Name := "t" }, Columns := [ident "_seq", ident "name"],
    Rows := .Values [.ValTuple [.NumVal "7", .StrVal "a"]] }

/-- The statement `insertSeq` after `buildIndexPlan` for the column `_seq` and row 0. -/
def insertSeqRewritten : Insert :=
  { Table := { Qualifier := "", Name := "t" }, Columns := [ident "_seq", ident "name"],
    Rows := .Values [.ValTuple [.ValArg ":__seq0", .StrVal "a"]] }

/-- What a slot of row `r` can hold while the row is extracted: a slot of the row as it was
passed in (`row0`), the NULL literal of an appended column, or the bind variable of a
shard-routing descriptor for this row. -/
def SlotSource (cvs : List ColumnVindex) (r : Nat) (row0 : List ValExpr) (e : ValExpr) : Prop :=
  e ∈ row0 ∨ e = ValExpr.NullVal ∨
    ∃ cv ∈ cvs, e = ValExpr.ValArg (":_" ++ cv.Column.Original ++ toString r)

/-- What an entry of the routing-value list of row `r` can be: the sequence placeholder of this
row, or the conversion of something a slot of this row can hold. -/
def EntryOfRow (D : Deps) (cvs : List ColumnVindex) (r : Nat) (row0 : List ValExpr)
    (v : Value) : Prop :=
  v = Value.str (":" ++ D.SeqVarName ++ toString r) ∨
    ∃ e, D.valConvert e = .ok v ∧ SlotSource cvs r row0 e

/-! ## Basic facts about the resolver and the extractor -/

theorem findOrInsertPos_found {ins : Insert} {col : CIString} {rowNum pos : Nat}
    {row : List ValExpr} (hpos : findPos ins.Columns col = some pos)
    (hrow : getRow ins.Rows rowNum = .ok row) :
    findOrInsertPos ins col rowNum = (ins, .ok (row, pos)) := by
  simp [findOrInsertPos, hpos, hrow]

theorem findOrInsertPos_absent {ins : Insert} {col : CIString} {rowNum : Nat}
    {row : List ValExpr} (hpos : findPos ins.Columns col = none)
    (hrow : getRow ins.Rows rowNum = .ok row) :
    findOrInsertPos ins col rowNum =
      ({ ins with Columns := ins.Columns ++ [col],
                  Rows := setRow ins.Rows rowNum (row ++ [ValExpr.NullVal]) },
        .ok (row ++ [ValExpr.NullVal], ins.Columns.length)) := by
  simp [findOrInsertPos, hpos, hrow]

theorem findOrInsertPos_ok_inv {ins ins1 : Insert} {col : CIString} {rowNum pos : Nat}
    {row : List ValExpr} (h : findOrInsertPos ins col rowNum = (ins1, .ok (row, pos))) :
    (findPos ins.Columns col = some pos ∧ ins1 = ins ∧ getRow ins.Rows rowNum = .ok row) ∨
    (findPos ins.Columns col = none ∧ pos = ins.Columns.length ∧
      ∃ row0, getRow ins.Rows rowNum = .ok row0 ∧ row = row0 ++ [ValExpr.NullVal] ∧
        ins1 = { ins with Columns := ins.Columns ++ [col], Rows := setRow ins.Rows rowNum row }) := by
  unfold findOrInsertPos at h
  split at h
  · split at h
    · simp only [Prod.mk.injEq, Outcome.ok.injEq] at h
      obtain ⟨h1, h2, h3⟩ := h
      subst h1 h2 h3
      left
      exact ⟨by assumption, rfl, by assumption⟩
    · simp at h
  · simp only at h
    split at h
    · simp only [Prod.mk.injEq, Outcome.ok.injEq] at h
      obtain ⟨h1, h2, h3⟩ := h
      subst h1 h2 h3
      right
      exact ⟨by assumption, rfl, _, by assumption, rfl, rfl⟩
    · simp at h

theorem findOrInsertPos_ne_error (ins : Insert) (col : CIString) (rowNum : Nat) (ins1 : Insert)
    (m : String) : findOrInsertPos ins col rowNum ≠ (ins1, .error m) := by
  unfold findOrInsertPos
  split
  · split <;> simp
  · simp only
    split <;> simp

theorem buildIndexPlan_ok_inv {D : Deps} {ins ins2 : Insert} {cv : ColumnVindex}
    {value value2 : List Value} {rowNum : Nat}
    (h : buildIndexPlan D ins cv value rowNum = (ins2, value2, .ok ())) :
    ∃ ins1 row pos e v, findOrInsertPos ins cv.Column rowNum = (ins1, .ok (row, pos)) ∧
      row[pos]? = some e ∧ D.valConvert e = .ok v ∧
      ins2 = { ins1 with Rows := setRow ins1.Rows rowNum (row.set pos
                (ValExpr.ValArg (":_" ++ cv.Column.Original ++ toString rowNum))) } ∧
      value2 = value ++ [v] := by
  unfold buildIndexPlan at h
  split at h
  · rename_i ins1 row pos hf
    split at h
    · simp at h
    · rename_i e he
      split at h
      · simp at h
      · rename_i v hv
        simp only [Prod.mk.injEq, and_true] at h
        exact ⟨ins1, row, pos, e, v, hf, he, hv, h.1.symm, h.2.symm⟩
  · simp at h
  · simp at h

theorem getRow_ok_iff {rows : InsertRows} {rowNum : Nat} {row : List ValExpr} :
    getRow rows rowNum = .ok row ↔
      ∃ values, rows = .Values values ∧ values[rowNum]? = some (.ValTuple row) := by
  unfold getRow
  cases rows with
  | Values values =>
    cases hv : values[rowNum]? with
    | none => simp [hv]
    | some t => cases t <;> simp [hv]
  | Select t => simp
  | Union t => simp
  | Nil => simp

theorem getRow_setRow_self {rows : InsertRows} {rowNum : Nat} {row0 row : List ValExpr}
    (h : getRow rows rowNum = .ok row0) : getRow (setRow rows rowNum row) rowNum = .ok row := by
  obtain ⟨values, rfl, hv⟩ := getRow_ok_iff.mp h
  have hlt : rowNum < values.length := by
    rcases Nat.lt_or_ge rowNum values.length with hl | hl
    · exact hl
    · rw [List.getElem?_eq_none hl] at hv
      cases hv
  exact getRow_ok_iff.mpr ⟨_, rfl, List.getElem?_set_self hlt⟩

theorem getRow_setRow_ne {rows : InsertRows} {rowNum j : Nat} {row : List ValExpr}
    (h : rowNum ≠ j) : getRow (setRow rows rowNum row) j = getRow rows j := by
  cases rows <;> simp [setRow, getRow, List.getElem?_set_ne h]

theorem setRow_setRow (rows : InsertRows) (rowNum : Nat) (a b : List ValExpr) :
    setRow (setRow rows rowNum a) rowNum b = setRow rows rowNum b := by
  cases rows <;> simp [setRow, List.set_set]

theorem findOrInsertPos_getRow {ins ins1 : Insert} {col : CIString} {rowNum pos : Nat}
    {row : List ValExpr} (h : findOrInsertPos ins col rowNum = (ins1, .ok (row, pos))) :
    getRow ins1.Rows rowNum = .ok row := by
  rcases findOrInsertPos_ok_inv h with ⟨_, rfl, hr⟩ | ⟨_, _, row0, hr, _, rfl⟩
  · exact hr
  · exact getRow_setRow_self hr

theorem placeholder_ne (s c r : String) (h : s ≠ "_" ++ c) :
    ":" ++ s ++ r ≠ ":_" ++ c ++ r := by
  intro heq
  apply h
  have hd := congrArg String.data heq
  simp only [String.data_append] at hd
  have hd2 := List.append_cancel_right hd
  simp only [List.cons_append, List.nil_append, List.cons.injEq, true_and] at hd2
  apply String.ext
  rw [String.data_append, hd2]
  rfl

/-! ## The unsharded path and the column-list check -/

/-- C1: when the lookup resolves the table to an unsharded keyspace, `buildInsertPlan` returns
a route with opcode `InsertUnsharded` whose query is the text generated from the statement as
passed in, with no routing values and no `Generate` sub-plan, and the statement (column list
and rows, whatever the row source) is returned exactly as it was passed in. -/
theorem buildInsertPlan_unsharded (D : Deps) (vschema : VSchema) (ins : Insert) (table : Table)
    (hfind : vschema.Find ins.Table.Qualifier ins.Table.Name = .ok table)
    (hunsharded : table.Keyspace.Sharded = false) :
    buildInsertPlan D vschema ins =
      (ins, .ok { Opcode := .InsertUnsharded, Keyspace := some table.Keyspace,
                  Query := D.generateQuery ins, Table := some table,
                  Values := none, Generate := none }) := by
  simp [buildInsertPlan, hfind, hunsharded]

/-- C10: on a sharded table, a statement with an empty column list makes `buildInsertPlan` fail
with the error `no column list`, whatever the row source; no route is returned and the
statement is returned as it was passed in. -/
theorem buildInsertPlan_no_column_list (D : Deps) (vschema : VSchema) (ins : Insert)
    (table : Table) (hfind : vschema.Find ins.Table.Qualifier ins.Table.Name = .ok table)
    (hsharded : table.Keyspace.Sharded = true) (hcols : ins.Columns = []) :
    buildInsertPlan D vschema ins = (ins, .error "no column list") := by
  simp [buildInsertPlan, hfind, hsharded, hcols]

/-- Witness of C1 (`buildInsertPlan_unsharded`): an insert-select without a column list into
an unsharded table. -/
theorem buildInsertPlan_unsharded_witness :
    (vschemaOf mainTable).Find insertSelect.Table.Qualifier insertSelect.Table.Name
        = .ok mainTable ∧
      mainTable.Keyspace.Sharded = false ∧
      buildInsertPlan exampleDeps (vschemaOf mainTable) insertSelect =
        (insertSelect, .ok { Opcode := .InsertUnsharded, Keyspace := some mainTable.Keyspace,
                             Query := exampleDeps.generateQuery insertSelect,
                             Table := some mainTable, Values := none, Generate := none }) :=
  ⟨rfl, rfl, buildInsertPlan_unsharded exampleDeps (vschemaOf mainTable) insertSelect mainTable
    rfl rfl⟩

/-- Witness of C10 (`buildInsertPlan_no_column_list`): an insert-select without a column list
into the sharded table `user`. -/
theorem buildInsertPlan_no_column_list_witness :
    (vschemaOf userTable).Find insertUserSelect.Table.Qualifier insertUserSelect.Table.Name
        = .ok userTable ∧
      userTable.Keyspace.Sharded = true ∧ insertUserSelect.Columns = [] ∧
      buildInsertPlan exampleDeps (vschemaOf userTable) insertUserSelect =
        (insertUserSelect, .error "no column list") :=
  ⟨rfl, rfl, rfl, buildInsertPlan_no_column_list exampleDeps (vschemaOf userTable)
    insertUserSelect userTable rfl rfl rfl⟩

/-! ## The auto-increment planner -/

theorem buildAutoIncrementPlan_ok_inv {D : Deps} {ins ins2 : Insert} {autoinc : AutoIncrement}
    {route route2 : Route} {value value2 : List Value} {rowNum : Nat}
    (h : buildAutoIncrementPlan D ins autoinc route value rowNum = (ins2, route2, value2, .ok ())) :
    (0 ≤ autoinc.ColumnVindexNum ∧ ∃ v, value[autoinc.ColumnVindexNum.toNat]? = some v ∧
      ins2 = ins ∧
      route2 = { route with Generate := some { newGenerate autoinc with Value := v } } ∧
      value2 = value.set autoinc.ColumnVindexNum.toNat
        (Value.str (":" ++ D.SeqVarName ++ toString rowNum))) ∨
    (autoinc.ColumnVindexNum < 0 ∧ ∃ ins1 row pos e v,
      findOrInsertPos ins autoinc.Column rowNum = (ins1, .ok (row, pos)) ∧
      row[pos]? = some e ∧ D.valConvert e = .ok v ∧
      ins2 = { ins1 with Rows := setRow ins1.Rows rowNum (row.set pos
                (ValExpr.ValArg (":" ++ D.SeqVarName ++ toString rowNum))) } ∧
      route2 = { route with Generate := some { newGenerate autoinc with Value := v } } ∧
      value2 = value) := by
  unfold buildAutoIncrementPlan at h
  simp only at h
  split at h
  · rename_i hk
    split at h
    · simp at h
    · rename_i v hv
      simp only [Prod.mk.injEq, and_true] at h
      left
      exact ⟨hk, v, hv, h.1.symm, h.2.1.symm, h.2.2.symm⟩
  · rename_i hk
    split at h
    · rename_i ins1 row pos hf
      split at h
      · simp at h
      · rename_i e he
        split at h
        · simp at h
        · rename_i v hv
          simp only [Prod.mk.injEq, and_true] at h
          right
          exact ⟨by omega, ins1, row, pos, e, v, hf, he, hv, h.1.symm, h.2.1.symm, h.2.2.symm⟩
    · simp at h
    · simp at h

/-- C7, amended: in the coincidence case (`0 ≤ ColumnVindexNum < len(value)`)
`buildAutoIncrementPlan` succeeds; the `Generate` default value is the entry at that index
before the call; after the call that entry is the string `:` + `SeqVarName` + decimal row
number, which differs from the per-column placeholder `:_<column><rowNum>` of every column
whose name is not `SeqVarName` without its leading underscore; the list keeps its length and
every other entry; the statement is returned unchanged. -/
theorem buildAutoIncrementPlan_coincidence (D : Deps) (ins : Insert) (autoinc : AutoIncrement)
    (route : Route) (value : List Value) (rowNum : Nat)
    (hk0 : 0 ≤ autoinc.ColumnVindexNum) (hklt : autoinc.ColumnVindexNum < value.length) :
    ∃ v value2,
      value[autoinc.ColumnVindexNum.toNat]? = some v ∧
      buildAutoIncrementPlan D ins autoinc route value rowNum =
        (ins,
         { route with
           Generate := some
             { Opcode := .SelectUnsharded
               Keyspace := autoinc.Sequence.Keyspace
               Query := "select next value from `" ++ autoinc.Sequence.Name ++ "`"
               Value := v } },
         value2, .ok ()) ∧
      value2[autoinc.ColumnVindexNum.toNat]?
        = some (Value.str (":" ++ D.SeqVarName ++ toString rowNum)) ∧
      (∀ c : String, D.SeqVarName ≠ "_" ++ c →
        value2[autoinc.ColumnVindexNum.toNat]? ≠ some (Value.str (":_" ++ c ++ toString rowNum))) ∧
      value2.length = value.length ∧
      ∀ j, j ≠ autoinc.ColumnVindexNum.toNat → value2[j]? = value[j]? := by
  have hlt : autoinc.ColumnVindexNum.toNat < value.length := by omega
  refine ⟨value[autoinc.ColumnVindexNum.toNat],
    value.set autoinc.ColumnVindexNum.toNat (Value.str (":" ++ D.SeqVarName ++ toString rowNum)),
    List.getElem?_eq_getElem hlt, ?_, ?_, ?_, ?_, ?_⟩
  · simp only [buildAutoIncrementPlan, ge_iff_le, hk0, if_true, List.getElem?_eq_getElem hlt,
      newGenerate]
  · exact List.getElem?_set_self hlt
  · intro c hc
    rw [List.getElem?_set_self hlt]
    intro heq
    simp only [Option.some.injEq, Value.str.injEq] at heq
    exact placeholder_ne _ _ _ hc heq
  · simp
  · intro j hj
    exact List.getElem?_set_ne (Ne.symm hj)

/-- Witness of C7, amended (`buildAutoIncrementPlan_coincidence`): row 0 of an insert into `user`, whose
auto-increment column is shard-routing column 0, with the extracted list `[1]`. -/
theorem buildAutoIncrementPlan_coincidence_witness :
    ∃ v value2,
      [Value.int64 1][(0 : Int).toNat]? = some v ∧
      buildAutoIncrementPlan exampleDeps insertUser
          { Column := ident "id", Sequence := userSeq, ColumnVindexNum := 0 } emptyRoute
          [Value.int64 1] 0 =
        (insertUser,
         { emptyRoute with
           Generate := some
             { Opcode := .SelectUnsharded
               Keyspace := userSeq.Keyspace
               Query := "select next value from `" ++ userSeq.Name ++ "`"
               Value := v } },
         value2, .ok ()) ∧
      value2[(0 : Int).toNat]? = some (Value.str (":" ++ exampleDeps.SeqVarName ++ toString 0)) ∧
      (∀ c : String, exampleDeps.SeqVarName ≠ "_" ++ c →
        value2[(0 : Int).toNat]? ≠ some (Value.str (":_" ++ c ++ toString 0))) ∧
      value2.length = [Value.int64 1].length ∧
      ∀ j, j ≠ (0 : Int).toNat → value2[j]? = [Value.int64 1][j]? :=
  buildAutoIncrementPlan_coincidence exampleDeps insertUser
    { Column := ident "id", Sequence := userSeq, ColumnVindexNum := 0 } emptyRoute
    [Value.int64 1] 0 (by decide) (by decide)

/-- C8: in the independent case (`ColumnVindexNum < 0`), when the slot that `findOrInsertPos`
locates for the auto-increment column in row `rowNum` converts successfully,
`buildAutoIncrementPlan` succeeds, the `Generate` default value is that conversion, the located
slot of row `rowNum` is rewritten to the bind variable `:` + `SeqVarName` + decimal row number,
and the routing-value list is returned unchanged.  When the column is absent from the column
list and the row has the column list's length, the located slot is the NULL literal
synthesized at the tail of the row. -/
theorem buildAutoIncrementPlan_independent (D : Deps) (ins ins1 : Insert)
    (autoinc : AutoIncrement) (route : Route) (value : List Value) (rowNum pos : Nat)
    (row : List ValExpr) (e : ValExpr) (v : Value)
    (hneg : autoinc.ColumnVindexNum < 0)
    (hloc : findOrInsertPos ins autoinc.Column rowNum = (ins1, .ok (row, pos)))
    (hslot : row[pos]? = some e) (hconv : D.valConvert e = .ok v) :
    ∃ ins2,
      buildAutoIncrementPlan D ins autoinc route value rowNum =
        (ins2,
         { route with
           Generate := some
             { Opcode := .SelectUnsharded
               Keyspace := autoinc.Sequence.Keyspace
               Query := "select next value from `" ++ autoinc.Sequence.Name ++ "`"
               Value := v } },
         value, .ok ()) ∧
      ins2.Columns = ins1.Columns ∧
      getRow ins2.Rows rowNum =
        .ok (row.set pos (ValExpr.ValArg (":" ++ D.SeqVarName ++ toString rowNum))) ∧
      (∀ j, j ≠ rowNum → getRow ins2.Rows j = getRow ins.Rows j) ∧
      (findPos ins.Columns autoinc.Column = none →
        ∀ row0, getRow ins.Rows rowNum = .ok row0 → row0.length = ins.Columns.length →
          row = row0 ++ [ValExpr.NullVal] ∧ pos = row0.length ∧ e = ValExpr.NullVal) := by
  have hk : ¬ (autoinc.ColumnVindexNum ≥ 0) := by omega
  refine ⟨{ ins1 with Rows := setRow ins1.Rows rowNum (row.set pos
    (ValExpr.ValArg (":" ++ D.SeqVarName ++ toString rowNum))) }, ?_, ?_, ?_, ?_, ?_⟩
  · simp only [buildAutoIncrementPlan, hk, if_false, hloc, hslot, hconv, newGenerate]
  · rfl
  · exact getRow_setRow_self (findOrInsertPos_getRow hloc)
  · intro j hj
    simp only
    rw [getRow_setRow_ne (Ne.symm hj)]
    rcases findOrInsertPos_ok_inv hloc with ⟨_, rfl, _⟩ | ⟨_, _, row0, _, _, rfl⟩
    · rfl
    · exact getRow_setRow_ne (Ne.symm hj)
  · intro habs row0 hrow0 hlen
    rcases findOrInsertPos_ok_inv hloc with ⟨hf, _, _⟩ | ⟨_, hpos, row1, hr1, hrow, _⟩
    · rw [habs] at hf
      cases hf
    · rw [hrow0] at hr1
      cases hr1
      refine ⟨hrow, by omega, ?_⟩
      subst hrow
      have hp : pos = row0.length := by omega
      subst hp
      simpa using hslot.symm

/-- Witness of C8 (`buildAutoIncrementPlan_independent`): row 1 of
`insert into music(user_id, id) values (1, 5), (2, 6)`, where `id` is found at position 1. -/
theorem buildAutoIncrementPlan_independent_witness :
    ∃ ins2,
      buildAutoIncrementPlan exampleDeps insertMusic
          { Column := ident "id", Sequence := userSeq, ColumnVindexNum := -1 } emptyRoute
          [Value.int64 2] 1 =
        (ins2,
         { emptyRoute with
           Generate := some
             { Opcode := .SelectUnsharded
               Keyspace := userSeq.Keyspace
               Query := "select next value from `" ++ userSeq.Name ++ "`"
               Value := Value.int64 6 } },
         [Value.int64 2], .ok ()) ∧
      ins2.Columns = insertMusic.Columns ∧
      getRow ins2.Rows 1 =
        .ok ([ValExpr.NumVal "2", ValExpr.NumVal "6"].set 1
          (ValExpr.ValArg (":" ++ exampleDeps.SeqVarName ++ toString 1))) ∧
      (∀ j, j ≠ 1 → getRow ins2.Rows j = getRow insertMusic.Rows j) ∧
      (findPos insertMusic.Columns (ident "id") = none →
        ∀ row0, getRow insertMusic.Rows 1 = .ok row0 →
          row0.length = insertMusic.Columns.length →
          [ValExpr.NumVal "2", ValExpr.NumVal "6"] = row0 ++ [ValExpr.NullVal] ∧
            1 = row0.length ∧ ValExpr.NumVal "6" = ValExpr.NullVal) :=
  buildAutoIncrementPlan_independent exampleDeps insertMusic insertMusic
    { Column := ident "id", Sequence := userSeq, ColumnVindexNum := -1 } emptyRoute
    [Value.int64 2] 1 1 [ValExpr.NumVal "2", ValExpr.NumVal "6"] (ValExpr.NumVal "6")
    (Value.int64 6) (by decide) rfl rfl rfl

/-! ## Loop rules -/

/-- Invariant rule for the descriptor loop: a property that holds before the loop and is kept
by every successful `buildIndexPlan` holds after a successful loop. -/
theorem indexLoop_ok_induct {D : Deps} {rowNum : Nat} :
    ∀ (cvs : List ColumnVindex) (P : Nat → Insert → List Value → Prop) (ins : Insert)
      (value : List Value) (ins2 : Insert) (value2 : List Value),
      indexLoop D rowNum cvs ins value = (ins2, value2, .ok ()) →
      P 0 ins value →
      (∀ i (hi : i < cvs.length) insA valueA insB valueB, P i insA valueA →
        buildIndexPlan D insA cvs[i] valueA rowNum = (insB, valueB, .ok ()) →
        P (i + 1) insB valueB) →
      P cvs.length ins2 value2 := by
  intro cvs
  induction cvs with
  | nil =>
    intro P ins value ins2 value2 h h0 _
    simp only [indexLoop, Prod.mk.injEq, and_true] at h
    obtain ⟨rfl, rfl⟩ := h
    exact h0
  | cons cv rest ih =>
    intro P ins value ins2 value2 h h0 hstep
    unfold indexLoop at h
    split at h
    · rename_i ins1 value1 u hb
      have hb2 : buildIndexPlan D ins cv value rowNum = (ins1, value1, .ok ()) := hb
      have h1 : P 1 ins1 value1 := hstep 0 (by simp) ins value ins1 value1 h0 hb2
      exact ih (fun i => P (i + 1)) ins1 value1 ins2 value2 h h1
        (fun i hi insA valueA insB valueB hP hB =>
          hstep (i + 1) (by simpa using hi) insA valueA insB valueB hP (by simpa using hB))
    · simp at h
    · simp at h

/-- Invariant rule for the row loop: a property that holds before the loop and is kept by every
successful pass of the loop body holds after a successful loop. -/
theorem rowLoop_ok_induct {D : Deps} {table : Table} :
    ∀ (remaining : Nat) (P : Nat → Insert → Route → List (List Value) → Prop) (rowNum : Nat)
      (ins : Insert) (route : Route) (routeValues : List (List Value)) (ins2 : Insert)
      (route2 : Route) (routeValues2 : List (List Value)),
      rowLoop D table remaining rowNum ins route routeValues = (ins2, route2, .ok routeValues2) →
      P rowNum ins route routeValues →
      (∀ r insA routeA rvA insB routeB value, rowNum ≤ r → r < rowNum + remaining →
        P r insA routeA rvA →
        rowStep D table r insA routeA = (insB, routeB, value, .ok ()) →
        P (r + 1) insB routeB (rvA ++ [value])) →
      P (rowNum + remaining) ins2 route2 routeValues2 := by
  intro remaining
  induction remaining with
  | zero =>
    intro P rowNum ins route routeValues ins2 route2 routeValues2 h h0 _
    simp only [rowLoop, Prod.mk.injEq, Outcome.ok.injEq] at h
    obtain ⟨rfl, rfl, rfl⟩ := h
    exact h0
  | succ n ih =>
    intro P rowNum ins route routeValues ins2 route2 routeValues2 h h0 hstep
    unfold rowLoop at h
    split at h
    · rename_i ins1 route1 value u hs
      have hs2 : rowStep D table rowNum ins route = (ins1, route1, value, .ok ()) := hs
      have h1 := hstep rowNum ins route routeValues ins1 route1 value (Nat.le_refl _)
        (by omega) h0 hs2
      have := ih P (rowNum + 1) ins1 route1 (routeValues ++ [value]) ins2 route2 routeValues2 h h1
        (fun r insA routeA rvA insB routeB value hle hlt hP hS =>
          hstep r insA routeA rvA insB routeB value (by omega) (by omega) hP hS)
      have he : rowNum + (n + 1) = rowNum + 1 + n := by omega
      rw [he]
      exact this
    · simp at h
    · simp at h

theorem rowStep_ok_inv {D : Deps} {table : Table} {rowNum : Nat} {ins ins2 : Insert}
    {route route2 : Route} {value : List Value}
    (h : rowStep D table rowNum ins route = (ins2, route2, value, .ok ())) :
    ∃ ins1 value1, indexLoop D rowNum table.ColumnVindexes ins [] = (ins1, value1, .ok ()) ∧
      ((table.AutoIncrement = none ∧ ins2 = ins1 ∧ route2 = route ∧ value = value1) ∨
       (∃ autoinc, table.AutoIncrement = some autoinc ∧
          buildAutoIncrementPlan D ins1 autoinc route value1 rowNum
            = (ins2, route2, value, .ok ()))) := by
  unfold rowStep at h
  split at h
  · rename_i ins1 value1 u hl
    refine ⟨ins1, value1, hl, ?_⟩
    split at h
    · rename_i autoinc ha
      exact Or.inr ⟨autoinc, ha, h⟩
    · rename_i ha
      simp only [Prod.mk.injEq, and_true] at h
      exact Or.inl ⟨ha, h.1.symm, h.2.1.symm, h.2.2.symm⟩
  · simp at h
  · simp at h

theorem buildInsertPlan_sharded_ok_inv {D : Deps} {vschema : VSchema} {ins ins2 : Insert}
    {table : Table} {route : Route}
    (hfind : vschema.Find ins.Table.Qualifier ins.Table.Name = .ok table)
    (hsharded : table.Keyspace.Sharded = true)
    (hok : buildInsertPlan D vschema ins = (ins2, .ok route)) :
    ∃ values routeL routeValues, ins.Rows = .Values values ∧ ins.Columns ≠ [] ∧
      checkRows ins.Columns.length values = none ∧
      rowLoop D table values.length 0 ins (shardedRoute D table ins values) []
        = (ins2, routeL, .ok routeValues) ∧
      route = { routeL with Values := some routeValues, Query := D.generateQuery ins2 } := by
  unfold buildInsertPlan at hok
  simp only [hfind, hsharded, Bool.not_true, Bool.false_eq_true, if_false] at hok
  split at hok
  · simp at hok
  · rename_i hcols
    split at hok
    · simp at hok
    · simp at hok
    · simp at hok
    · rename_i values hrows
      split at hok
      · simp at hok
      · rename_i hcheck
        split at hok
        · rename_i ins1 route1 rvs hloop
          simp only [Prod.mk.injEq, Outcome.ok.injEq] at hok
          obtain ⟨rfl, rfl⟩ := hok
          refine ⟨values, route1, rvs, hrows, ?_, hcheck, ?_, rfl⟩
          · intro hc
            apply hcols
            simp [hc]
          · rw [← hloop]
            unfold shardedRoute
            split <;> simp_all
        · simp at hok
        · simp at hok

/-! ## Opcode, Generate sub-plan and shape of the routing values -/

theorem rowStep_ok_route {D : Deps} {table : Table} {rowNum : Nat} {ins ins2 : Insert}
    {route route2 : Route} {value : List Value}
    (h : rowStep D table rowNum ins route = (ins2, route2, value, .ok ())) :
    (table.AutoIncrement = none ∧ route2 = route) ∨
    (∃ autoinc v, table.AutoIncrement = some autoinc ∧
      route2 = { route with Generate := some { newGenerate autoinc with Value := v } }) := by
  obtain ⟨ins1, value1, _, hcase⟩ := rowStep_ok_inv h
  rcases hcase with ⟨ha, _, hr, _⟩ | ⟨autoinc, ha, hb⟩
  · exact Or.inl ⟨ha, hr⟩
  · right
    rcases buildAutoIncrementPlan_ok_inv hb with ⟨_, v, _, _, hr, _⟩ | ⟨_, _, _, _, _, v, _, _, _, _, hr, _⟩
    · exact ⟨autoinc, v, ha, hr⟩
    · exact ⟨autoinc, v, ha, hr⟩

theorem indexLoop_ok_length {D : Deps} {rowNum : Nat} {cvs : List ColumnVindex}
    {ins ins2 : Insert} {value value2 : List Value}
    (h : indexLoop D rowNum cvs ins value = (ins2, value2, .ok ())) :
    value2.length = value.length + cvs.length := by
  refine indexLoop_ok_induct cvs (fun i _ v => v.length = value.length + i) ins value ins2 value2
    h rfl ?_
  intro i _ insA valueA insB valueB hP hB
  obtain ⟨_, _, _, _, _, _, _, _, _, hv⟩ := buildIndexPlan_ok_inv hB
  subst hv
  simp only [List.length_append, List.length_singleton, hP]
  omega

theorem rowStep_ok_length {D : Deps} {table : Table} {rowNum : Nat} {ins ins2 : Insert}
    {route route2 : Route} {value : List Value}
    (h : rowStep D table rowNum ins route = (ins2, route2, value, .ok ())) :
    value.length = table.ColumnVindexes.length := by
  obtain ⟨ins1, value1, hl, hcase⟩ := rowStep_ok_inv h
  have h1 : value1.length = table.ColumnVindexes.length := by
    simpa using indexLoop_ok_length hl
  rcases hcase with ⟨_, _, _, hv⟩ | ⟨autoinc, _, hb⟩
  · rw [hv]
    exact h1
  · rcases buildAutoIncrementPlan_ok_inv hb with ⟨_, v, _, _, _, hv⟩ | ⟨_, _, _, _, _, _, _, _, _, _, _, hv⟩
    · rw [hv, List.length_set]
      exact h1
    · rw [hv]
      exact h1

/-- C6: a route returned for a sharded insert has opcode `InsertSharded` exactly when the
statement has one row-tuple, and `MultiInsertSharded` for every other number of rows. -/
theorem buildInsertPlan_opcode (D : Deps) (vschema : VSchema) (ins ins2 : Insert) (table : Table)
    (route : Route) (values : List RowTuple)
    (hfind : vschema.Find ins.Table.Qualifier ins.Table.Name = .ok table)
    (hsharded : table.Keyspace.Sharded = true)
    (hrows : ins.Rows = .Values values)
    (hok : buildInsertPlan D vschema ins = (ins2, .ok route)) :
    (route.Opcode = .InsertSharded ↔ values.length = 1) ∧
    (values.length ≠ 1 → route.Opcode = .MultiInsertSharded) := by
  obtain ⟨values1, routeL, rvs, hrows1, _, _, hloop, hroute⟩ :=
    buildInsertPlan_sharded_ok_inv hfind hsharded hok
  rw [hrows] at hrows1
  cases hrows1
  have hop : routeL.Opcode = (shardedRoute D table ins values).Opcode := by
    refine rowLoop_ok_induct values.length
      (fun _ _ ro _ => ro.Opcode = (shardedRoute D table ins values).Opcode)
      0 ins _ [] ins2 routeL rvs hloop rfl ?_
    intro r insA routeA rvA insB routeB value _ _ hP hS
    rcases rowStep_ok_route hS with ⟨_, hr⟩ | ⟨_, _, _, hr⟩
    · rw [hr]
      exact hP
    · rw [hr]
      exact hP
  have hop2 : route.Opcode = (shardedRoute D table ins values).Opcode := by
    rw [hroute]
    exact hop
  rw [hop2]
  unfold shardedRoute
  by_cases hlen : values.length = 1 <;> simp [hlen]

/-- Witness of C6 (`buildInsertPlan_opcode`): the one-row statement
`insert into user(id, name) values (1, 'a')`. -/
theorem buildInsertPlan_opcode_witness :
    (insertUserRoute.Opcode = .InsertSharded ↔
        [RowTuple.ValTuple [.NumVal "1", .StrVal "a"]].length = 1) ∧
      ([RowTuple.ValTuple [.NumVal "1", .StrVal "a"]].length ≠ 1 →
        insertUserRoute.Opcode = .MultiInsertSharded) :=
  buildInsertPlan_opcode exampleDeps (vschemaOf userTable) insertUser insertUserPlanned userTable
    insertUserRoute [.ValTuple [.NumVal "1", .StrVal "a"]] rfl rfl rfl (by decide)

/-- C9: a route returned for a sharded insert with at least one row into a table with an
auto-increment descriptor carries a `Generate` sub-plan with opcode `SelectUnsharded`, the
keyspace of the sequence, and the query text `select next value from` followed by the
back-quoted sequence name, in the coincidence and in the independent case alike. -/
theorem buildInsertPlan_generate (D : Deps) (vschema : VSchema) (ins ins2 : Insert)
    (table : Table) (route : Route) (values : List RowTuple) (autoinc : AutoIncrement)
    (hfind : vschema.Find ins.Table.Qualifier ins.Table.Name = .ok table)
    (hsharded : table.Keyspace.Sharded = true)
    (hauto : table.AutoIncrement = some autoinc)
    (hrows : ins.Rows = .Values values) (hpos : 0 < values.length)
    (hok : buildInsertPlan D vschema ins = (ins2, .ok route)) :
    ∃ g, route.Generate = some g ∧ g.Opcode = .SelectUnsharded ∧
      g.Keyspace = autoinc.Sequence.Keyspace ∧
      g.Query = "select next value from `" ++ autoinc.Sequence.Name ++ "`" := by
  obtain ⟨values1, routeL, rvs, hrows1, _, _, hloop, hroute⟩ :=
    buildInsertPlan_sharded_ok_inv hfind hsharded hok
  rw [hrows] at hrows1
  cases hrows1
  have hgen : 0 + values.length ≥ 1 → ∃ g, routeL.Generate = some g ∧
      g.Opcode = .SelectUnsharded ∧ g.Keyspace = autoinc.Sequence.Keyspace ∧
      g.Query = "select next value from `" ++ autoinc.Sequence.Name ++ "`" := by
    refine rowLoop_ok_induct values.length
      (fun r _ ro _ => r ≥ 1 → ∃ g, ro.Generate = some g ∧
        g.Opcode = .SelectUnsharded ∧ g.Keyspace = autoinc.Sequence.Keyspace ∧
        g.Query = "select next value from `" ++ autoinc.Sequence.Name ++ "`")
      0 ins _ [] ins2 routeL rvs hloop (by intro h; omega) ?_
    intro r insA routeA rvA insB routeB value _ _ _ hS _
    rcases rowStep_ok_route hS with ⟨ha, _⟩ | ⟨a, v, ha, hr⟩
    · rw [hauto] at ha
      cases ha
    · rw [hauto] at ha
      cases ha
      rw [hr]
      exact ⟨_, rfl, rfl, rfl, rfl⟩
  obtain ⟨g, hg, h1, h2, h3⟩ := hgen (by omega)
  refine ⟨g, ?_, h1, h2, h3⟩
  rw [hroute]
  exact hg

/-- Witness of C9 (`buildInsertPlan_generate`): the two-row statement
`insert into music(user_id, id) values (1, 5), (2, 6)`. -/
theorem buildInsertPlan_generate_witness :
    ∃ g, insertMusicRoute.Generate = some g ∧ g.Opcode = .SelectUnsharded ∧
      g.Keyspace = userSeq.Keyspace ∧
      g.Query = "select next value from `" ++ userSeq.Name ++ "`" :=
  buildInsertPlan_generate exampleDeps (vschemaOf musicTable) insertMusic insertMusicPlanned
    musicTable insertMusicRoute
    [.ValTuple [.NumVal "1", .NumVal "5"], .ValTuple [.NumVal "2", .NumVal "6"]]
    { Column := ident "id", Sequence := userSeq, ColumnVindexNum := -1 }
    rfl rfl rfl rfl (by decide) (by decide)

/-! ## Extraction when every shard-routing column is in the column list -/

theorem set_of_getElem? {α : Type} {l : List α} {i : Nat} {a : α} (h : l[i]? = some a) :
    l.set i a = l := by
  obtain ⟨hlt, _⟩ := List.getElem?_eq_some_iff.mp h
  apply List.ext_getElem?
  intro j
  by_cases hj : i = j
  · subst hj
    rw [List.getElem?_set_self hlt, h]
  · rw [List.getElem?_set_ne hj]

theorem findPos_same_pos {columns : List ColIdent} {a b : CIString} {p : Nat}
    (ha : findPos columns a = some p) (hb : findPos columns b = some p) : a.Equal b = true := by
  have h1 := List.findIdx?_of_eq_some ha
  have h2 := List.findIdx?_of_eq_some hb
  cases hx : columns[p]? with
  | none => simp [hx] at h1
  | some x =>
    simp only [hx, CIString.Equal, beq_iff_eq] at h1 h2
    simp [CIString.Equal, h1, h2]

theorem checkRows_none {ncols : Nat} :
    ∀ (values : List RowTuple), checkRows ncols values = none →
      ∀ (r : Nat) (t : RowTuple), values[r]? = some t →
        ∃ row, t = RowTuple.ValTuple row ∧ row.length = ncols := by
  intro values
  induction values with
  | nil =>
    intro _ r t h
    simp at h
  | cons t0 rest ih =>
    intro hc r t h
    cases t0 with
    | Subquery text => simp [checkRows] at hc
    | ValTuple row0 =>
      simp only [checkRows, ne_eq, ite_not] at hc
      split at hc
      · rename_i hlen
        cases r with
        | zero =>
          simp only [List.getElem?_cons_zero, Option.some.injEq] at h
          exact ⟨row0, h.symm, hlen.symm⟩
        | succ r =>
          simp only [List.getElem?_cons_succ] at h
          exact ih hc r t h
      · simp at hc

theorem buildIndexPlan_present_ok {D : Deps} {ins ins2 : Insert} {cv : ColumnVindex}
    {value value2 : List Value} {rowNum pos : Nat}
    (hpos : findPos ins.Columns cv.Column = some pos)
    (h : buildIndexPlan D ins cv value rowNum = (ins2, value2, .ok ())) :
    ∃ row e v, getRow ins.Rows rowNum = .ok row ∧ row[pos]? = some e ∧ D.valConvert e = .ok v ∧
      ins2 = { ins with Rows := setRow ins.Rows rowNum (row.set pos
                (ValExpr.ValArg (":_" ++ cv.Column.Original ++ toString rowNum))) } ∧
      value2 = value ++ [v] := by
  obtain ⟨ins1, row, pos1, e, v, hf, he, hv, hins, hval⟩ := buildIndexPlan_ok_inv h
  rcases findOrInsertPos_ok_inv hf with ⟨hp, rfl, hr⟩ | ⟨hp, _, _⟩
  · rw [hpos] at hp
    cases hp
    exact ⟨row, e, v, hr, he, hv, hins, hval⟩
  · rw [hpos] at hp
    cases hp

/-- The descriptor loop on one row whose shard-routing columns are pairwise different and all
in the column list: every descriptor reads the slot of its column as it was before the loop,
appends its conversion, and leaves the bind variable in the slot; nothing else changes. -/
theorem indexLoop_present_ok {D : Deps} {r : Nat} :
    ∀ (cvs : List ColumnVindex) (ins ins2 : Insert) (value value2 : List Value)
      (values : List RowTuple) (rowA : List ValExpr),
      ins.Rows = .Values values → values[r]? = some (.ValTuple rowA) →
      (∀ cv ∈ cvs, ∃ pos, findPos ins.Columns cv.Column = some pos) →
      cvs.Pairwise (fun a b => a.Column.Equal b.Column = false) →
      indexLoop D r cvs ins value = (ins2, value2, .ok ()) →
      ∃ row2, ins2 = { ins with Rows := .Values (values.set r (.ValTuple row2)) } ∧
        row2.length = rowA.length ∧ value2.length = value.length + cvs.length ∧
        (∀ j, j < value.length → value2[j]? = value[j]?) ∧
        (∀ i (hi : i < cvs.length), ∃ pos e v,
          findPos ins.Columns cvs[i].Column = some pos ∧ rowA[pos]? = some e ∧
          D.valConvert e = .ok v ∧ value2[value.length + i]? = some v ∧
          row2[pos]? = some (ValExpr.ValArg (":_" ++ cvs[i].Column.Original ++ toString r))) ∧
        (∀ p, (∀ cv ∈ cvs, findPos ins.Columns cv.Column ≠ some p) → row2[p]? = rowA[p]?) := by
  intro cvs
  induction cvs with
  | nil =>
    intro ins ins2 value value2 values rowA hrows hrow _ _ h
    simp only [indexLoop, Prod.mk.injEq, and_true] at h
    obtain ⟨rfl, rfl⟩ := h
    refine ⟨rowA, ?_, rfl, rfl, fun _ _ => rfl, ?_, fun _ _ => rfl⟩
    · rw [set_of_getElem? hrow, ← hrows]
    · intro i hi
      simp at hi
  | cons cv rest ih =>
    intro ins ins2 value value2 values rowA hrows hrow hpresent hdistinct h
    obtain ⟨hcv, hrest⟩ := List.pairwise_cons.mp hdistinct
    obtain ⟨pos0, hpos0⟩ := hpresent cv (List.mem_cons_self _ _)
    unfold indexLoop at h
    split at h
    · rename_i ins1 value1 u hb
      have hb2 : buildIndexPlan D ins cv value r = (ins1, value1, .ok ()) := hb
      obtain ⟨row, e0, v0, hgr, he0, hv0, hins1, hval1⟩ := buildIndexPlan_present_ok hpos0 hb2
      have hroweq : row = rowA := by
        have := getRow_ok_iff.mpr ⟨values, hrows, hrow⟩
        rw [this] at hgr
        cases hgr
        rfl
      subst hroweq
      subst hval1
      have hrlt : r < values.length := (List.getElem?_eq_some_iff.mp hrow).1
      have hp0lt : pos0 < row.length := (List.getElem?_eq_some_iff.mp he0).1
      have hrows1 : ins1.Rows = .Values (values.set r (.ValTuple (row.set pos0
          (ValExpr.ValArg (":_" ++ cv.Column.Original ++ toString r))))) := by
        rw [hins1]
        simp [hrows, setRow]
      have hcols1 : ins1.Columns = ins.Columns := by rw [hins1]
      have hpresent1 : ∀ c ∈ rest, ∃ pos, findPos ins1.Columns c.Column = some pos := by
        intro c hc
        rw [hcols1]
        exact hpresent c (List.mem_cons_of_mem _ hc)
      obtain ⟨row2, hins2, hlen, hvlen, hpre, hidx, hframe⟩ :=
        ih ins1 ins2 (value ++ [v0]) value2 _ _ hrows1 (List.getElem?_set_self hrlt) hpresent1 hrest h
      have hne : ∀ c ∈ rest, findPos ins.Columns c.Column ≠ some pos0 := by
        intro c hc hcp
        have := findPos_same_pos hpos0 hcp
        rw [hcv c hc] at this
        cases this
      refine ⟨row2, ?_, ?_, ?_, ?_, ?_, ?_⟩
      · rw [hins2, hins1]
        simp [List.set_set]
      · rw [hlen]
        simp
      · rw [hvlen]
        simp only [List.length_append, List.length_singleton, List.length_cons, List.length_nil]
        omega
      · intro j hj
        have hj2 : j < (value ++ [v0]).length := by
          simp only [List.length_append, List.length_singleton]
          omega
        rw [hpre j hj2, List.getElem?_append_left hj]
      · intro i hi
        cases i with
        | zero =>
          refine ⟨pos0, e0, v0, hpos0, he0, hv0, ?_, ?_⟩
          · have hj2 : value.length < (value ++ [v0]).length := by
              simp only [List.length_append, List.length_singleton]
              omega
            rw [Nat.add_zero, hpre _ hj2, List.getElem?_append_right (Nat.le_refl _)]
            simp
          · rw [hframe pos0 (by intro c hc; rw [hcols1]; exact hne c hc)]
            exact List.getElem?_set_self hp0lt
        | succ i =>
          have hi2 : i < rest.length := by simpa using hi
          obtain ⟨pos, e, v, hpos, he, hv, hval, hslot⟩ := hidx i hi2
          rw [hcols1] at hpos
          have hpne : pos0 ≠ pos := by
            intro heq
            subst heq
            exact hne rest[i] (List.getElem_mem _) hpos
          refine ⟨pos, e, v, by simpa using hpos, ?_, hv, ?_, by simpa using hslot⟩
          · rw [List.getElem?_set_ne hpne] at he
            exact he
          · have hidxeq : value.length + (i + 1) = (value ++ [v0]).length + i := by
              simp only [List.length_append, List.length_singleton]
              omega
            rw [hidxeq]
            exact hval
      · intro p hp
        have hp0 : pos0 ≠ p := by
          intro heq
          subst heq
          exact hp cv (List.mem_cons_self _ _) hpos0
        rw [hframe p (by intro c hc; rw [hcols1]; exact hp c (List.mem_cons_of_mem _ hc)),
          List.getElem?_set_ne hp0]
    · simp at h
    · simp at h

/-- The row loop of a sharded insert without auto-increment whose shard-routing columns are
pairwise different and all in the column list: the column list stays, and every row is
extracted as `RowExtracted` says. -/
theorem rowLoop_present_ok {D : Deps} {table : Table} {ins ins2 : Insert} {route route2 : Route}
    {rvs : List (List Value)} {values : List RowTuple}
    (hauto : table.AutoIncrement = none)
    (hrows : ins.Rows = .Values values)
    (hcheck : checkRows ins.Columns.length values = none)
    (hpresent : ∀ cv ∈ table.ColumnVindexes, ∃ pos, findPos ins.Columns cv.Column = some pos)
    (hdistinct : table.ColumnVindexes.Pairwise (fun a b => a.Column.Equal b.Column = false))
    (hloop : rowLoop D table values.length 0 ins route [] = (ins2, route2, .ok rvs)) :
    ∃ values2, ins2 = { ins with Rows := .Values values2 } ∧ values2.length = values.length ∧
      rvs.length = values.length ∧
      ∀ r, r < values.length → ∃ row0 row2 l,
        values[r]? = some (.ValTuple row0) ∧ values2[r]? = some (.ValTuple row2) ∧
        rvs[r]? = some l ∧ RowExtracted D ins.Columns table.ColumnVindexes r row0 row2 l := by
  have hinv := rowLoop_ok_induct values.length
    (fun n insA _ rvA => ∃ valuesA, insA = { ins with Rows := .Values valuesA } ∧
      valuesA.length = values.length ∧ (∀ j, n ≤ j → valuesA[j]? = values[j]?) ∧
      rvA.length = n ∧
      ∀ r, r < n → ∃ row0 row2 l,
        values[r]? = some (.ValTuple row0) ∧ valuesA[r]? = some (.ValTuple row2) ∧
        rvA[r]? = some l ∧ RowExtracted D ins.Columns table.ColumnVindexes r row0 row2 l)
    0 ins route [] ins2 route2 rvs hloop
    ⟨values, by rw [← hrows], rfl, fun _ _ => rfl, rfl, by intro r hr; omega⟩ ?_
  · obtain ⟨values2, h1, h2, _, h4, h5⟩ := hinv
    exact ⟨values2, h1, h2, by omega, fun r hr => h5 r (by omega)⟩
  · intro r insA routeA rvA insB routeB value _ hr hP hS
    obtain ⟨valuesA, hinsA, hlenA, hrestA, hrvlen, hdone⟩ := hP
    obtain ⟨ins1, value1, hl, hcase⟩ := rowStep_ok_inv hS
    rcases hcase with ⟨_, hB, _, hv⟩ | ⟨autoinc, ha, _⟩
    · subst hB hv
      have hrlt : r < values.length := by omega
      obtain ⟨row0, ht, _⟩ := checkRows_none values hcheck r values[r]
        (List.getElem?_eq_getElem hrlt)
      have hrow0 : values[r]? = some (.ValTuple row0) := by
        rw [List.getElem?_eq_getElem hrlt, ht]
      have hrowA : valuesA[r]? = some (.ValTuple row0) := by
        rw [hrestA r (Nat.le_refl _), hrow0]
      have hrowsA : insA.Rows = .Values valuesA := by rw [hinsA]
      have hcolsA : insA.Columns = ins.Columns := by rw [hinsA]
      obtain ⟨row2, hins2, hlen2, hvlen, _, hidx, hframe⟩ :=
        indexLoop_present_ok table.ColumnVindexes insA insB [] value valuesA row0 hrowsA hrowA
          (by rw [hcolsA]; exact hpresent) hdistinct hl
      refine ⟨valuesA.set r (.ValTuple row2), ?_, ?_, ?_, ?_, ?_⟩
      · rw [hins2, hinsA]
      · rw [List.length_set, hlenA]
      · intro j hj
        rw [List.getElem?_set_ne (by omega), hrestA j (by omega)]
      · simp [hrvlen]
      · intro j hj
        rcases Nat.lt_or_ge j r with hjr | hjr
        · obtain ⟨rowj0, rowj2, l, hj1, hj2, hj3, hj4⟩ := hdone j hjr
          refine ⟨rowj0, rowj2, l, hj1, ?_, ?_, hj4⟩
          · rw [List.getElem?_set_ne (by omega), hj2]
          · rw [List.getElem?_append_left (by omega), hj3]
        · have hjeq : j = r := by omega
          subst hjeq
          refine ⟨row0, row2, value, hrow0, ?_, ?_, hlen2, by simpa using hvlen, ?_, ?_⟩
          · exact List.getElem?_set_self (by omega)
          · rw [List.getElem?_append_right (by omega)]
            simp [hrvlen]
          · intro i hi
            obtain ⟨pos, e, v, h1, h2, h3, h4, h5⟩ := hidx i hi
            rw [hcolsA] at h1
            exact ⟨pos, e, v, h1, h2, h3, by simpa using h4, h5⟩
          · intro p hp
            exact hframe p (by rw [hcolsA]; exact hp)
    · rw [hauto] at ha
      cases ha

theorem buildInsertPlan_present_ok {D : Deps} {vschema : VSchema} {ins ins2 : Insert}
    {table : Table} {route : Route} {values : List RowTuple}
    (hfind : vschema.Find ins.Table.Qualifier ins.Table.Name = .ok table)
    (hsharded : table.Keyspace.Sharded = true)
    (hauto : table.AutoIncrement = none)
    (hrows : ins.Rows = .Values values)
    (hdistinct : table.ColumnVindexes.Pairwise (fun a b => a.Column.Equal b.Column = false))
    (hpresent : ∀ cv ∈ table.ColumnVindexes, ∃ pos, findPos ins.Columns cv.Column = some pos)
    (hok : buildInsertPlan D vschema ins = (ins2, .ok route)) :
    ∃ values2 routeValues, ins2 = { ins with Rows := .Values values2 } ∧
      values2.length = values.length ∧ route.Values = some routeValues ∧
      ∀ r, r < values.length → ∃ row0 row2 l,
        values[r]? = some (.ValTuple row0) ∧ values2[r]? = some (.ValTuple row2) ∧
        routeValues[r]? = some l ∧
        RowExtracted D ins.Columns table.ColumnVindexes r row0 row2 l := by
  obtain ⟨values1, routeL, rvs, hrows1, _, hcheck, hloop, hroute⟩ :=
    buildInsertPlan_sharded_ok_inv hfind hsharded hok
  rw [hrows] at hrows1
  cases hrows1
  obtain ⟨values2, h1, h2, _, h4⟩ :=
    rowLoop_present_ok hauto hrows hcheck hpresent hdistinct hloop
  exact ⟨values2, rvs, h1, h2, by rw [hroute], h4⟩

/-- C2: on a sharded table without auto-increment whose shard-routing descriptors name pairwise
different columns (case-insensitively), all of them in the statement's column list, a
successful `buildInsertPlan` returns routing values where entry `i` of the list of row `r` is
the conversion of the literal the original statement held in row `r` at the position of the
column of descriptor `i`: the lists are in descriptor order. -/
theorem buildInsertPlan_values_descriptor_order (D : Deps) (vschema : VSchema)
    (ins ins2 : Insert) (table : Table) (route : Route) (values : List RowTuple)
    (hfind : vschema.Find ins.Table.Qualifier ins.Table.Name = .ok table)
    (hsharded : table.Keyspace.Sharded = true)
    (hauto : table.AutoIncrement = none)
    (hrows : ins.Rows = .Values values)
    (hdistinct : table.ColumnVindexes.Pairwise (fun a b => a.Column.Equal b.Column = false))
    (hpresent : ∀ cv ∈ table.ColumnVindexes, ∃ pos, findPos ins.Columns cv.Column = some pos)
    (hok : buildInsertPlan D vschema ins = (ins2, .ok route)) :
    ∃ routeValues, route.Values = some routeValues ∧
      ∀ r, r < values.length → ∀ i (hi : i < table.ColumnVindexes.length),
        ∃ row pos e v l, values[r]? = some (.ValTuple row) ∧
          findPos ins.Columns table.ColumnVindexes[i].Column = some pos ∧
          row[pos]? = some e ∧ D.valConvert e = .ok v ∧
          routeValues[r]? = some l ∧ l[i]? = some v := by
  obtain ⟨values2, rvs, _, _, hvals, hall⟩ :=
    buildInsertPlan_present_ok hfind hsharded hauto hrows hdistinct hpresent hok
  refine ⟨rvs, hvals, ?_⟩
  intro r hr i hi
  obtain ⟨row0, row2, l, h0, _, hl, _, _, hidx, _⟩ := hall r hr
  obtain ⟨pos, e, v, hp, he, hv, hli, _⟩ := hidx i hi
  exact ⟨row0, pos, e, v, l, h0, hp, he, hv, hl, hli⟩

/-- Witness of C2 (`buildInsertPlan_values_descriptor_order`): the statement
`insert into user(id, name) values (1, 'a')` with the routing column `id`, whose routing
values are `[[1]]`. -/
theorem buildInsertPlan_values_descriptor_order_witness :
    ∃ routeValues, insertUserRoute.Values = some routeValues ∧
      ∀ r, r < [RowTuple.ValTuple [.NumVal "1", .StrVal "a"]].length →
        ∀ i (hi : i < userTable.ColumnVindexes.length),
          ∃ row pos e v l,
            [RowTuple.ValTuple [.NumVal "1", .StrVal "a"]][r]? = some (.ValTuple row) ∧
            findPos insertUser.Columns userTable.ColumnVindexes[i].Column = some pos ∧
            row[pos]? = some e ∧ exampleDeps.valConvert e = .ok v ∧
            routeValues[r]? = some l ∧ l[i]? = some v :=
  buildInsertPlan_values_descriptor_order exampleDeps (vschemaOf userTable) insertUser
    insertUserPlanned userTable insertUserRoute [.ValTuple [.NumVal "1", .StrVal "a"]]
    rfl rfl rfl rfl (by simp [userTable])
    (by intro cv hcv; simp only [userTable, List.mem_singleton] at hcv; subst hcv; exact ⟨0, rfl⟩)
    (by decide)

/-- C3 as stated fails: with the shard-routing descriptors `id` and `ID` on the same column,
both in the column list, planning `insert into user(id, name) values (1, 'a')` succeeds, but
the slot of the column holds `:_ID0` and not the bind variable `:_id0` of descriptor 0, and the
routing value of descriptor 1 is the string `:_id0`, not the conversion `1` of the original
literal. -/
theorem buildInsertPlan_rewrites_slots_counterexample :
    (vschemaOf userTableTwice).Find insertUser.Table.Qualifier insertUser.Table.Name
        = .ok userTableTwice ∧
      userTableTwice.Keyspace.Sharded = true ∧ userTableTwice.AutoIncrement = none ∧
      findPos insertUser.Columns (ident "id") = some 0 ∧
      findPos insertUser.Columns { val := "ID", lowered := "id" } = some 0 ∧
      buildInsertPlan exampleDeps (vschemaOf userTableTwice) insertUser
        = (insertUserTwicePlanned, .ok insertUserTwiceRoute) ∧
      getRow insertUser.Rows 0 = .ok [.NumVal "1", .StrVal "a"] ∧
      getRow insertUserTwicePlanned.Rows 0 = .ok [.ValArg ":_ID0", .StrVal "a"] ∧
      ValExpr.ValArg ":_ID0" ≠ ValExpr.ValArg (":_" ++ (ident "id").Original ++ toString 0) ∧
      insertUserTwiceRoute.Values = some [[.int64 1, .str ":_id0"]] ∧
      exampleDeps.valConvert (.NumVal "1") = .ok (.int64 1) ∧
      Value.str ":_id0" ≠ Value.int64 1 := by
  refine ⟨rfl, rfl, rfl, rfl, rfl, by decide, rfl, rfl, by decide, rfl, rfl, by decide⟩

/-- C3, amended: on a sharded table without auto-increment whose shard-routing descriptors name
pairwise different columns (case-insensitively), all of them in the statement's column list,
a successful `buildInsertPlan` leaves the table reference, the column list and the number of
rows unchanged; in row `r` the slot at the position of the column of descriptor `i` is the bind
variable `:_` + column name + decimal `r`; every slot that is not the position of a descriptor
column is the original literal; and the routing value `i` of row `r` is the conversion of the
original literal of that slot, so putting it back for the bind variable gives the converted
values of the original insert. -/
theorem buildInsertPlan_rewrites_slots (D : Deps) (vschema : VSchema)
    (ins ins2 : Insert) (table : Table) (route : Route) (values : List RowTuple)
    (hfind : vschema.Find ins.Table.Qualifier ins.Table.Name = .ok table)
    (hsharded : table.Keyspace.Sharded = true)
    (hauto : table.AutoIncrement = none)
    (hrows : ins.Rows = .Values values)
    (hdistinct : table.ColumnVindexes.Pairwise (fun a b => a.Column.Equal b.Column = false))
    (hpresent : ∀ cv ∈ table.ColumnVindexes, ∃ pos, findPos ins.Columns cv.Column = some pos)
    (hok : buildInsertPlan D vschema ins = (ins2, .ok route)) :
    ins2.Table = ins.Table ∧ ins2.Columns = ins.Columns ∧
    ∃ values2 routeValues, ins2.Rows = .Values values2 ∧ values2.length = values.length ∧
      route.Values = some routeValues ∧
      ∀ r, r < values.length → ∃ row0 row2 l,
        values[r]? = some (.ValTuple row0) ∧ values2[r]? = some (.ValTuple row2) ∧
        routeValues[r]? = some l ∧ row2.length = row0.length ∧
        (∀ i (hi : i < table.ColumnVindexes.length), ∃ pos,
          findPos ins.Columns table.ColumnVindexes[i].Column = some pos ∧
          row2[pos]? = some (ValExpr.ValArg
            (":_" ++ table.ColumnVindexes[i].Column.Original ++ toString r))) ∧
        (∀ p, (∀ cv ∈ table.ColumnVindexes, findPos ins.Columns cv.Column ≠ some p) →
          row2[p]? = row0[p]?) ∧
        (∀ i (hi : i < table.ColumnVindexes.length), ∃ pos e v,
          findPos ins.Columns table.ColumnVindexes[i].Column = some pos ∧
          row0[pos]? = some e ∧ D.valConvert e = .ok v ∧ l[i]? = some v) := by
  obtain ⟨values2, rvs, hins2, hlen, hvals, hall⟩ :=
    buildInsertPlan_present_ok hfind hsharded hauto hrows hdistinct hpresent hok
  refine ⟨by rw [hins2], by rw [hins2], values2, rvs, by rw [hins2], hlen, hvals, ?_⟩
  intro r hr
  obtain ⟨row0, row2, l, h0, h2, hl, hlen2, _, hidx, hframe⟩ := hall r hr
  refine ⟨row0, row2, l, h0, h2, hl, hlen2, ?_, hframe, ?_⟩
  · intro i hi
    obtain ⟨pos, _, _, hp, _, _, _, hslot⟩ := hidx i hi
    exact ⟨pos, hp, hslot⟩
  · intro i hi
    obtain ⟨pos, e, v, hp, he, hv, hli, _⟩ := hidx i hi
    exact ⟨pos, e, v, hp, he, hv, hli⟩

/-- Witness of C3, amended (`buildInsertPlan_rewrites_slots`): the statement
`insert into user(id, name) values (1, 'a')` with the routing column `id`. -/
theorem buildInsertPlan_rewrites_slots_witness :
    insertUserPlanned.Table = insertUser.Table ∧ insertUserPlanned.Columns = insertUser.Columns ∧
    ∃ values2 routeValues, insertUserPlanned.Rows = .Values values2 ∧
      values2.length = [RowTuple.ValTuple [.NumVal "1", .StrVal "a"]].length ∧
      insertUserRoute.Values = some routeValues ∧
      ∀ r, r < [RowTuple.ValTuple [.NumVal "1", .StrVal "a"]].length → ∃ row0 row2 l,
        [RowTuple.ValTuple [.NumVal "1", .StrVal "a"]][r]? = some (.ValTuple row0) ∧
        values2[r]? = some (.ValTuple row2) ∧
        routeValues[r]? = some l ∧ row2.length = row0.length ∧
        (∀ i (hi : i < userTable.ColumnVindexes.length), ∃ pos,
          findPos insertUser.Columns userTable.ColumnVindexes[i].Column = some pos ∧
          row2[pos]? = some (ValExpr.ValArg
            (":_" ++ userTable.ColumnVindexes[i].Column.Original ++ toString r))) ∧
        (∀ p, (∀ cv ∈ userTable.ColumnVindexes, findPos insertUser.Columns cv.Column ≠ some p) →
          row2[p]? = row0[p]?) ∧
        (∀ i (hi : i < userTable.ColumnVindexes.length), ∃ pos e v,
          findPos insertUser.Columns userTable.ColumnVindexes[i].Column = some pos ∧
          row0[pos]? = some e ∧ exampleDeps.valConvert e = .ok v ∧ l[i]? = some v) :=
  buildInsertPlan_rewrites_slots exampleDeps (vschemaOf userTable) insertUser
    insertUserPlanned userTable insertUserRoute [.ValTuple [.NumVal "1", .StrVal "a"]]
    rfl rfl rfl rfl (by simp [userTable])
    (by intro cv hcv; simp only [userTable, List.mem_singleton] at hcv; subst hcv; exact ⟨0, rfl⟩)
    (by decide)

/-! ## A shard-routing column that is not in the column list -/

/-- The first row that misses a column: when the descriptor's column is not in the column list,
row `rowNum` has the column list's length and the NULL literal converts to `v`, `buildIndexPlan`
appends the column, appends `v` to the routing values, and leaves the bind variable in the new
tail slot of the row. -/
theorem buildIndexPlan_absent_ok {D : Deps} {ins : Insert} {cv : ColumnVindex}
    {value : List Value} {rowNum : Nat} {row : List ValExpr} {v : Value}
    (hpos : findPos ins.Columns cv.Column = none)
    (hrow : getRow ins.Rows rowNum = .ok row) (hlen : row.length = ins.Columns.length)
    (hnull : D.valConvert ValExpr.NullVal = .ok v) :
    buildIndexPlan D ins cv value rowNum =
      ({ ins with Columns := ins.Columns ++ [cv.Column],
                  Rows := setRow ins.Rows rowNum (row ++
                    [ValExpr.ValArg (":_" ++ cv.Column.Original ++ toString rowNum)]) },
        value ++ [v], .ok ()) := by
  have hget : (row ++ [ValExpr.NullVal])[ins.Columns.length]? = some ValExpr.NullVal := by
    rw [← hlen, List.getElem?_append_right (Nat.le_refl _)]
    simp
  have hset : (row ++ [ValExpr.NullVal]).set ins.Columns.length
      (ValExpr.ValArg (":_" ++ cv.Column.Original ++ toString rowNum))
      = row ++ [ValExpr.ValArg (":_" ++ cv.Column.Original ++ toString rowNum)] := by
    rw [← hlen]
    simp
  simp only [buildIndexPlan, findOrInsertPos_absent hpos hrow, hget, hnull, hset, setRow_setRow]

/-- C4 at the failing input `insert into user(name) values ('a'), ('b')` on the table `user`
routed by `id`: the column `id` is absent; the loop body for row 0 succeeds with the routing
value NULL and appends the column and one NULL slot to row 0 only; for row 1 the column is then
found at position 1 while the row has one slot, so `buildIndexPlan` ends in an index-out-of-range
panic, and so does `buildInsertPlan`. -/
theorem buildInsertPlan_absent_column_second_row :
    findPos insertUserNames.Columns (ident "id") = none ∧
      rowStep exampleDeps userTable 0 insertUserNames emptyRoute
        = (insertUserNamesRow0, emptyRoute, [Value.null], .ok ()) ∧
      findPos insertUserNamesRow0.Columns (ident "id") = some 1 ∧
      getRow insertUserNamesRow0.Rows 1 = .ok [.StrVal "b"] ∧
      buildIndexPlan exampleDeps insertUserNamesRow0
          { Column := ident "id", Name := "user_index" } [] 1
        = (insertUserNamesRow0, [], .panic "index out of range") ∧
      buildInsertPlan exampleDeps (vschemaOf userTable) insertUserNames
        = (insertUserNamesRow0, .panic "index out of range") := by
  refine ⟨rfl, by decide, rfl, rfl, by decide, by decide⟩

/-! ## Validation of the row source -/

theorem buildInsertPlan_checkRows_error {D : Deps} {vschema : VSchema} {ins : Insert}
    {table : Table} {values : List RowTuple} {msg : String}
    (hfind : vschema.Find ins.Table.Qualifier ins.Table.Name = .ok table)
    (hsharded : table.Keyspace.Sharded = true) (hcols : ins.Columns ≠ [])
    (hrows : ins.Rows = .Values values)
    (hcheck : checkRows ins.Columns.length values = some msg) :
    buildInsertPlan D vschema ins = (ins, .error msg) := by
  have hlen : ¬ ins.Columns.length = 0 := by
    intro h
    exact hcols (List.length_eq_zero.mp h)
  simp only [buildInsertPlan, hfind, hsharded, Bool.not_true, Bool.false_eq_true, if_false, hlen,
    hrows, hcheck]

theorem checkRows_subquery_first {ncols : Nat} (t : String) (post : List RowTuple) :
    ∀ (pre : List RowTuple),
      (∀ x ∈ pre, ∃ row, x = RowTuple.ValTuple row ∧ row.length = ncols) →
      checkRows ncols (pre ++ RowTuple.Subquery t :: post)
        = some "unsupported: subqueries in insert" := by
  intro pre
  induction pre with
  | nil =>
    intro _
    simp [checkRows]
  | cons x rest ih =>
    intro h
    obtain ⟨row, rfl, hlen⟩ := h x (List.mem_cons_self _ _)
    simp only [List.cons_append, checkRows, ne_eq, hlen, not_true_eq_false, if_false]
    exact ih (fun y hy => h y (List.mem_cons_of_mem _ hy))

theorem checkRows_mem_subquery {ncols : Nat} (t : String) :
    ∀ (values : List RowTuple), RowTuple.Subquery t ∈ values →
      checkRows ncols values = some "unsupported: subqueries in insert" ∨
      checkRows ncols values = some "column list doesn't match values" := by
  intro values
  induction values with
  | nil =>
    intro h
    simp at h
  | cons x rest ih =>
    intro h
    cases x with
    | Subquery text =>
      left
      simp [checkRows]
    | ValTuple row =>
      have hrest : RowTuple.Subquery t ∈ rest := by
        rcases List.mem_cons.mp h with h1 | h1
        · cases h1
        · exact h1
      by_cases hlen : ncols = row.length
      · simp only [checkRows, ne_eq, hlen, not_true_eq_false, if_false]
        rw [← hlen]
        exact ih hrest
      · right
        simp [checkRows, hlen]

theorem checkRows_mismatch {ncols : Nat} :
    ∀ (values : List RowTuple), (∀ t ∈ values, ∃ row, t = RowTuple.ValTuple row) →
      (∃ row, RowTuple.ValTuple row ∈ values ∧ row.length ≠ ncols) →
      checkRows ncols values = some "column list doesn't match values" := by
  intro values
  induction values with
  | nil =>
    intro _ h
    obtain ⟨row, hmem, _⟩ := h
    simp at hmem
  | cons x rest ih =>
    intro hlit hbad
    obtain ⟨row0, rfl⟩ := hlit x (List.mem_cons_self _ _)
    by_cases hlen : ncols = row0.length
    · simp only [checkRows, ne_eq, hlen, not_true_eq_false, if_false]
      rw [← hlen]
      apply ih (fun y hy => hlit y (List.mem_cons_of_mem _ hy))
      obtain ⟨row, hmem, hne⟩ := hbad
      rcases List.mem_cons.mp hmem with h1 | h1
      · simp only [RowTuple.ValTuple.injEq] at h1
        subst h1
        exact absurd hlen.symm hne
      · exact ⟨row, h1, hne⟩
    · simp [checkRows, hlen]

/-- C11 as stated fails: in `insert into user(id) values (1, 2), (select 1)` on the sharded
table `user` the second row is a subquery, but the first row has two slots for one column, and
`buildInsertPlan` fails with `column list doesn't match values`, not with an
unsupported-construct error. -/
theorem buildInsertPlan_unsupported_counterexample :
    (vschemaOf userTable).Find insertUserMixed.Table.Qualifier insertUserMixed.Table.Name
        = .ok userTable ∧
      userTable.Keyspace.Sharded = true ∧ insertUserMixed.Columns ≠ [] ∧
      (∃ values, insertUserMixed.Rows = .Values values ∧ RowTuple.Subquery "select 1" ∈ values) ∧
      buildInsertPlan exampleDeps (vschemaOf userTable) insertUserMixed
        = (insertUserMixed, .error "column list doesn't match values") ∧
      buildInsertPlan exampleDeps (vschemaOf userTable) insertUserMixed
        ≠ (insertUserMixed, .error "unsupported: subqueries in insert") ∧
      buildInsertPlan exampleDeps (vschemaOf userTable) insertUserMixed
        ≠ (insertUserMixed, .error "unsupported: insert into select") := by
  refine ⟨rfl, rfl, by decide, ⟨_, rfl, by decide⟩, by decide, by decide, by decide⟩

/-- C11, amended: on a sharded table, for a statement with a non-empty column list,
`buildInsertPlan` returns no route and leaves the statement as it was, with the error
`unsupported: insert into select` when the row source is a select or a union, and with the
error `unsupported: subqueries in insert` when a row of the literal row list is a subquery and
every row before it is a literal tuple of the column list's length, whatever the rows after it
are; a subquery row anywhere makes it fail with that error or with
`column list doesn't match values`. -/
theorem buildInsertPlan_unsupported (D : Deps) (vschema : VSchema) (ins : Insert)
    (table : Table) (hfind : vschema.Find ins.Table.Qualifier ins.Table.Name = .ok table)
    (hsharded : table.Keyspace.Sharded = true) (hcols : ins.Columns ≠ []) :
    (∀ t, ins.Rows = .Select t ∨ ins.Rows = .Union t →
      buildInsertPlan D vschema ins = (ins, .error "unsupported: insert into select")) ∧
    (∀ pre t post, ins.Rows = .Values (pre ++ RowTuple.Subquery t :: post) →
      (∀ x ∈ pre, ∃ row, x = RowTuple.ValTuple row ∧ row.length = ins.Columns.length) →
      buildInsertPlan D vschema ins = (ins, .error "unsupported: subqueries in insert")) ∧
    (∀ values t, ins.Rows = .Values values → RowTuple.Subquery t ∈ values →
      buildInsertPlan D vschema ins = (ins, .error "unsupported: subqueries in insert") ∨
      buildInsertPlan D vschema ins = (ins, .error "column list doesn't match values")) := by
  have hlen : ¬ ins.Columns.length = 0 := by
    intro h
    exact hcols (List.length_eq_zero.mp h)
  refine ⟨?_, ?_, ?_⟩
  · intro t ht
    rcases ht with ht | ht <;>
      simp [buildInsertPlan, hfind, hsharded, hlen, ht]
  · intro pre t post hrows hpre
    exact buildInsertPlan_checkRows_error hfind hsharded hcols hrows
      (checkRows_subquery_first t post pre hpre)
  · intro values t hrows hmem
    rcases checkRows_mem_subquery t values hmem with h | h
    · exact Or.inl (buildInsertPlan_checkRows_error hfind hsharded hcols hrows h)
    · exact Or.inr (buildInsertPlan_checkRows_error hfind hsharded hcols hrows h)

/-- Witness of C11, amended (`buildInsertPlan_unsupported`): in
`insert into user(id) values (1), (select 1), (2, 3)` the subquery row comes after a row of the
right length and before a row of another length. -/
theorem buildInsertPlan_unsupported_witness :
    buildInsertPlan exampleDeps (vschemaOf userTable) insertUserSubquery
      = (insertUserSubquery, .error "unsupported: subqueries in insert") :=
  (buildInsertPlan_unsupported exampleDeps (vschemaOf userTable) insertUserSubquery userTable
    rfl rfl (by decide)).2.1 [.ValTuple [.NumVal "1"]] "select 1"
    [.ValTuple [.NumVal "2", .NumVal "3"]] rfl
    (by intro x hx; simp only [List.mem_singleton] at hx; subst hx; exact ⟨_, rfl, rfl⟩)

/-- C12: on a sharded table, for a statement with a non-empty column list whose rows are all
literal tuples, one of them of another length than the column list, `buildInsertPlan` fails
with `column list doesn't match values`, returns no route, and returns the statement as it was
passed in: the column list and every row are untouched. -/
theorem buildInsertPlan_arity_mismatch (D : Deps) (vschema : VSchema) (ins : Insert)
    (table : Table) (values : List RowTuple)
    (hfind : vschema.Find ins.Table.Qualifier ins.Table.Name = .ok table)
    (hsharded : table.Keyspace.Sharded = true) (hcols : ins.Columns ≠ [])
    (hrows : ins.Rows = .Values values)
    (hlit : ∀ t ∈ values, ∃ row, t = RowTuple.ValTuple row)
    (hbad : ∃ row, RowTuple.ValTuple row ∈ values ∧ row.length ≠ ins.Columns.length) :
    buildInsertPlan D vschema ins = (ins, .error "column list doesn't match values") :=
  buildInsertPlan_checkRows_error hfind hsharded hcols hrows
    (checkRows_mismatch values hlit hbad)

/-- Witness of C12 (`buildInsertPlan_arity_mismatch`): in
`insert into user(id, name) values (1, 'a'), (2)` the second row has one slot for two columns. -/
theorem buildInsertPlan_arity_mismatch_witness :
    buildInsertPlan exampleDeps (vschemaOf userTable) insertUserShortRow
      = (insertUserShortRow, .error "column list doesn't match values") :=
  buildInsertPlan_arity_mismatch exampleDeps (vschemaOf userTable) insertUserShortRow userTable
    [.ValTuple [.NumVal "1", .StrVal "a"], .ValTuple [.NumVal "2"]] rfl rfl (by decide) rfl
    (by
      intro t ht
      simp only [List.mem_cons, List.mem_singleton, List.not_mem_nil, or_false] at ht
      rcases ht with rfl | rfl
      · exact ⟨_, rfl⟩
      · exact ⟨_, rfl⟩)
    ⟨[.NumVal "2"], by decide, by decide⟩

/-! ## The column position resolver -/

theorem findPos_eq_none_iff {columns : List ColIdent} {col : CIString} :
    findPos columns col = none ↔ ∀ column ∈ columns, col.Equal column = false := by
  unfold findPos
  rw [List.findIdx?_eq_none_iff]

theorem findPos_eq_some_first {columns : List ColIdent} {col : CIString} {pos : Nat}
    (h : findPos columns col = some pos) :
    (∃ column, columns[pos]? = some column ∧ col.Equal column = true) ∧
    ∀ j c, j < pos → columns[j]? = some c → col.Equal c = false := by
  unfold findPos at h
  obtain ⟨hlt, hp, hfirst⟩ := List.findIdx?_eq_some_iff_getElem.mp h
  refine ⟨⟨columns[pos], List.getElem?_eq_getElem hlt, hp⟩, ?_⟩
  intro j c hj hc
  obtain ⟨hjlt, hcj⟩ := List.getElem?_eq_some_iff.mp hc
  have := hfirst j hj
  rw [hcj] at this
  simpa using this

/-- C13: for a statement with a literal row list, a column `col` and a row number whose row is
the literal tuple `row`: when a column of the list equals `col` case-insensitively,
`findOrInsertPos` returns `row` and the first such position and returns the statement as it
was; when none does, it returns the old column count as position, the column list afterwards
is the old one with `col` appended, row `rowNum` is the old row with one NULL literal
appended (and is the row returned), and every other row is unchanged. -/
theorem findOrInsertPos_contract (ins : Insert) (col : CIString) (rowNum : Nat)
    (values : List RowTuple) (row : List ValExpr)
    (hrows : ins.Rows = .Values values) (hrow : values[rowNum]? = some (.ValTuple row)) :
    ((∃ column ∈ ins.Columns, col.Equal column = true) →
      ∃ pos column, findOrInsertPos ins col rowNum = (ins, .ok (row, pos)) ∧
        ins.Columns[pos]? = some column ∧ col.Equal column = true ∧
        ∀ j c, j < pos → ins.Columns[j]? = some c → col.Equal c = false) ∧
    ((∀ column ∈ ins.Columns, col.Equal column = false) →
      findOrInsertPos ins col rowNum =
        ({ Table := ins.Table, Columns := ins.Columns ++ [col],
           Rows := .Values (values.set rowNum (.ValTuple (row ++ [ValExpr.NullVal]))) },
          .ok (row ++ [ValExpr.NullVal], ins.Columns.length)) ∧
      (values.set rowNum (.ValTuple (row ++ [ValExpr.NullVal])))[rowNum]?
        = some (.ValTuple (row ++ [ValExpr.NullVal])) ∧
      ∀ j, j ≠ rowNum →
        (values.set rowNum (.ValTuple (row ++ [ValExpr.NullVal])))[j]? = values[j]?) := by
  have hget : getRow ins.Rows rowNum = .ok row := getRow_ok_iff.mpr ⟨values, hrows, hrow⟩
  have hlt : rowNum < values.length := (List.getElem?_eq_some_iff.mp hrow).1
  refine ⟨?_, ?_⟩
  · intro hex
    cases hpos : findPos ins.Columns col with
    | none =>
      obtain ⟨column, hmem, heq⟩ := hex
      rw [findPos_eq_none_iff.mp hpos column hmem] at heq
      cases heq
    | some pos =>
      obtain ⟨⟨column, hc, heq⟩, hfirst⟩ := findPos_eq_some_first hpos
      exact ⟨pos, column, findOrInsertPos_found hpos hget, hc, heq, hfirst⟩
  · intro hall
    have hpos : findPos ins.Columns col = none := findPos_eq_none_iff.mpr hall
    refine ⟨?_, List.getElem?_set_self hlt, fun j hj => List.getElem?_set_ne (Ne.symm hj)⟩
    rw [findOrInsertPos_absent hpos hget]
    simp [setRow, hrows]

/-- Witness of C13 (`findOrInsertPos_contract`): row 1 of
`insert into music(user_id, id) values (1, 5), (2, 6)`. -/
theorem findOrInsertPos_contract_witness :
    ((∃ column ∈ insertMusic.Columns, (ident "id").Equal column = true) →
      ∃ pos column, findOrInsertPos insertMusic (ident "id") 1
          = (insertMusic, .ok ([.NumVal "2", .NumVal "6"], pos)) ∧
        insertMusic.Columns[pos]? = some column ∧ (ident "id").Equal column = true ∧
        ∀ j c, j < pos → insertMusic.Columns[j]? = some c → (ident "id").Equal c = false) ∧
    ((∀ column ∈ insertMusic.Columns, (ident "id").Equal column = false) →
      findOrInsertPos insertMusic (ident "id") 1 =
        ({ Table := insertMusic.Table, Columns := insertMusic.Columns ++ [ident "id"],
           Rows := .Values
            ([RowTuple.ValTuple [.NumVal "1", .NumVal "5"],
              RowTuple.ValTuple [.NumVal "2", .NumVal "6"]].set 1
                (.ValTuple ([.NumVal "2", .NumVal "6"] ++ [ValExpr.NullVal]))) },
          .ok ([.NumVal "2", .NumVal "6"] ++ [ValExpr.NullVal], insertMusic.Columns.length)) ∧
      ([RowTuple.ValTuple [.NumVal "1", .NumVal "5"],
        RowTuple.ValTuple [.NumVal "2", .NumVal "6"]].set 1
          (.ValTuple ([.NumVal "2", .NumVal "6"] ++ [ValExpr.NullVal])))[1]?
        = some (.ValTuple ([.NumVal "2", .NumVal "6"] ++ [ValExpr.NullVal])) ∧
      ∀ j, j ≠ 1 →
        ([RowTuple.ValTuple [.NumVal "1", .NumVal "5"],
          RowTuple.ValTuple [.NumVal "2", .NumVal "6"]].set 1
            (.ValTuple ([.NumVal "2", .NumVal "6"] ++ [ValExpr.NullVal])))[j]?
          = [RowTuple.ValTuple [.NumVal "1", .NumVal "5"],
             RowTuple.ValTuple [.NumVal "2", .NumVal "6"]][j]?) :=
  findOrInsertPos_contract insertMusic (ident "id") 1
    [.ValTuple [.NumVal "1", .NumVal "5"], .ValTuple [.NumVal "2", .NumVal "6"]]
    [.NumVal "2", .NumVal "6"] rfl rfl

/-! ## Names of the bind variables -/

/-- C14 at the failing input: the table `t` has the shard-routing columns `a` and `a1`, and the
statement has twelve rows.  The bind variable of column `a1` in row 1 and the one of column `a`
in row 11 are both `:_a11`, although the columns and the rows differ: after planning, row 1
holds `:_a11` in the slot of `a1` and row 11 holds `:_a11` in the slot of `a`, while the two
slots held different literals and have different routing values. -/
theorem buildInsertPlan_placeholder_collision :
    ident "a1" ≠ ident "a" ∧ (1 : Nat) ≠ 11 ∧
      ":_" ++ (ident "a1").Original ++ toString 1 = ":_" ++ (ident "a").Original ++ toString 11 ∧
      getRow insertTwelve.Rows 1 = .ok [.NumVal "1", .NumVal "101"] ∧
      getRow insertTwelve.Rows 11 = .ok [.NumVal "11", .NumVal "111"] ∧
      getRow (buildInsertPlan exampleDeps (vschemaOf digitTable) insertTwelve).1.Rows 1
        = .ok [.ValArg ":_a1", .ValArg ":_a11"] ∧
      getRow (buildInsertPlan exampleDeps (vschemaOf digitTable) insertTwelve).1.Rows 11
        = .ok [.ValArg ":_a11", .ValArg ":_a111"] ∧
      ((buildInsertPlan exampleDeps (vschemaOf digitTable) insertTwelve).2.toOption.bind
          (·.Values)).bind (·[1]?) = some [.int64 1, .int64 101] ∧
      ((buildInsertPlan exampleDeps (vschemaOf digitTable) insertTwelve).2.toOption.bind
          (·.Values)).bind (·[11]?) = some [.int64 11, .int64 111] := by
  refine ⟨by decide, by decide, by decide, rfl, rfl, rfl, rfl, by decide, by decide⟩

/-- In one row the bind variables of two columns written differently differ. -/
theorem placeholder_same_row_ne (c1 c2 : CIString) (r : Nat) (h : c1.Original ≠ c2.Original) :
    ":_" ++ c1.Original ++ toString r ≠ ":_" ++ c2.Original ++ toString r := by
  intro heq
  apply h
  have hd := congrArg String.data heq
  simp only [String.data_append] at hd
  have hd2 := List.append_cancel_left (List.append_cancel_right hd)
  exact String.ext hd2

/-! ## The shape invariant under the resolver -/

/-- C15 as stated fails: `insert into user(name) values ('a'), ('b')` satisfies the shape
invariant, and after `findOrInsertPos` for the absent column `id` and row 0 the column list has
two columns while row 1 still has one slot. -/
theorem findOrInsertPos_shape_counterexample :
    ShapeInvariant insertUserNames ∧
      findOrInsertPos insertUserNames (ident "id") 0
        = (insertUserNamesResolved, .ok ([.StrVal "a", .NullVal], 1)) ∧
      getRow insertUserNamesResolved.Rows 1 = .ok [.StrVal "b"] ∧
      insertUserNamesResolved.Columns.length = 2 ∧
      ¬ ShapeInvariant insertUserNamesResolved := by
  refine ⟨?_, rfl, rfl, rfl, ?_⟩
  · intro r row h
    obtain ⟨values, hv, hr⟩ := getRow_ok_iff.mp h
    simp only [insertUserNames, InsertRows.Values.injEq] at hv
    subst hv
    match r, hr with
    | 0, hr =>
      simp only [List.getElem?_cons_zero, Option.some.injEq, RowTuple.ValTuple.injEq] at hr
      subst hr
      rfl
    | 1, hr =>
      simp only [List.getElem?_cons_succ, List.getElem?_cons_zero, Option.some.injEq,
        RowTuple.ValTuple.injEq] at hr
      subst hr
      rfl
    | r + 2, hr => simp at hr
  · intro h
    have := h 1 [.StrVal "b"] rfl
    simp [insertUserNamesResolved] at this

/-- C15, amended: for a statement that satisfies the shape invariant, any column and any row
number of a literal row, `findOrInsertPos` succeeds, the row of that number has the length of
the column list afterwards, and every other row is as before; the statement afterwards
satisfies the invariant for every row when the column was in the column list or when the
statement has no other literal row. -/
theorem findOrInsertPos_shape (ins : Insert) (col : CIString) (rowNum : Nat)
    (row : List ValExpr) (hinv : ShapeInvariant ins)
    (hrow : getRow ins.Rows rowNum = .ok row) :
    ∃ ins2 row2 pos, findOrInsertPos ins col rowNum = (ins2, .ok (row2, pos)) ∧
      getRow ins2.Rows rowNum = .ok row2 ∧ row2.length = ins2.Columns.length ∧
      (∀ j, j ≠ rowNum → getRow ins2.Rows j = getRow ins.Rows j) ∧
      (findPos ins.Columns col ≠ none → ShapeInvariant ins2) ∧
      ((∀ j rowj, j ≠ rowNum → getRow ins.Rows j ≠ .ok rowj) → ShapeInvariant ins2) := by
  cases hpos : findPos ins.Columns col with
  | some pos =>
    refine ⟨ins, row, pos, findOrInsertPos_found hpos hrow, hrow, hinv rowNum row hrow,
      fun _ _ => rfl, fun _ => hinv, fun _ => hinv⟩
  | none =>
    have hself : getRow (setRow ins.Rows rowNum (row ++ [ValExpr.NullVal])) rowNum
        = .ok (row ++ [ValExpr.NullVal]) := getRow_setRow_self hrow
    have hlen : (row ++ [ValExpr.NullVal]).length = (ins.Columns ++ [col]).length := by
      simp only [List.length_append, List.length_singleton, hinv rowNum row hrow]
    refine ⟨_, row ++ [ValExpr.NullVal], ins.Columns.length, findOrInsertPos_absent hpos hrow,
      hself, hlen, fun j hj => getRow_setRow_ne (Ne.symm hj), fun h => absurd rfl h, ?_⟩
    intro hsingle r rowr hr
    by_cases hreq : r = rowNum
    · subst hreq
      simp only at hr
      rw [hself] at hr
      cases hr
      exact hlen
    · simp only at hr
      rw [getRow_setRow_ne (Ne.symm hreq)] at hr
      exact absurd hr (hsingle r rowr hreq)

/-- Witness of C15, amended (`findOrInsertPos_shape`): the one-row statement
`insert into user(id, name) values (1, 'a')` and the absent column `age`. -/
theorem findOrInsertPos_shape_witness :
    ∃ ins2 row2 pos, findOrInsertPos insertUser (ident "age") 0 = (ins2, .ok (row2, pos)) ∧
      getRow ins2.Rows 0 = .ok row2 ∧ row2.length = ins2.Columns.length ∧
      (∀ j, j ≠ 0 → getRow ins2.Rows j = getRow insertUser.Rows j) ∧
      (findPos insertUser.Columns (ident "age") ≠ none → ShapeInvariant ins2) ∧
      ((∀ j rowj, j ≠ 0 → getRow insertUser.Rows j ≠ .ok rowj) → ShapeInvariant ins2) :=
  findOrInsertPos_shape insertUser (ident "age") 0 [.NumVal "1", .StrVal "a"]
    (by
      intro r row h
      obtain ⟨values, hv, hr⟩ := getRow_ok_iff.mp h
      simp only [insertUser, InsertRows.Values.injEq] at hv
      subst hv
      match r, hr with
      | 0, hr =>
        simp only [List.getElem?_cons_zero, Option.some.injEq, RowTuple.ValTuple.injEq] at hr
        subst hr
        rfl
      | r + 1, hr => simp at hr)
    rfl

/-! ## The Generate sub-plan across rows -/

theorem rowLoop_succ_ok_inv {D : Deps} {table : Table} {n rowNum : Nat} {ins ins2 : Insert}
    {route route2 : Route} {rvs rvs2 : List (List Value)}
    (h : rowLoop D table (n + 1) rowNum ins route rvs = (ins2, route2, .ok rvs2)) :
    ∃ ins1 route1 value, rowStep D table rowNum ins route = (ins1, route1, value, .ok ()) ∧
      rowLoop D table n (rowNum + 1) ins1 route1 (rvs ++ [value]) = (ins2, route2, .ok rvs2) := by
  unfold rowLoop at h
  split at h
  · rename_i ins1 route1 value u hs
    exact ⟨ins1, route1, value, hs, h⟩
  · simp at h
  · simp at h

theorem rowLoop_ok_generate {D : Deps} {table : Table} {autoinc : AutoIncrement}
    {n rowNum : Nat} {ins ins2 : Insert} {route route2 : Route} {rvs rvs2 : List (List Value)}
    (hauto : table.AutoIncrement = some autoinc)
    (hstart : ∃ v, route.Generate = some { newGenerate autoinc with Value := v })
    (h : rowLoop D table n rowNum ins route rvs = (ins2, route2, .ok rvs2)) :
    ∃ v, route2.Generate = some { newGenerate autoinc with Value := v } := by
  refine rowLoop_ok_induct n
    (fun _ _ ro _ => ∃ v, ro.Generate = some { newGenerate autoinc with Value := v })
    rowNum ins route rvs ins2 route2 rvs2 h hstart ?_
  intro r insA routeA rvA insB routeB value _ _ _ hS
  rcases rowStep_ok_route hS with ⟨ha, _⟩ | ⟨a, v, ha, hr⟩
  · rw [hauto] at ha
    cases ha
  · rw [hauto] at ha
    cases ha
    exact ⟨v, by rw [hr]⟩

/-- C16 as stated fails: for `insert into music(user_id, id) values (1, 5), (2, 6)` the
`Generate` sub-plan set while planning the first row has the default value 5, and the one the
route holds after the last row has the default value 6. -/
theorem buildInsertPlan_generate_recomputed_counterexample :
    rowStep exampleDeps musicTable 0 insertMusic
        (shardedRoute exampleDeps musicTable insertMusic
          [.ValTuple [.NumVal "1", .NumVal "5"], .ValTuple [.NumVal "2", .NumVal "6"]])
      = (insertMusicRow0,
         { shardedRoute exampleDeps musicTable insertMusic
            [.ValTuple [.NumVal "1", .NumVal "5"], .ValTuple [.NumVal "2", .NumVal "6"]] with
           Generate := some (musicGenerate (.int64 5)) },
         [Value.int64 1], .ok ()) ∧
      buildInsertPlan exampleDeps (vschemaOf musicTable) insertMusic
        = (insertMusicPlanned, .ok insertMusicRoute) ∧
      insertMusicRoute.Generate = some (musicGenerate (.int64 6)) ∧
      musicGenerate (.int64 6) ≠ musicGenerate (.int64 5) := by
  refine ⟨by decide, by decide, rfl, by decide⟩

/-- C16, amended: for a successful `buildInsertPlan` on a sharded insert with two or more rows
into a table with an auto-increment descriptor, the loop body for the first row succeeded and
set a `Generate` sub-plan, and the `Generate` sub-plan the route holds after the last row has
the same opcode, keyspace and query text as that one. -/
theorem buildInsertPlan_generate_recomputed (D : Deps) (vschema : VSchema) (ins ins2 : Insert)
    (table : Table) (route : Route) (values : List RowTuple) (autoinc : AutoIncrement)
    (hfind : vschema.Find ins.Table.Qualifier ins.Table.Name = .ok table)
    (hsharded : table.Keyspace.Sharded = true)
    (hauto : table.AutoIncrement = some autoinc)
    (hrows : ins.Rows = .Values values) (hmulti : 2 ≤ values.length)
    (hok : buildInsertPlan D vschema ins = (ins2, .ok route)) :
    ∃ ins1 route1 value1 g1 g,
      rowStep D table 0 ins (shardedRoute D table ins values) = (ins1, route1, value1, .ok ()) ∧
      route1.Generate = some g1 ∧ route.Generate = some g ∧
      g.Opcode = g1.Opcode ∧ g.Keyspace = g1.Keyspace ∧ g.Query = g1.Query := by
  obtain ⟨values1, routeL, rvs, hrows1, _, _, hloop, hroute⟩ :=
    buildInsertPlan_sharded_ok_inv hfind hsharded hok
  rw [hrows] at hrows1
  cases hrows1
  obtain ⟨n, hn⟩ : ∃ n, values.length = n + 1 := ⟨values.length - 1, by omega⟩
  rw [hn] at hloop
  obtain ⟨ins1, route1, value1, hstep, hrest⟩ := rowLoop_succ_ok_inv hloop
  have hg1 : ∃ v, route1.Generate = some { newGenerate autoinc with Value := v } := by
    rcases rowStep_ok_route hstep with ⟨ha, _⟩ | ⟨a, v, ha, hr⟩
    · rw [hauto] at ha
      cases ha
    · rw [hauto] at ha
      cases ha
      exact ⟨v, by rw [hr]⟩
  obtain ⟨v1, hv1⟩ := hg1
  obtain ⟨v, hv⟩ := rowLoop_ok_generate hauto ⟨v1, hv1⟩ hrest
  refine ⟨ins1, route1, value1, { newGenerate autoinc with Value := v1 },
    { newGenerate autoinc with Value := v }, hstep, hv1, ?_, rfl, rfl, rfl⟩
  rw [hroute]
  exact hv

/-- Witness of C16, amended (`buildInsertPlan_generate_recomputed`): the two-row statement
`insert into music(user_id, id) values (1, 5), (2, 6)`. -/
theorem buildInsertPlan_generate_recomputed_witness :
    ∃ ins1 route1 value1 g1 g,
      rowStep exampleDeps musicTable 0 insertMusic
          (shardedRoute exampleDeps musicTable insertMusic
            [.ValTuple [.NumVal "1", .NumVal "5"], .ValTuple [.NumVal "2", .NumVal "6"]])
        = (ins1, route1, value1, .ok ()) ∧
      route1.Generate = some g1 ∧ insertMusicRoute.Generate = some g ∧
      g.Opcode = g1.Opcode ∧ g.Keyspace = g1.Keyspace ∧ g.Query = g1.Query :=
  buildInsertPlan_generate_recomputed exampleDeps (vschemaOf musicTable) insertMusic
    insertMusicPlanned musicTable insertMusicRoute
    [.ValTuple [.NumVal "1", .NumVal "5"], .ValTuple [.NumVal "2", .NumVal "6"]]
    { Column := ident "id", Sequence := userSeq, ColumnVindexNum := -1 }
    rfl rfl rfl rfl (by decide) (by decide)

/-! ## Conversion errors -/

theorem buildIndexPlan_of_located (D : Deps) (value : List Value) {ins ins1 : Insert}
    {cv : ColumnVindex} {rowNum pos : Nat} {row : List ValExpr} {e : ValExpr}
    (hloc : findOrInsertPos ins cv.Column rowNum = (ins1, .ok (row, pos)))
    (hslot : row[pos]? = some e) :
    (∀ err, D.valConvert e = .error err →
      buildIndexPlan D ins cv value rowNum =
        (ins1, value, .error ("could not convert val: " ++ D.sqlparserString e ++ ", pos: "
          ++ toString pos ++ ": " ++ err))) ∧
    (∀ v, D.valConvert e = .ok v →
      buildIndexPlan D ins cv value rowNum =
        ({ ins1 with Rows := setRow ins1.Rows rowNum (row.set pos
            (ValExpr.ValArg (":_" ++ cv.Column.Original ++ toString rowNum))) },
          value ++ [v], .ok ())) := by
  refine ⟨?_, ?_⟩
  · intro err herr
    simp only [buildIndexPlan, hloc, hslot, herr]
  · intro v hv
    simp only [buildIndexPlan, hloc, hslot, hv]

theorem indexLoop_error_at {D : Deps} {r : Nat} {cv : ColumnVindex} {post : List ColumnVindex}
    {ins insE : Insert} {value valueE : List Value} {m : String}
    (hstep : buildIndexPlan D ins cv value r = (insE, valueE, .error m)) :
    ∀ (pre : List ColumnVindex) (ins0 : Insert) (value0 : List Value),
      indexLoop D r pre ins0 value0 = (ins, value, .ok ()) →
      indexLoop D r (pre ++ cv :: post) ins0 value0 = (insE, valueE, .error m) := by
  intro pre
  induction pre with
  | nil =>
    intro ins0 value0 h
    simp only [indexLoop, Prod.mk.injEq, and_true] at h
    obtain ⟨rfl, rfl⟩ := h
    simp only [List.nil_append, indexLoop, hstep]
  | cons c rest ih =>
    intro ins0 value0 h
    unfold indexLoop at h
    split at h
    · rename_i ins1 value1 u hb
      simp only [List.cons_append, indexLoop, hb]
      exact ih ins1 value1 h
    · simp at h
    · simp at h

theorem rowLoop_error_at {D : Deps} {table : Table} {b : Nat}
    {ins insE : Insert} {route routeE : Route} {rvs : List (List Value)}
    {valueE : List Value} {m : String} :
    ∀ (a rowNum : Nat) (ins0 : Insert) (route0 : Route) (rvs0 : List (List Value)),
      rowLoop D table a rowNum ins0 route0 rvs0 = (ins, route, .ok rvs) →
      rowStep D table (rowNum + a) ins route = (insE, routeE, valueE, .error m) →
      rowLoop D table (a + (b + 1)) rowNum ins0 route0 rvs0 = (insE, routeE, .error m) := by
  intro a
  induction a with
  | zero =>
    intro rowNum ins0 route0 rvs0 h hstep
    simp only [rowLoop, Prod.mk.injEq, Outcome.ok.injEq] at h
    obtain ⟨rfl, rfl, rfl⟩ := h
    simp only [Nat.add_zero] at hstep
    simp only [Nat.zero_add, rowLoop, hstep]
  | succ n ih =>
    intro rowNum ins0 route0 rvs0 h hstep
    obtain ⟨ins1, route1, value, hs, hrest⟩ := rowLoop_succ_ok_inv h
    have he : n + 1 + (b + 1) = (n + (b + 1)) + 1 := by omega
    rw [he]
    simp only [rowLoop, hs]
    apply ih (rowNum + 1) ins1 route1 _ hrest
    have he2 : rowNum + 1 + n = rowNum + (n + 1) := by omega
    rw [he2]
    exact hstep

theorem buildInsertPlan_rowLoop_error {D : Deps} {vschema : VSchema} {ins insE : Insert}
    {table : Table} {values : List RowTuple} {routeE : Route} {m : String}
    (hfind : vschema.Find ins.Table.Qualifier ins.Table.Name = .ok table)
    (hsharded : table.Keyspace.Sharded = true) (hcols : ins.Columns ≠ [])
    (hrows : ins.Rows = .Values values)
    (hcheck : checkRows ins.Columns.length values = none)
    (hloop : rowLoop D table values.length 0 ins (shardedRoute D table ins values) []
      = (insE, routeE, .error m)) :
    buildInsertPlan D vschema ins = (insE, .error m) := by
  have hlen : ¬ ins.Columns.length = 0 := by
    intro h
    exact hcols (List.length_eq_zero.mp h)
  have hroute : (if values.length ≠ 1 then
        ({ Opcode := RouteOpcode.MultiInsertSharded, Keyspace := some table.Keyspace,
           Query := D.generateQuery ins, Table := some table, Values := none,
           Generate := none } : Route)
      else { Opcode := RouteOpcode.InsertSharded, Keyspace := some table.Keyspace,
             Query := D.generateQuery ins, Table := some table, Values := none,
             Generate := none }) = shardedRoute D table ins values := by
    unfold shardedRoute
    split <;> rfl
  simp only [buildInsertPlan, hfind, hsharded, Bool.not_true, Bool.false_eq_true, if_false, hlen,
    hrows, hcheck, hroute, hloop]

theorem rowStep_index_error {D : Deps} {table : Table} {r : Nat} {ins insE : Insert}
    {route : Route} {valueE : List Value} {m : String}
    (h : indexLoop D r table.ColumnVindexes ins [] = (insE, valueE, .error m)) :
    rowStep D table r ins route = (insE, route, valueE, .error m) := by
  simp only [rowStep, h]

/-! ## Shape of the statement along the loops -/

theorem findPos_lt {columns : List ColIdent} {col : CIString} {p : Nat}
    (h : findPos columns col = some p) : p < columns.length := by
  obtain ⟨⟨column, hc, _⟩, _⟩ := findPos_eq_some_first h
  exact (List.getElem?_eq_some_iff.mp hc).1

theorem findPos_append_some {columns : List ColIdent} {col : CIString} {p : Nat}
    (ext : List ColIdent) (h : findPos columns col = some p) :
    findPos (columns ++ ext) col = some p := by
  unfold findPos at h ⊢
  rw [List.findIdx?_append, h]
  rfl

theorem findPos_append_self {columns : List ColIdent} {col : CIString}
    (h : findPos columns col = none) :
    findPos (columns ++ [col]) col = some columns.length := by
  unfold findPos at h ⊢
  rw [List.findIdx?_append, h]
  simp [CIString.Equal]

theorem findPos_append_ne_none {columns : List ColIdent} {col : CIString}
    (ext : List ColIdent) (h : findPos columns col ≠ none) :
    findPos (columns ++ ext) col ≠ none := by
  cases hp : findPos columns col with
  | none => exact absurd hp h
  | some p =>
    rw [findPos_append_some ext hp]
    simp

theorem Lookup_shape {ins ins2 : Insert} {col : CIString} {r : Nat} {row0 : List ValExpr}
    (h : Lookup ins col r ins2) (hrow : getRow ins.Rows r = .ok row0) :
    ins2.Table = ins.Table ∧
    (∀ j, j ≠ r → getRow ins2.Rows j = getRow ins.Rows j) ∧
    (∀ values, ins.Rows = .Values values →
      ∃ values2, ins2.Rows = .Values values2 ∧ values2.length = values.length) ∧
    ∃ row2, getRow ins2.Rows r = .ok row2 ∧
      ((∃ pos, findPos ins.Columns col = some pos ∧ pos < row0.length ∧
          ins2.Columns = ins.Columns ∧ row2.length = row0.length) ∨
       (findPos ins.Columns col = none ∧ ins.Columns.length ≤ row0.length ∧
          ins2.Columns = ins.Columns ++ [col] ∧ row2.length = row0.length + 1)) := by
  obtain ⟨ins1, row, pos, e, arg, hloc, hslot, rfl⟩ := h
  have hposlt : pos < row.length := (List.getElem?_eq_some_iff.mp hslot).1
  have hget1 : getRow ins1.Rows r = .ok row := findOrInsertPos_getRow hloc
  rcases findOrInsertPos_ok_inv hloc with ⟨hp, rfl, hr⟩ | ⟨hp, hpos, row1, hr1, hrow1, rfl⟩
  · rw [hrow] at hr
    cases hr
    refine ⟨rfl, fun j hj => getRow_setRow_ne (Ne.symm hj), ?_, row0.set pos arg,
      getRow_setRow_self hget1, Or.inl ⟨pos, hp, hposlt, rfl, by simp⟩⟩
    intro values hv
    simp only [hv, setRow]
    exact ⟨_, rfl, by simp⟩
  · rw [hrow] at hr1
    cases hr1
    subst hrow1 hpos
    refine ⟨rfl, ?_, ?_, (row0 ++ [ValExpr.NullVal]).set ins.Columns.length arg,
      getRow_setRow_self hget1, Or.inr ⟨hp, ?_, rfl, by simp⟩⟩
    · intro j hj
      simp only
      rw [getRow_setRow_ne (Ne.symm hj), getRow_setRow_ne (Ne.symm hj)]
    · intro values hv
      simp only [hv, setRow]
      exact ⟨_, rfl, by simp⟩
    · simp only [List.length_append, List.length_singleton] at hposlt
      omega

theorem LookupChain_append {r : Nat} :
    ∀ (xs ys : List CIString) (a m b : Insert),
      LookupChain r xs a m → LookupChain r ys m b → LookupChain r (xs ++ ys) a b := by
  intro xs
  induction xs with
  | nil =>
    intro ys a m b h1 h2
    simp only [LookupChain] at h1
    subst h1
    exact h2
  | cons c cs ih =>
    intro ys a m b h1 h2
    obtain ⟨m1, hl, hc⟩ := h1
    exact ⟨m1, hl, ih ys m1 m b hc h2⟩

theorem indexLoop_ok_chain {D : Deps} {r : Nat} :
    ∀ (cvs : List ColumnVindex) (ins ins2 : Insert) (value value2 : List Value),
      indexLoop D r cvs ins value = (ins2, value2, .ok ()) →
      LookupChain r (cvs.map (fun cv => cv.Column)) ins ins2 := by
  intro cvs
  induction cvs with
  | nil =>
    intro ins ins2 value value2 h
    simp only [indexLoop, Prod.mk.injEq, and_true] at h
    exact h.1
  | cons cv rest ih =>
    intro ins ins2 value value2 h
    unfold indexLoop at h
    split at h
    · rename_i ins1 value1 u hb
      have hb2 : buildIndexPlan D ins cv value r = (ins1, value1, .ok ()) := hb
      obtain ⟨insF, row, pos, e, v, hf, he, _, hins, _⟩ := buildIndexPlan_ok_inv hb2
      exact ⟨ins1, ⟨insF, row, pos, e, _, hf, he, hins⟩, ih ins1 ins2 value1 value2 h⟩
    · simp at h
    · simp at h

theorem rowStep_ok_chain {D : Deps} {table : Table} {r : Nat} {ins ins2 : Insert}
    {route route2 : Route} {value : List Value}
    (h : rowStep D table r ins route = (ins2, route2, value, .ok ())) :
    LookupChain r (lookupColumns table) ins ins2 := by
  obtain ⟨ins1, value1, hl, hcase⟩ := rowStep_ok_inv h
  have hc1 := indexLoop_ok_chain table.ColumnVindexes ins ins1 [] value1 hl
  unfold lookupColumns
  rcases hcase with ⟨ha, hins, _, _⟩ | ⟨autoinc, ha, hb⟩
  · rw [ha, hins]
    simpa using hc1
  · rw [ha]
    rcases buildAutoIncrementPlan_ok_inv hb with ⟨hk, _, _, hins, _, _⟩ |
      ⟨hk, insF, row, pos, e, v, hf, he, _, hins, _, _⟩
    · have hk2 : autoinc.ColumnVindexNum ≥ 0 := hk
      simp only [hk2, if_true, List.append_nil]
      rw [hins]
      exact hc1
    · have hk2 : ¬ autoinc.ColumnVindexNum ≥ 0 := by omega
      simp only [hk2, if_false]
      exact LookupChain_append _ _ ins ins1 ins2 hc1
        ⟨ins2, ⟨insF, row, pos, e, _, hf, he, hins⟩, rfl⟩

theorem LookupChain_inshape {r : Nat} :
    ∀ (cs : List CIString) (ins ins2 : Insert) (row0 : List ValExpr),
      getRow ins.Rows r = .ok row0 → row0.length = ins.Columns.length →
      LookupChain r cs ins ins2 →
      ∃ ext row2, ins2.Columns = ins.Columns ++ ext ∧ getRow ins2.Rows r = .ok row2 ∧
        row2.length = ins2.Columns.length ∧
        (∀ j, j ≠ r → getRow ins2.Rows j = getRow ins.Rows j) ∧
        (∀ values, ins.Rows = .Values values →
          ∃ values2, ins2.Rows = .Values values2 ∧ values2.length = values.length) ∧
        (∀ c ∈ cs, findPos ins2.Columns c ≠ none) ∧
        ((∀ c ∈ cs, findPos ins.Columns c ≠ none) → ext = []) ∧
        (ext ≠ [] → ∃ c ∈ cs, ∃ p, findPos ins2.Columns c = some p ∧ ins.Columns.length ≤ p) := by
  intro cs
  induction cs with
  | nil =>
    intro ins ins2 row0 hrow hlen h
    simp only [LookupChain] at h
    subst h
    exact ⟨[], row0, by simp, hrow, hlen, fun _ _ => rfl, fun values hv => ⟨values, hv, rfl⟩,
      by simp, fun _ => rfl, fun h => absurd rfl h⟩
  | cons c cs ih =>
    intro ins ins2 row0 hrow hlen h
    obtain ⟨m, hl, hc⟩ := h
    obtain ⟨_, hframe, hvals, rowm, hrowm, hcase⟩ := Lookup_shape hl hrow
    rcases hcase with ⟨pos, hpos, _, hcols, hlenm⟩ | ⟨hpos, _, hcols, hlenm⟩
    · obtain ⟨ext, row2, h1, h2, h3, h4, h5, h6, h7, h8⟩ :=
        ih m ins2 rowm hrowm (by rw [hlenm, hcols, hlen]) hc
      rw [hcols] at h1 h7 h8
      refine ⟨ext, row2, h1, h2, h3, ?_, ?_, ?_, ?_, ?_⟩
      · intro j hj
        rw [h4 j hj, hframe j hj]
      · intro values hv
        obtain ⟨valuesm, hvm, hlm⟩ := hvals values hv
        obtain ⟨values2, hv2, hl2⟩ := h5 valuesm hvm
        exact ⟨values2, hv2, by rw [hl2, hlm]⟩
      · intro c1 hc1
        rcases List.mem_cons.mp hc1 with rfl | hc1
        · rw [h1]
          exact findPos_append_ne_none ext (by rw [hpos]; simp)
        · exact h6 c1 hc1
      · intro hall
        exact h7 (fun c1 hc1 => hall c1 (List.mem_cons_of_mem _ hc1))
      · intro hext
        obtain ⟨c1, hc1, p, hp, hle⟩ := h8 hext
        exact ⟨c1, List.mem_cons_of_mem _ hc1, p, hp, hle⟩
    · obtain ⟨ext, row2, h1, h2, h3, h4, h5, h6, h7, h8⟩ :=
        ih m ins2 rowm hrowm (by rw [hlenm, hcols, hlen]; simp) hc
      rw [hcols] at h1
      refine ⟨c :: ext, row2, by rw [h1]; simp, h2, h3, ?_, ?_, ?_, ?_, ?_⟩
      · intro j hj
        rw [h4 j hj, hframe j hj]
      · intro values hv
        obtain ⟨valuesm, hvm, hlm⟩ := hvals values hv
        obtain ⟨values2, hv2, hl2⟩ := h5 valuesm hvm
        exact ⟨values2, hv2, by rw [hl2, hlm]⟩
      · intro c1 hc1
        rcases List.mem_cons.mp hc1 with rfl | hc1
        · rw [h1, findPos_append_some ext (findPos_append_self hpos)]
          simp
        · exact h6 c1 hc1
      · intro hall
        exact absurd hpos (hall c (List.mem_cons_self _ _))
      · intro _
        refine ⟨c, List.mem_cons_self _ _, ins.Columns.length, ?_, Nat.le_refl _⟩
        rw [h1, findPos_append_some ext (findPos_append_self hpos)]

theorem LookupChain_present {r : Nat} :
    ∀ (cs : List CIString) (ins ins2 : Insert) (row0 : List ValExpr),
      getRow ins.Rows r = .ok row0 → (∀ c ∈ cs, findPos ins.Columns c ≠ none) →
      LookupChain r cs ins ins2 →
      ins2.Columns = ins.Columns ∧
      (∃ row2, getRow ins2.Rows r = .ok row2 ∧ row2.length = row0.length) ∧
      (∀ j, j ≠ r → getRow ins2.Rows j = getRow ins.Rows j) ∧
      ∀ c ∈ cs, ∃ p, findPos ins.Columns c = some p ∧ p < row0.length := by
  intro cs
  induction cs with
  | nil =>
    intro ins ins2 row0 hrow _ h
    simp only [LookupChain] at h
    subst h
    exact ⟨rfl, ⟨row0, hrow, rfl⟩, fun _ _ => rfl, by simp⟩
  | cons c cs ih =>
    intro ins ins2 row0 hrow hall h
    obtain ⟨m, hl, hc⟩ := h
    obtain ⟨_, hframe, _, rowm, hrowm, hcase⟩ := Lookup_shape hl hrow
    rcases hcase with ⟨pos, hpos, hlt, hcols, hlenm⟩ | ⟨hpos, _, _, _⟩
    · obtain ⟨h1, ⟨row2, h2, h3⟩, h4, h5⟩ := ih m ins2 rowm hrowm
        (by rw [hcols]; exact fun c1 hc1 => hall c1 (List.mem_cons_of_mem _ hc1)) hc
      refine ⟨by rw [h1, hcols], ⟨row2, h2, by rw [h3, hlenm]⟩, ?_, ?_⟩
      · intro j hj
        rw [h4 j hj, hframe j hj]
      · intro c1 hc1
        rcases List.mem_cons.mp hc1 with rfl | hc1
        · exact ⟨pos, hpos, hlt⟩
        · obtain ⟨p, hp, hplt⟩ := h5 c1 hc1
          rw [hcols] at hp
          exact ⟨p, hp, by rw [← hlenm]; exact hplt⟩
    · exact absurd hpos (hall c (List.mem_cons_self _ _))

theorem rowStep_ok_shape {D : Deps} {table : Table} {r N : Nat} {ins ins2 : Insert}
    {route route2 : Route} {value : List Value}
    (hH : 2 ≤ N → ∀ c ∈ lookupColumns table, findPos ins.Columns c ≠ none)
    (hshape : ∀ j, j < N → ∃ row, getRow ins.Rows j = .ok row ∧
      row.length = ins.Columns.length)
    (hr : r < N)
    (h : rowStep D table r ins route = (ins2, route2, value, .ok ())) :
    (∀ j, j < N → ∃ row, getRow ins2.Rows j = .ok row ∧ row.length = ins2.Columns.length) ∧
    (2 ≤ N → ins2.Columns = ins.Columns) ∧
    (∀ values, ins.Rows = .Values values →
      ∃ values2, ins2.Rows = .Values values2 ∧ values2.length = values.length) := by
  obtain ⟨row0, hrow0, hlen0⟩ := hshape r hr
  obtain ⟨ext, row2, h1, h2, h3, h4, h5, _, h7, _⟩ :=
    LookupChain_inshape (lookupColumns table) ins ins2 row0 hrow0 hlen0 (rowStep_ok_chain h)
  have hext : 2 ≤ N → ext = [] := fun hN => h7 (hH hN)
  refine ⟨?_, ?_, h5⟩
  · intro j hj
    by_cases hjr : j = r
    · subst hjr
      exact ⟨row2, h2, h3⟩
    · obtain ⟨rowj, hrowj, hlenj⟩ := hshape j hj
      have hN : 2 ≤ N := by omega
      refine ⟨rowj, by rw [h4 j hjr, hrowj], ?_⟩
      rw [hlenj, h1, hext hN]
      simp
  · intro hN
    rw [h1, hext hN]
    simp

theorem rowLoop_ok_shape {D : Deps} {table : Table} {ins ins2 : Insert} {route route2 : Route}
    {rvs : List (List Value)} {values : List RowTuple}
    (hrows : ins.Rows = .Values values)
    (hH : 2 ≤ values.length → ∀ c ∈ lookupColumns table, findPos ins.Columns c ≠ none)
    (hshape : ∀ j, j < values.length → ∃ row, getRow ins.Rows j = .ok row ∧
      row.length = ins.Columns.length)
    (h : rowLoop D table values.length 0 ins route [] = (ins2, route2, .ok rvs)) :
    (∀ j, j < values.length → ∃ row, getRow ins2.Rows j = .ok row ∧
      row.length = ins2.Columns.length) ∧
    (2 ≤ values.length → ins2.Columns = ins.Columns) ∧
    ∃ values2, ins2.Rows = .Values values2 ∧ values2.length = values.length := by
  refine rowLoop_ok_induct values.length
    (fun _ insX _ _ =>
      (∀ j, j < values.length → ∃ row, getRow insX.Rows j = .ok row ∧
        row.length = insX.Columns.length) ∧
      (2 ≤ values.length → insX.Columns = ins.Columns) ∧
      ∃ values2, insX.Rows = .Values values2 ∧ values2.length = values.length)
    0 ins route [] ins2 route2 rvs h ⟨hshape, fun _ => rfl, values, hrows, rfl⟩ ?_
  intro r insA routeA rvA insB routeB value _ hr hP hS
  obtain ⟨hshapeA, hcolsA, valuesA, hrowsA, hlenA⟩ := hP
  obtain ⟨h1, h2, h3⟩ := rowStep_ok_shape (N := values.length)
    (fun hN => by rw [hcolsA hN]; exact hH hN) hshapeA (by omega) hS
  refine ⟨h1, fun hN => by rw [h2 hN, hcolsA hN], ?_⟩
  obtain ⟨valuesB, hrowsB, hlenB⟩ := h3 valuesA hrowsA
  exact ⟨valuesB, hrowsB, by rw [hlenB, hlenA]⟩

theorem checkRows_none_shape {ins : Insert} {values : List RowTuple}
    (hrows : ins.Rows = .Values values)
    (hcheck : checkRows ins.Columns.length values = none) :
    ∀ j, j < values.length → ∃ row, getRow ins.Rows j = .ok row ∧
      row.length = ins.Columns.length := by
  intro j hj
  obtain ⟨row, ht, hlen⟩ := checkRows_none values hcheck j values[j]
    (List.getElem?_eq_getElem hj)
  exact ⟨row, getRow_ok_iff.mpr ⟨values, hrows, by rw [List.getElem?_eq_getElem hj, ht]⟩, hlen⟩

/-- A successful row loop over two or more rows, started on a statement whose rows have the
column list's length, found every looked-up column in the column list as it was passed in:
a column appended for row 0 would sit beyond the last slot of row 1. -/
theorem rowLoop_ok_present {D : Deps} {table : Table} {ins ins2 : Insert}
    {route route2 : Route} {rvs rvs2 : List (List Value)} {n : Nat}
    (hshape : ∀ j, j < n + 2 → ∃ row, getRow ins.Rows j = .ok row ∧
      row.length = ins.Columns.length)
    (h : rowLoop D table (n + 2) 0 ins route rvs = (ins2, route2, .ok rvs2)) :
    ∀ c ∈ lookupColumns table, findPos ins.Columns c ≠ none := by
  obtain ⟨insA, routeA, valueA, hstep0, hrestA⟩ := rowLoop_succ_ok_inv h
  obtain ⟨insB, routeB, valueB, hstep1, _⟩ := rowLoop_succ_ok_inv hrestA
  obtain ⟨row0, hrow0, hlen0⟩ := hshape 0 (by omega)
  obtain ⟨row1, hrow1, hlen1⟩ := hshape 1 (by omega)
  obtain ⟨ext, _, h1, _, _, h4, _, h6, _, h8⟩ :=
    LookupChain_inshape (lookupColumns table) ins insA row0 hrow0 hlen0
      (rowStep_ok_chain hstep0)
  have hrow1A : getRow insA.Rows (0 + 1) = .ok row1 := by
    simp only [Nat.zero_add]
    rw [h4 1 (by omega), hrow1]
  obtain ⟨_, _, _, hlt⟩ :=
    LookupChain_present (lookupColumns table) insA insB row1 hrow1A h6
      (rowStep_ok_chain hstep1)
  have hext : ext = [] := by
    by_contra hne
    obtain ⟨c, hc, p, hp, hle⟩ := h8 hne
    obtain ⟨p2, hp2, hp2lt⟩ := hlt c hc
    rw [hp] at hp2
    cases hp2
    omega
  intro c hc
  have := h6 c hc
  rw [h1, hext] at this
  simpa using this

/-- C18: when `buildInsertPlan` returns a route for a sharded insert, the statement it leaves
behind still has a literal row list with the same number of rows, and every row has exactly as
many slots as the column list, also when a shard-routing or auto-increment column was missing
and had to be appended. -/
theorem buildInsertPlan_shape (D : Deps) (vschema : VSchema) (ins ins2 : Insert)
    (table : Table) (route : Route) (values : List RowTuple)
    (hfind : vschema.Find ins.Table.Qualifier ins.Table.Name = .ok table)
    (hsharded : table.Keyspace.Sharded = true)
    (hrows : ins.Rows = .Values values)
    (hok : buildInsertPlan D vschema ins = (ins2, .ok route)) :
    ShapeInvariant ins2 ∧
    ∃ values2, ins2.Rows = .Values values2 ∧ values2.length = values.length ∧
      ∀ t ∈ values2, ∃ row, t = RowTuple.ValTuple row ∧ row.length = ins2.Columns.length := by
  obtain ⟨values1, routeL, rvs, hrows1, _, hcheck, hloop, _⟩ :=
    buildInsertPlan_sharded_ok_inv hfind hsharded hok
  rw [hrows] at hrows1
  cases hrows1
  have hshape := checkRows_none_shape hrows hcheck
  have hH : 2 ≤ values.length → ∀ c ∈ lookupColumns table, findPos ins.Columns c ≠ none := by
    intro hN
    obtain ⟨n, hn⟩ : ∃ n, values.length = n + 2 := ⟨values.length - 2, by omega⟩
    rw [hn] at hloop hshape
    exact rowLoop_ok_present hshape hloop
  obtain ⟨h1, _, values2, hrows2, hlen2⟩ := rowLoop_ok_shape hrows hH hshape hloop
  have hall : ∀ t ∈ values2, ∃ row, t = RowTuple.ValTuple row ∧
      row.length = ins2.Columns.length := by
    intro t ht
    obtain ⟨j, hj, hjt⟩ := List.getElem_of_mem ht
    obtain ⟨row, hrow, hlen⟩ := h1 j (by omega)
    obtain ⟨values3, hv3, hr3⟩ := getRow_ok_iff.mp hrow
    rw [hrows2] at hv3
    cases hv3
    rw [List.getElem?_eq_getElem hj, hjt] at hr3
    exact ⟨row, Option.some.inj hr3, hlen⟩
  refine ⟨?_, values2, hrows2, hlen2, hall⟩
  intro r row hrow
  obtain ⟨values3, hv3, hr3⟩ := getRow_ok_iff.mp hrow
  rw [hrows2] at hv3
  cases hv3
  obtain ⟨row2, ht, hlen⟩ := hall _ (List.getElem?_mem hr3)
  simp only [RowTuple.ValTuple.injEq] at ht
  rw [ht]
  exact hlen

/-- Witness of C18 (`buildInsertPlan_shape`): `insert into music(name) values ('a')`, where
the shard-routing column `user_id` and the auto-increment column `id` are appended. -/
theorem buildInsertPlan_shape_witness :
    ShapeInvariant insertMusicNamePlanned ∧
    ∃ values2, insertMusicNamePlanned.Rows = .Values values2 ∧
      values2.length = [RowTuple.ValTuple [.StrVal "a"]].length ∧
      ∀ t ∈ values2, ∃ row, t = RowTuple.ValTuple row ∧
        row.length = insertMusicNamePlanned.Columns.length :=
  buildInsertPlan_shape exampleDeps (vschemaOf musicTable) insertMusicName
    insertMusicNamePlanned musicTable insertMusicNameRoute [.ValTuple [.StrVal "a"]]
    rfl rfl rfl (by decide)

/-! ## Absence of runtime panics -/

theorem mem_lookupColumns {table : Table} {c : CIString} (h : c ∈ lookupColumns table) :
    (∃ cv ∈ table.ColumnVindexes, cv.Column = c) ∨
    (∃ a, table.AutoIncrement = some a ∧ a.Column = c) := by
  unfold lookupColumns at h
  rcases List.mem_append.mp h with h | h
  · obtain ⟨cv, hm, rfl⟩ := List.mem_map.mp h
    exact Or.inl ⟨cv, hm, rfl⟩
  · right
    cases ha : table.AutoIncrement with
    | none =>
      simp [ha] at h
    | some a =>
      by_cases hk : a.ColumnVindexNum ≥ 0
      · simp [ha, hk] at h
      · simp only [ha, hk, if_false, List.mem_singleton] at h
        exact ⟨a, rfl, h.symm⟩

theorem findOrInsertPos_total {ins : Insert} {r : Nat} {row0 : List ValExpr} (col : CIString)
    (hrow : getRow ins.Rows r = .ok row0) :
    ∃ ins1 row pos, findOrInsertPos ins col r = (ins1, .ok (row, pos)) ∧
      (row0.length = ins.Columns.length → pos < row.length) := by
  cases hpos : findPos ins.Columns col with
  | some pos =>
    refine ⟨ins, row0, pos, findOrInsertPos_found hpos hrow, ?_⟩
    intro hlen
    rw [hlen]
    exact findPos_lt hpos
  | none =>
    refine ⟨_, row0 ++ [ValExpr.NullVal], ins.Columns.length,
      findOrInsertPos_absent hpos hrow, ?_⟩
    intro hlen
    simp only [List.length_append, List.length_singleton]
    omega

theorem buildIndexPlan_inshape {D : Deps} {ins : Insert} {r : Nat} {row0 : List ValExpr}
    (cv : ColumnVindex) (value : List Value)
    (hrow : getRow ins.Rows r = .ok row0) (hlen : row0.length = ins.Columns.length) :
    (∃ ins2 value2, buildIndexPlan D ins cv value r = (ins2, value2, .ok ())) ∨
    (∃ ins2 value2 m, buildIndexPlan D ins cv value r = (ins2, value2, .error m)) := by
  obtain ⟨ins1, row, pos, hloc, hlt⟩ := findOrInsertPos_total cv.Column hrow
  have hslot : row[pos]? = some row[pos] := List.getElem?_eq_getElem (hlt hlen)
  obtain ⟨herr, hokv⟩ := buildIndexPlan_of_located D value hloc hslot
  cases hc : D.valConvert row[pos] with
  | error err => exact Or.inr ⟨_, _, _, herr err hc⟩
  | ok v => exact Or.inl ⟨_, _, hokv v hc⟩

theorem indexLoop_inshape {D : Deps} {r : Nat} :
    ∀ (cvs : List ColumnVindex) (ins : Insert) (value : List Value) (row0 : List ValExpr),
      getRow ins.Rows r = .ok row0 → row0.length = ins.Columns.length →
      (∃ ins2 value2, indexLoop D r cvs ins value = (ins2, value2, .ok ())) ∨
      (∃ ins2 value2 m, indexLoop D r cvs ins value = (ins2, value2, .error m)) := by
  intro cvs
  induction cvs with
  | nil =>
    intro ins value row0 _ _
    exact Or.inl ⟨ins, value, rfl⟩
  | cons cv rest ih =>
    intro ins value row0 hrow hlen
    rcases buildIndexPlan_inshape (D := D) cv value hrow hlen with
      ⟨ins1, value1, hb⟩ | ⟨ins1, value1, m, hb⟩
    · obtain ⟨insF, row, pos, e, v, hf, he, _, hins, _⟩ := buildIndexPlan_ok_inv hb
      have hchain : LookupChain r [cv.Column] ins ins1 :=
        ⟨ins1, ⟨insF, row, pos, e, _, hf, he, hins⟩, rfl⟩
      obtain ⟨_, row1, _, hrow1, hlen1, _⟩ :=
        LookupChain_inshape [cv.Column] ins ins1 row0 hrow hlen hchain
      simp only [indexLoop, hb]
      exact ih ins1 value1 row1 hrow1 hlen1
    · right
      exact ⟨ins1, value1, m, by simp only [indexLoop, hb]⟩

theorem buildAutoIncrementPlan_inshape {D : Deps} {ins : Insert} {r : Nat}
    {row0 : List ValExpr} (autoinc : AutoIncrement) (route : Route) (value : List Value)
    (hrow : getRow ins.Rows r = .ok row0) (hlen : row0.length = ins.Columns.length)
    (hidx : autoinc.ColumnVindexNum < value.length) :
    (∃ ins2 route2 value2,
      buildAutoIncrementPlan D ins autoinc route value r = (ins2, route2, value2, .ok ())) ∨
    (∃ ins2 route2 value2 m,
      buildAutoIncrementPlan D ins autoinc route value r = (ins2, route2, value2, .error m)) := by
  by_cases hk : autoinc.ColumnVindexNum ≥ 0
  · have hlt : autoinc.ColumnVindexNum.toNat < value.length := by omega
    left
    refine ⟨ins, { route with Generate := some { newGenerate autoinc with
        Value := value[autoinc.ColumnVindexNum.toNat] } },
      value.set autoinc.ColumnVindexNum.toNat (Value.str (":" ++ D.SeqVarName ++ toString r)),
      ?_⟩
    simp only [buildAutoIncrementPlan, hk, if_true, List.getElem?_eq_getElem hlt]
  · obtain ⟨ins1, row, pos, hloc, hlt⟩ := findOrInsertPos_total autoinc.Column hrow
    have hslot : row[pos]? = some row[pos] := List.getElem?_eq_getElem (hlt hlen)
    cases hc : D.valConvert row[pos] with
    | error err =>
      right
      refine ⟨ins1, { route with Generate := some (newGenerate autoinc) }, value,
        "could not convert val: " ++ D.sqlparserString row[pos] ++ ", pos: " ++ toString pos
          ++ ": " ++ err, ?_⟩
      simp only [buildAutoIncrementPlan, hk, if_false, hloc, hslot, hc]
    | ok v =>
      left
      refine ⟨{ ins1 with Rows := setRow ins1.Rows r (row.set pos
          (ValExpr.ValArg (":" ++ D.SeqVarName ++ toString r))) },
        { route with Generate := some { newGenerate autoinc with Value := v } }, value, ?_⟩
      simp only [buildAutoIncrementPlan, hk, if_false, hloc, hslot, hc]

theorem rowStep_inshape {D : Deps} {table : Table} {ins : Insert} {r : Nat}
    {row0 : List ValExpr} (route : Route)
    (hidx : ∀ a, table.AutoIncrement = some a →
      a.ColumnVindexNum < table.ColumnVindexes.length)
    (hrow : getRow ins.Rows r = .ok row0) (hlen : row0.length = ins.Columns.length) :
    (∃ ins2 route2 value, rowStep D table r ins route = (ins2, route2, value, .ok ())) ∨
    (∃ ins2 route2 value m, rowStep D table r ins route = (ins2, route2, value, .error m)) := by
  rcases indexLoop_inshape (D := D) table.ColumnVindexes ins [] row0 hrow hlen with
    ⟨ins1, value1, hl⟩ | ⟨ins1, value1, m, hl⟩
  · cases ha : table.AutoIncrement with
    | none =>
      left
      exact ⟨ins1, route, value1, by simp only [rowStep, hl, ha]⟩
    | some autoinc =>
      obtain ⟨_, row1, _, hrow1, hlen1, _⟩ :=
        LookupChain_inshape _ ins ins1 row0 hrow hlen
          (indexLoop_ok_chain table.ColumnVindexes ins ins1 [] value1 hl)
      have hvlen : value1.length = table.ColumnVindexes.length := by
        simpa using indexLoop_ok_length hl
      have hk : autoinc.ColumnVindexNum < value1.length := by
        rw [hvlen]
        exact hidx autoinc ha
      rcases buildAutoIncrementPlan_inshape (D := D) autoinc route value1 hrow1 hlen1 hk with
        ⟨ins2, route2, value2, hb⟩ | ⟨ins2, route2, value2, m, hb⟩
      · left
        exact ⟨ins2, route2, value2, by simp only [rowStep, hl, ha, hb]⟩
      · right
        exact ⟨ins2, route2, value2, m, by simp only [rowStep, hl, ha, hb]⟩
  · right
    exact ⟨ins1, route, value1, m, by simp only [rowStep, hl]⟩

theorem rowLoop_inshape {D : Deps} {table : Table} {N : Nat}
    (hidx : ∀ a, table.AutoIncrement = some a →
      a.ColumnVindexNum < table.ColumnVindexes.length) :
    ∀ (remaining rowNum : Nat) (ins : Insert) (route : Route) (rvs : List (List Value)),
      rowNum + remaining = N →
      (2 ≤ N → ∀ c ∈ lookupColumns table, findPos ins.Columns c ≠ none) →
      (∀ j, j < N → ∃ row, getRow ins.Rows j = .ok row ∧ row.length = ins.Columns.length) →
      (∃ ins2 route2 rvs2,
        rowLoop D table remaining rowNum ins route rvs = (ins2, route2, .ok rvs2)) ∨
      (∃ ins2 route2 m,
        rowLoop D table remaining rowNum ins route rvs = (ins2, route2, .error m)) := by
  intro remaining
  induction remaining with
  | zero =>
    intro rowNum ins route rvs _ _ _
    exact Or.inl ⟨ins, route, rvs, rfl⟩
  | succ n ih =>
    intro rowNum ins route rvs hN hH hshape
    obtain ⟨row0, hrow0, hlen0⟩ := hshape rowNum (by omega)
    rcases rowStep_inshape (D := D) route hidx hrow0 hlen0 with
      ⟨ins1, route1, value, hs⟩ | ⟨ins1, route1, value, m, hs⟩
    · obtain ⟨h1, h2, _⟩ := rowStep_ok_shape (N := N) hH hshape (by omega) hs
      simp only [rowLoop, hs]
      exact ih (rowNum + 1) ins1 route1 (rvs ++ [value]) (by omega)
        (fun h2N => by rw [h2 h2N]; exact hH h2N) h1
    · right
      exact ⟨ins1, route1, m, by simp only [rowLoop, hs]⟩

/-- C19: on a sharded table, for a statement whose row source is a literal row list, a select
or a union, with an auto-increment `ColumnVindexNum` (if any) that is negative or smaller than
the number of shard-routing descriptors, and with at most one row or else with every
shard-routing column and the auto-increment column in the column list, `buildInsertPlan` ends
by returning a route or an error: no slot or list access is out of range and no other panic
occurs. -/
theorem buildInsertPlan_no_panic (D : Deps) (vschema : VSchema) (ins : Insert) (table : Table)
    (hfind : vschema.Find ins.Table.Qualifier ins.Table.Name = .ok table)
    (hsharded : table.Keyspace.Sharded = true)
    (hsrc : ins.Rows ≠ .Nil)
    (hidx : ∀ a, table.AutoIncrement = some a →
      a.ColumnVindexNum < table.ColumnVindexes.length)
    (hpre : (∀ values, ins.Rows = .Values values → values.length ≤ 1) ∨
      ((∀ cv ∈ table.ColumnVindexes, findPos ins.Columns cv.Column ≠ none) ∧
        ∀ a, table.AutoIncrement = some a → findPos ins.Columns a.Column ≠ none)) :
    (∃ ins2 route, buildInsertPlan D vschema ins = (ins2, .ok route)) ∨
    (∃ ins2 m, buildInsertPlan D vschema ins = (ins2, .error m)) := by
  by_cases hcols : ins.Columns = []
  · right
    exact ⟨ins, "no column list", by simp [buildInsertPlan, hfind, hsharded, hcols]⟩
  have hlen : ¬ ins.Columns.length = 0 := by
    intro h
    exact hcols (List.length_eq_zero.mp h)
  cases hrows : ins.Rows with
  | Select t =>
    right
    exact ⟨ins, "unsupported: insert into select",
      by simp [buildInsertPlan, hfind, hsharded, hlen, hrows]⟩
  | Union t =>
    right
    exact ⟨ins, "unsupported: insert into select",
      by simp [buildInsertPlan, hfind, hsharded, hlen, hrows]⟩
  | Nil => exact absurd hrows hsrc
  | Values values =>
    cases hcheck : checkRows ins.Columns.length values with
    | some msg =>
      right
      exact ⟨ins, msg, buildInsertPlan_checkRows_error hfind hsharded hcols hrows hcheck⟩
    | none =>
      have hshape := checkRows_none_shape hrows hcheck
      have hH : 2 ≤ values.length →
          ∀ c ∈ lookupColumns table, findPos ins.Columns c ≠ none := by
        intro hN c hc
        rcases hpre with hone | ⟨hcv, hauto⟩
        · have := hone values hrows
          omega
        · rcases mem_lookupColumns hc with ⟨cv, hcvmem, rfl⟩ | ⟨a, ha, rfl⟩
          · exact hcv cv hcvmem
          · exact hauto a ha
      rcases rowLoop_inshape (D := D) (N := values.length) hidx values.length 0 ins
          (shardedRoute D table ins values) [] (by omega) hH hshape with
        ⟨ins2, route2, rvs2, hl⟩ | ⟨ins2, route2, m, hl⟩
      · left
        have hroute : (if values.length ≠ 1 then
              ({ Opcode := RouteOpcode.MultiInsertSharded, Keyspace := some table.Keyspace,
                 Query := D.generateQuery ins, Table := some table, Values := none,
                 Generate := none } : Route)
            else { Opcode := RouteOpcode.InsertSharded, Keyspace := some table.Keyspace,
                   Query := D.generateQuery ins, Table := some table, Values := none,
                   Generate := none }) = shardedRoute D table ins values := by
          unfold shardedRoute
          split <;> rfl
        exact ⟨ins2, { route2 with Values := some rvs2, Query := D.generateQuery ins2 }, by
          simp only [buildInsertPlan, hfind, hsharded, Bool.not_true, Bool.false_eq_true,
            if_false, hlen, hrows, hcheck, hroute, hl]⟩
      · right
        exact ⟨ins2, m, buildInsertPlan_rowLoop_error hfind hsharded hcols hrows hcheck hl⟩

/-- Witness of C19 (`buildInsertPlan_no_panic`): the one-row statement
`insert into music(name) values ('a')`, which misses the shard-routing column and the
auto-increment column of `musicTable`. -/
theorem buildInsertPlan_no_panic_witness :
    (∃ ins2 route,
      buildInsertPlan exampleDeps (vschemaOf musicTable) insertMusicName = (ins2, .ok route)) ∨
    (∃ ins2 m,
      buildInsertPlan exampleDeps (vschemaOf musicTable) insertMusicName = (ins2, .error m)) :=
  buildInsertPlan_no_panic exampleDeps (vschemaOf musicTable) insertMusicName musicTable
    rfl rfl (by decide)
    (by
      intro a ha
      simp only [musicTable, Option.some.injEq] at ha
      subst ha
      decide)
    (Or.inl (by
      intro values hv
      simp only [insertMusicName, InsertRows.Values.injEq] at hv
      subst hv
      decide))

/-! ## Two descriptors on one column -/

theorem CIString.Equal_comm (a b : CIString) : a.Equal b = b.Equal a := by
  unfold CIString.Equal
  by_cases h : a.lowered = b.lowered
  · simp [h]
  · have h2 : ¬ b.lowered = a.lowered := fun h3 => h h3.symm
    simp [h, h2]

theorem findPos_congr {columns : List ColIdent} {a b : CIString} (h : a.Equal b = true) :
    findPos columns a = findPos columns b := by
  have hl : a.lowered = b.lowered := by simpa [CIString.Equal] using h
  unfold findPos CIString.Equal
  rw [hl]

theorem findPos_append_ne {columns : List ColIdent} {c d : CIString}
    (h : c.Equal d = false) : findPos (columns ++ [d]) c = findPos columns c := by
  unfold findPos
  rw [List.findIdx?_append]
  simp [h]

/-- What one successful `buildIndexPlan` does to a row that is not longer than the column
list: it reads the slot at the position of the column (the NULL literal when the column had to
be appended), appends its conversion, and writes the bind variable there; the other slots
stay. -/
theorem buildIndexPlan_ok_step {D : Deps} {insA insB : Insert} {cv : ColumnVindex}
    {valueA valueB : List Value} {r : Nat} {rowA : List ValExpr}
    (h : buildIndexPlan D insA cv valueA r = (insB, valueB, .ok ()))
    (hrow : getRow insA.Rows r = .ok rowA) (hlen : rowA.length ≤ insA.Columns.length) :
    ∃ pos e v rowB, D.valConvert e = .ok v ∧ valueB = valueA ++ [v] ∧
      getRow insB.Rows r = .ok rowB ∧ rowB.length ≤ insB.Columns.length ∧
      rowB[pos]? = some (ValExpr.ValArg (":_" ++ cv.Column.Original ++ toString r)) ∧
      (∀ p, p ≠ pos → p < insA.Columns.length → rowB[p]? = rowA[p]?) ∧
      findPos insB.Columns cv.Column = some pos ∧
      ((findPos insA.Columns cv.Column = some pos ∧ insB.Columns = insA.Columns ∧
          rowA[pos]? = some e) ∨
       (findPos insA.Columns cv.Column = none ∧ insB.Columns = insA.Columns ++ [cv.Column] ∧
          pos = insA.Columns.length ∧ e = ValExpr.NullVal)) := by
  obtain ⟨insF, row, pos, e, v, hloc, hslot, hconv, hins, hval⟩ := buildIndexPlan_ok_inv h
  have hposlt : pos < row.length := (List.getElem?_eq_some_iff.mp hslot).1
  have hgetB : getRow insB.Rows r = .ok (row.set pos
      (ValExpr.ValArg (":_" ++ cv.Column.Original ++ toString r))) := by
    rw [hins]
    exact getRow_setRow_self (findOrInsertPos_getRow hloc)
  have hcolsB : insB.Columns = insF.Columns := by rw [hins]
  refine ⟨pos, e, v, _, hconv, hval, hgetB, ?_, List.getElem?_set_self hposlt, ?_, ?_, ?_⟩
  · rcases findOrInsertPos_ok_inv hloc with ⟨_, hF, hr⟩ | ⟨_, _, row1, hr1, hrow1, hF⟩
    · rw [hrow] at hr
      cases hr
      rw [hcolsB, hF]
      simpa using hlen
    · rw [hrow] at hr1
      cases hr1
      rw [hcolsB, hF, hrow1]
      simp only [List.length_set, List.length_append, List.length_singleton]
      omega
  · intro p hp hplt
    rw [List.getElem?_set_ne (Ne.symm hp)]
    rcases findOrInsertPos_ok_inv hloc with ⟨_, _, hr⟩ | ⟨_, hpos, row1, hr1, hrow1, _⟩
    · rw [hrow] at hr
      cases hr
      rfl
    · rw [hrow] at hr1
      cases hr1
      subst hrow1 hpos
      simp only [List.length_append, List.length_singleton] at hposlt
      rw [List.getElem?_append_left (by omega)]
  · rcases findOrInsertPos_ok_inv hloc with ⟨hp, hF, _⟩ | ⟨hp, hpos, _, _, _, hF⟩
    · rw [hcolsB, hF]
      exact hp
    · rw [hcolsB, hF, hpos]
      exact findPos_append_self hp
  · rcases findOrInsertPos_ok_inv hloc with ⟨hp, hF, hr⟩ | ⟨hp, hpos, row1, hr1, hrow1, hF⟩
    · rw [hrow] at hr
      cases hr
      exact Or.inl ⟨hp, by rw [hcolsB, hF], hslot⟩
    · rw [hrow] at hr1
      cases hr1
      refine Or.inr ⟨hp, by rw [hcolsB, hF], hpos, ?_⟩
      subst hrow1 hpos
      simp only [List.length_append, List.length_singleton] at hposlt
      have heq : insA.Columns.length = rowA.length := by omega
      rw [heq, List.getElem?_append_right (Nat.le_refl _)] at hslot
      simpa using hslot.symm

/-- C20 as stated fails: with three descriptors `id`, `Id`, `ID` on one column, the
descriptors 0 and 2 name the same column, but the value extracted for descriptor 2 is the
conversion of `:_Id0`, the bind variable written for descriptor 1, and not of `:_id0`; and of
the pair 1 and 2 the entry of descriptor 1 is the string `:_id0`, not the conversion of the
original literal `1`. -/
theorem indexLoop_same_column_counterexample :
    (ident "id").Equal { val := "ID", lowered := "id" } = true ∧
      ({ val := "Id", lowered := "id" } : CIString).Equal { val := "ID", lowered := "id" } = true ∧
      buildInsertPlan exampleDeps (vschemaOf userTableThrice) insertUser
        = (insertUserTwicePlanned, .ok insertUserThriceRoute) ∧
      insertUserThriceRoute.Values = some [[.int64 1, .str ":_id0", .str ":_Id0"]] ∧
      exampleDeps.valConvert (.ValArg (":_" ++ (ident "id").Original ++ toString 0))
        = .ok (.str ":_id0") ∧
      Value.str ":_Id0" ≠ Value.str ":_id0" ∧
      exampleDeps.valConvert (.NumVal "1") = .ok (.int64 1) ∧
      Value.str ":_id0" ≠ Value.int64 1 := by
  refine ⟨rfl, rfl, by decide, rfl, rfl, by decide, rfl, by decide⟩

/-- C20, amended: let the descriptors `ci` at index `i` and `cj` at index `j > i` name the
same column (case-insensitively), `ci` being the only descriptor before `cj` that names it,
and let row `r` have at most as many slots as the column list (as every row has that
`buildInsertPlan` extracts from).  When the descriptor loop succeeds on row `r`, the value
extracted for `cj` is the conversion of the bind variable `:_<column of ci><r>` that the
extraction for `ci` wrote into the slot, and the value extracted for `ci` is the conversion of
the literal the row held at the column's position before the loop, or of the NULL literal when
the column was not in the column list. -/
theorem indexLoop_same_column (D : Deps) (r : Nat) (cvs : List ColumnVindex)
    (ins ins2 : Insert) (value2 : List Value) (row0 : List ValExpr) (i j : Nat)
    (ci cj : ColumnVindex)
    (hij : i < j) (hci : cvs[i]? = some ci) (hcj : cvs[j]? = some cj)
    (hsame : ci.Column.Equal cj.Column = true)
    (hfirst : ∀ m cm, m < j → m ≠ i → cvs[m]? = some cm →
      cm.Column.Equal ci.Column = false)
    (hrow : getRow ins.Rows r = .ok row0) (hlen : row0.length ≤ ins.Columns.length)
    (hok : indexLoop D r cvs ins [] = (ins2, value2, .ok ())) :
    (∃ v, D.valConvert (ValExpr.ValArg (":_" ++ ci.Column.Original ++ toString r)) = .ok v ∧
      value2[j]? = some v) ∧
    (∃ e v, ((∃ p, findPos ins.Columns ci.Column = some p ∧ row0[p]? = some e) ∨
        (findPos ins.Columns ci.Column = none ∧ e = ValExpr.NullVal)) ∧
      D.valConvert e = .ok v ∧ value2[i]? = some v) := by
  have hil : i < cvs.length := (List.getElem?_eq_some_iff.mp hci).1
  have hjl : j < cvs.length := (List.getElem?_eq_some_iff.mp hcj).1
  have hinv := indexLoop_ok_induct cvs
    (fun m insA valueA => valueA.length = m ∧
      ∃ rowA, getRow insA.Rows r = .ok rowA ∧ rowA.length ≤ insA.Columns.length ∧
        (m ≤ i → findPos insA.Columns ci.Column = findPos ins.Columns ci.Column ∧
          ∀ p, findPos ins.Columns ci.Column = some p → rowA[p]? = row0[p]?) ∧
        (i < m → ∃ e v, ((∃ p, findPos ins.Columns ci.Column = some p ∧ row0[p]? = some e) ∨
            (findPos ins.Columns ci.Column = none ∧ e = ValExpr.NullVal)) ∧
          D.valConvert e = .ok v ∧ valueA[i]? = some v) ∧
        (i < m → m ≤ j → ∃ p, findPos insA.Columns ci.Column = some p ∧
          rowA[p]? = some (ValExpr.ValArg (":_" ++ ci.Column.Original ++ toString r))) ∧
        (j < m → ∃ v,
          D.valConvert (ValExpr.ValArg (":_" ++ ci.Column.Original ++ toString r)) = .ok v ∧
          valueA[j]? = some v))
    ins [] ins2 value2 hok
    ⟨rfl, row0, hrow, hlen, fun _ => ⟨rfl, fun _ _ => rfl⟩, fun h => absurd h (Nat.not_lt_zero _),
      fun h => absurd h (Nat.not_lt_zero _), fun h => absurd h (Nat.not_lt_zero _)⟩ ?_
  · obtain ⟨_, _, _, _, _, h3, _, h5⟩ := hinv
    exact ⟨h5 hjl, h3 hil⟩
  · intro m hm insA valueA insB valueB hP hB
    obtain ⟨hvlen, rowA, hrowA, hlenA, hbefore, horig, hslotA, hafter⟩ := hP
    obtain ⟨pos, e, v, rowB, hconv, hval, hrowB, hlenB, hwritten, hothers, hposB, hcase⟩ :=
      buildIndexPlan_ok_step hB hrowA hlenA
    have hcm : cvs[m]? = some cvs[m] := List.getElem?_eq_getElem hm
    have hvB : valueB.length = m + 1 := by
      rw [hval]
      simp [hvlen]
    have hkeep : ∀ (k : Nat) (w : Value), valueA[k]? = some w → valueB[k]? = some w := by
      intro k w hk
      rw [hval, List.getElem?_append_left (List.getElem?_eq_some_iff.mp hk).1]
      exact hk
    have hlast : valueB[m]? = some v := by
      rw [hval, List.getElem?_append_right (by omega)]
      simp [hvlen]
    refine ⟨hvB, rowB, hrowB, hlenB, ?_, ?_, ?_, ?_⟩
    · -- descriptors before `i`
      intro hmi
      have hne : cvs[m].Column.Equal ci.Column = false :=
        hfirst m cvs[m] (by omega) (by omega) hcm
      obtain ⟨hfp, hsl⟩ := hbefore (by omega)
      have hfpB : findPos insB.Columns ci.Column = findPos ins.Columns ci.Column := by
        rcases hcase with ⟨_, hcols, _⟩ | ⟨_, hcols, _, _⟩
        · rw [hcols, hfp]
        · rw [hcols, findPos_append_ne (by rw [CIString.Equal_comm]; exact hne), hfp]
      refine ⟨hfpB, ?_⟩
      intro p hp
      have hpA : findPos insA.Columns ci.Column = some p := by rw [hfp, hp]
      have hpne : p ≠ pos := by
        intro heq
        subst heq
        have := findPos_same_pos hposB (by rw [hfpB, hp])
        rw [hne] at this
        cases this
      rw [hothers p hpne (findPos_lt hpA), hsl p hp]
    · -- the entry of descriptor `i`
      intro him
      by_cases hmi : m = i
      · subst hmi
        have hcieq : cvs[m] = ci := by
          rw [hcm] at hci
          exact Option.some.inj hci
        rw [hcieq] at hcase
        obtain ⟨hfp, hsl⟩ := hbefore (Nat.le_refl _)
        refine ⟨e, v, ?_, hconv, hlast⟩
        rcases hcase with ⟨hp, _, hslot⟩ | ⟨hp, _, _, he⟩
        · left
          rw [hfp] at hp
          exact ⟨pos, hp, by rw [← hsl pos hp]; exact hslot⟩
        · right
          rw [hfp] at hp
          exact ⟨hp, he⟩
      · obtain ⟨e1, v1, ho, hc1, hv1⟩ := horig (by omega)
        exact ⟨e1, v1, ho, hc1, hkeep i v1 hv1⟩
    · -- the slot between `i` and `j`
      intro him hmj
      by_cases hmi : m = i
      · subst hmi
        have hcieq : cvs[m] = ci := by
          rw [hcm] at hci
          exact Option.some.inj hci
        rw [hcieq] at hposB hwritten
        exact ⟨pos, hposB, hwritten⟩
      · have hne : cvs[m].Column.Equal ci.Column = false :=
          hfirst m cvs[m] (by omega) hmi hcm
        obtain ⟨p, hp, hsl⟩ := hslotA (by omega) (by omega)
        have hpB : findPos insB.Columns ci.Column = some p := by
          rcases hcase with ⟨_, hcols, _⟩ | ⟨_, hcols, _, _⟩
          · rw [hcols, hp]
          · rw [hcols]
            exact findPos_append_some _ hp
        have hpne : p ≠ pos := by
          intro heq
          subst heq
          have := findPos_same_pos hposB hpB
          rw [hne] at this
          cases this
        exact ⟨p, hpB, by rw [hothers p hpne (findPos_lt hp), hsl]⟩
    · -- the entry of descriptor `j`
      intro hjm
      by_cases hmj : m = j
      · subst hmj
        have hcjeq : cvs[m] = cj := by
          rw [hcm] at hcj
          exact Option.some.inj hcj
        rw [hcjeq] at hcase
        obtain ⟨p, hp, hsl⟩ := hslotA hij (Nat.le_refl _)
        have hpj : findPos insA.Columns cj.Column = some p := by
          rw [← findPos_congr hsame, hp]
        rcases hcase with ⟨hp2, _, hslot⟩ | ⟨hp2, _, _, _⟩
        · rw [hpj] at hp2
          cases hp2
          rw [hsl] at hslot
          cases hslot
          exact ⟨v, hconv, hlast⟩
        · rw [hpj] at hp2
          cases hp2
      · obtain ⟨v1, hc1, hv1⟩ := hafter (by omega)
        exact ⟨v1, hc1, hkeep j v1 hv1⟩

/-- Witness of C20, amended (`indexLoop_same_column`): row 0 of
`insert into user(id, name) values (1, 'a')` with the two descriptors `id` and `ID`. -/
theorem indexLoop_same_column_witness :
    (∃ v, exampleDeps.valConvert (ValExpr.ValArg (":_" ++ (ident "id").Original ++ toString 0))
        = .ok v ∧ [Value.int64 1, Value.str ":_id0"][1]? = some v) ∧
    (∃ e v, ((∃ p, findPos insertUser.Columns (ident "id") = some p ∧
          [ValExpr.NumVal "1", ValExpr.StrVal "a"][p]? = some e) ∨
        (findPos insertUser.Columns (ident "id") = none ∧ e = ValExpr.NullVal)) ∧
      exampleDeps.valConvert e = .ok v ∧ [Value.int64 1, Value.str ":_id0"][0]? = some v) :=
  indexLoop_same_column exampleDeps 0 userTableTwice.ColumnVindexes insertUser
    insertUserTwicePlanned [.int64 1, .str ":_id0"] [.NumVal "1", .StrVal "a"] 0 1
    { Column := ident "id", Name := "user_index" }
    { Column := { val := "ID", lowered := "id" }, Name := "id_lookup" }
    (by decide) rfl rfl rfl
    (by
      intro m cm hm hne hcm
      omega)
    rfl (by decide) (by decide)

/-! ## Conversion errors inside `buildInsertPlan` -/

theorem Lookup_getRow {ins ins2 : Insert} {col : CIString} {r : Nat}
    (h : Lookup ins col r ins2) : ∃ row0, getRow ins.Rows r = .ok row0 := by
  obtain ⟨ins1, row, pos, e, arg, hloc, _, _⟩ := h
  rcases findOrInsertPos_ok_inv hloc with ⟨_, _, hr⟩ | ⟨_, _, row0, hr, _, _⟩
  · exact ⟨row, hr⟩
  · exact ⟨row0, hr⟩

theorem Lookup_le {ins ins2 : Insert} {col : CIString} {r : Nat}
    (h : Lookup ins col r ins2)
    (hq : ∀ j row, getRow ins.Rows j = .ok row → row.length ≤ ins.Columns.length) :
    ∀ j row, getRow ins2.Rows j = .ok row → row.length ≤ ins2.Columns.length := by
  obtain ⟨row0, hrow0⟩ := Lookup_getRow h
  obtain ⟨_, hframe, _, row2, hrow2, hcase⟩ := Lookup_shape h hrow0
  have hle0 := hq r row0 hrow0
  intro j row hj
  by_cases hjr : j = r
  · subst hjr
    rw [hrow2] at hj
    cases hj
    rcases hcase with ⟨_, _, _, hcols, hlen⟩ | ⟨_, _, hcols, hlen⟩
    · rw [hcols, hlen]
      exact hle0
    · rw [hcols, hlen]
      simp only [List.length_append, List.length_singleton]
      omega
  · rw [hframe j hjr] at hj
    have := hq j row hj
    rcases hcase with ⟨_, _, _, hcols, _⟩ | ⟨_, _, hcols, _⟩
    · rw [hcols]
      exact this
    · rw [hcols]
      simp only [List.length_append, List.length_singleton]
      omega

theorem LookupChain_le {r : Nat} :
    ∀ (cs : List CIString) (ins ins2 : Insert), LookupChain r cs ins ins2 →
      (∀ j row, getRow ins.Rows j = .ok row → row.length ≤ ins.Columns.length) →
      ∀ j row, getRow ins2.Rows j = .ok row → row.length ≤ ins2.Columns.length := by
  intro cs
  induction cs with
  | nil =>
    intro ins ins2 h hq
    simp only [LookupChain] at h
    subst h
    exact hq
  | cons c cs ih =>
    intro ins ins2 h hq
    obtain ⟨m, hl, hc⟩ := h
    exact ih m ins2 hc (Lookup_le hl hq)

theorem LookupChain_frame {r : Nat} :
    ∀ (cs : List CIString) (ins ins2 : Insert), LookupChain r cs ins ins2 →
      ∀ j, j ≠ r → getRow ins2.Rows j = getRow ins.Rows j := by
  intro cs
  induction cs with
  | nil =>
    intro ins ins2 h j _
    simp only [LookupChain] at h
    subst h
    rfl
  | cons c cs ih =>
    intro ins ins2 h j hj
    obtain ⟨m, hl, hc⟩ := h
    obtain ⟨row0, hrow0⟩ := Lookup_getRow hl
    obtain ⟨_, hframe, _⟩ := Lookup_shape hl hrow0
    rw [ih m ins2 hc j hj, hframe j hj]

theorem checkRows_none_le {ins : Insert} {values : List RowTuple}
    (hrows : ins.Rows = .Values values)
    (hcheck : checkRows ins.Columns.length values = none) :
    ∀ j row, getRow ins.Rows j = .ok row → row.length ≤ ins.Columns.length := by
  intro j row hj
  obtain ⟨values1, hv, hr⟩ := getRow_ok_iff.mp hj
  rw [hrows] at hv
  cases hv
  obtain ⟨row1, ht, hlen⟩ := checkRows_none values hcheck j _ hr
  simp only [RowTuple.ValTuple.injEq] at ht
  rw [ht, hlen]

/-- Along a successful run of the row loop no row is longer than the column list, when none
was at the start. -/
theorem rowLoop_ok_le {D : Deps} {table : Table} {n rowNum : Nat} {ins ins2 : Insert}
    {route route2 : Route} {rvs rvs2 : List (List Value)}
    (h : rowLoop D table n rowNum ins route rvs = (ins2, route2, .ok rvs2))
    (hq : ∀ j row, getRow ins.Rows j = .ok row → row.length ≤ ins.Columns.length) :
    ∀ j row, getRow ins2.Rows j = .ok row → row.length ≤ ins2.Columns.length := by
  refine rowLoop_ok_induct n
    (fun _ insX _ _ => ∀ j row, getRow insX.Rows j = .ok row →
      row.length ≤ insX.Columns.length)
    rowNum ins route rvs ins2 route2 rvs2 h hq ?_
  intro r insA routeA rvA insB routeB value _ _ hP hS
  exact LookupChain_le _ insA insB (rowStep_ok_chain hS) hP

/-- A direct call of `buildIndexPlan` on a row with a spare slot, which `buildInsertPlan`
rejects in its arity check before any extraction: for the absent column `id` the resolver
appends the column and a NULL literal and locates the spare slot, whose conversion fails after
the statement was changed.  This is why the row-length condition is stated for a direct
call. -/
theorem buildIndexPlan_spare_slot :
    buildInsertPlan exampleDeps (vschemaOf userTable) insertUserLong
        = (insertUserLong, .error "column list doesn't match values") ∧
      findOrInsertPos insertUserLong (ident "id") 0
        = (insertUserLongResolved, .ok ([.StrVal "a", .Other "f()", .NullVal], 1)) ∧
      buildIndexPlan exampleDeps insertUserLong { Column := ident "id", Name := "user_index" }
          [] 0
        = (insertUserLongResolved, [],
            .error "could not convert val: f(), pos: 1: unsupported expression") := by
  refine ⟨by decide, rfl, by decide⟩

/-- C17: when `findOrInsertPos` locates the slot `e` for the descriptor's column in row
`rowNum`, `buildIndexPlan` returns an error exactly when `valConvert` rejects `e`.  When the
NULL literal converts and the row has no more slots than the column list has columns, then on
error the routing-value list and the statement are returned as they were passed in.  Inside
`buildInsertPlan` (sharded table, arity check passed, the row loop succeeded for the rows
before `rowNum` and the descriptor loop for the descriptors before this one) that row-length
condition always holds: an error of `buildIndexPlan` makes `buildInsertPlan` return that error
and no route, and, when the NULL literal converts, with the statement and the routing-value
list as they were before the call. -/
theorem buildIndexPlan_error_iff (D : Deps) (ins ins1 : Insert) (cv : ColumnVindex)
    (value : List Value) (rowNum pos : Nat) (row : List ValExpr) (e : ValExpr)
    (hloc : findOrInsertPos ins cv.Column rowNum = (ins1, .ok (row, pos)))
    (hslot : row[pos]? = some e) :
    ((∃ insE valueE m, buildIndexPlan D ins cv value rowNum = (insE, valueE, .error m)) ↔
      ∃ err, D.valConvert e = .error err) ∧
    (∀ row0 v0 insE valueE m, getRow ins.Rows rowNum = .ok row0 →
      row0.length ≤ ins.Columns.length → D.valConvert ValExpr.NullVal = .ok v0 →
      buildIndexPlan D ins cv value rowNum = (insE, valueE, .error m) →
      insE = ins ∧ valueE = value) ∧
    (∀ vschema table ins0 values pre post insR routeR rvs insE valueE m,
      vschema.Find ins0.Table.Qualifier ins0.Table.Name = .ok table →
      table.Keyspace.Sharded = true → ins0.Columns ≠ [] → ins0.Rows = .Values values →
      checkRows ins0.Columns.length values = none → rowNum < values.length →
      table.ColumnVindexes = pre ++ cv :: post →
      rowLoop D table rowNum 0 ins0 (shardedRoute D table ins0 values) []
        = (insR, routeR, .ok rvs) →
      indexLoop D rowNum pre insR [] = (ins, value, .ok ()) →
      buildIndexPlan D ins cv value rowNum = (insE, valueE, .error m) →
      buildInsertPlan D vschema ins0 = (insE, .error m) ∧
      (∀ v0, D.valConvert ValExpr.NullVal = .ok v0 → insE = ins ∧ valueE = value)) := by
  obtain ⟨herr, hokv⟩ := buildIndexPlan_of_located D value hloc hslot
  have hsame : ∀ row0 v0 insE valueE m, getRow ins.Rows rowNum = .ok row0 →
      row0.length ≤ ins.Columns.length → D.valConvert ValExpr.NullVal = .ok v0 →
      buildIndexPlan D ins cv value rowNum = (insE, valueE, .error m) →
      insE = ins ∧ valueE = value := by
    intro row0 v0 insE valueE m hrow0 hle hnull hb
    cases hc : D.valConvert e with
    | ok v =>
      rw [hokv v hc] at hb
      simp at hb
    | error err =>
      rw [herr err hc] at hb
      simp only [Prod.mk.injEq, Outcome.error.injEq] at hb
      obtain ⟨h1, h2, _⟩ := hb
      refine ⟨?_, h2.symm⟩
      rcases findOrInsertPos_ok_inv hloc with ⟨_, hins, _⟩ | ⟨_, hpos, row1, hr1, hrow, _⟩
      · rw [← h1, hins]
      · exfalso
        rw [hrow0] at hr1
        cases hr1
        subst hrow hpos
        have hlt : ins.Columns.length < (row0 ++ [ValExpr.NullVal]).length :=
          (List.getElem?_eq_some_iff.mp hslot).1
        simp only [List.length_append, List.length_singleton] at hlt
        have heq : ins.Columns.length = row0.length := by omega
        rw [heq, List.getElem?_append_right (Nat.le_refl _)] at hslot
        simp only [Nat.sub_self, List.getElem?_cons_zero, Option.some.injEq] at hslot
        rw [← hslot, hnull] at hc
        cases hc
  refine ⟨⟨?_, ?_⟩, hsame, ?_⟩
  · rintro ⟨insE, valueE, m, hb⟩
    cases hc : D.valConvert e with
    | error err => exact ⟨err, rfl⟩
    | ok v =>
      rw [hokv v hc] at hb
      simp at hb
  · rintro ⟨err, hc⟩
    exact ⟨_, _, _, herr err hc⟩
  · intro vschema table ins0 values pre post insR routeR rvs insE valueE m hfind hsharded hcols
      hrows hcheck hlt hcvs hloop hidx hb
    refine ⟨?_, ?_⟩
    · have hil : indexLoop D rowNum table.ColumnVindexes insR []
          = (insE, valueE, .error m) := by
        rw [hcvs]
        exact indexLoop_error_at hb pre insR [] hidx
      have hrs : rowStep D table (0 + rowNum) insR routeR
          = (insE, routeR, valueE, .error m) := by
        rw [Nat.zero_add]
        exact rowStep_index_error hil
      obtain ⟨b, hb2⟩ : ∃ b, values.length = rowNum + (b + 1) :=
        ⟨values.length - rowNum - 1, by omega⟩
      have hrl := rowLoop_error_at (b := b) rowNum 0 ins0 _ [] hloop hrs
      rw [← hb2] at hrl
      exact buildInsertPlan_rowLoop_error hfind hsharded hcols hrows hcheck hrl
    · intro v0 hnull
      have hq0 := checkRows_none_le hrows hcheck
      have hqR := rowLoop_ok_le hloop hq0
      have hq := LookupChain_le _ insR ins (indexLoop_ok_chain pre insR ins [] value hidx) hqR
      have hrow0 : ∃ row0, getRow ins.Rows rowNum = .ok row0 := by
        rcases findOrInsertPos_ok_inv hloc with ⟨_, _, hr⟩ | ⟨_, _, row0, hr, _, _⟩
        · exact ⟨row, hr⟩
        · exact ⟨row0, hr⟩
      obtain ⟨row0, hrow0⟩ := hrow0
      exact hsame row0 v0 insE valueE m hrow0 (hq rowNum row0 hrow0) hnull hb

/-- Witness of C17 (`buildIndexPlan_error_iff`): the statement
`insert into user(id, name) values (f(), 'a')`, whose shard-routing slot does not convert;
planning fails with the conversion error and leaves the statement as it was. -/
theorem buildIndexPlan_error_iff_witness :
    buildInsertPlan exampleDeps (vschemaOf userTable) insertUserExpr
      = (insertUserExpr, .error "could not convert val: f(), pos: 0: unsupported expression") :=
  ((buildIndexPlan_error_iff exampleDeps insertUserExpr insertUserExpr
    { Column := ident "id", Name := "user_index" } [] 0 0 [.Other "f()", .StrVal "a"]
    (.Other "f()") rfl rfl).2.2 (vschemaOf userTable) userTable insertUserExpr
    [.ValTuple [.Other "f()", .StrVal "a"]] [] [] insertUserExpr
    (shardedRoute exampleDeps userTable insertUserExpr [.ValTuple [.Other "f()", .StrVal "a"]])
    [] insertUserExpr [] "could not convert val: f(), pos: 0: unsupported expression"
    rfl rfl (by decide) rfl rfl (by decide) rfl rfl rfl (by decide)).1

/-! ## The reserved sequence variable and a column of the same name -/

/-- C7 as stated fails: with the reserved name `__seq` and a table whose shard-routing and
auto-increment column is named `_seq`, the per-column bind variable that `buildIndexPlan`
writes for row 0 is `:__seq0`, and the entry that `buildAutoIncrementPlan` then writes into the
routing-value list (coincidence index 0, list of length 1) is the string `:__seq0` as well:
the entry is the per-column placeholder. -/
theorem buildAutoIncrementPlan_coincidence_counterexample :
    buildIndexPlan exampleDeps insertSeq { Column := ident "_seq", Name := "hash" } [] 0
        = (insertSeqRewritten, [Value.int64 7], .ok ()) ∧
      getRow insertSeqRewritten.Rows 0
        = .ok [.ValArg (":_" ++ (ident "_seq").Original ++ toString 0), .StrVal "a"] ∧
      (0 : Int) ≤ 0 ∧ (0 : Int) < [Value.int64 7].length ∧
      buildAutoIncrementPlan exampleDeps insertSeqRewritten
          { Column := ident "_seq", Sequence := userSeq, ColumnVindexNum := 0 } emptyRoute
          [Value.int64 7] 0
        = (insertSeqRewritten,
           { emptyRoute with Generate := some (musicGenerate (.int64 7)) },
           [Value.str (":" ++ exampleDeps.SeqVarName ++ toString 0)], .ok ()) ∧
      Value.str (":" ++ exampleDeps.SeqVarName ++ toString 0)
        = Value.str (":_" ++ (ident "_seq").Original ++ toString 0) ∧
      (buildInsertPlan exampleDeps (vschemaOf seqTable) insertSeq).1 = insertSeqRewritten ∧
      ((buildInsertPlan exampleDeps (vschemaOf seqTable) insertSeq).2.toOption.bind
          (·.Values)) = some [[Value.str ":__seq0"]] := by
  refine ⟨by decide, rfl, by decide, by decide, by decide, by decide, by decide, by decide⟩

/-! ## Routing values in row order -/

theorem rowLoop_snoc {D : Deps} {table : Table} {insB : Insert} {routeB : Route}
    {value : List Value} :
    ∀ (n rowNum : Nat) (ins : Insert) (route : Route) (rvs : List (List Value))
      (insX : Insert) (routeX : Route) (rvX : List (List Value)),
      rowLoop D table n rowNum ins route rvs = (insX, routeX, .ok rvX) →
      rowStep D table (rowNum + n) insX routeX = (insB, routeB, value, .ok ()) →
      rowLoop D table (n + 1) rowNum ins route rvs = (insB, routeB, .ok (rvX ++ [value])) := by
  intro n
  induction n with
  | zero =>
    intro rowNum ins route rvs insX routeX rvX h hstep
    simp only [rowLoop, Prod.mk.injEq, Outcome.ok.injEq] at h
    obtain ⟨rfl, rfl, rfl⟩ := h
    simp only [Nat.add_zero] at hstep
    simp only [rowLoop, hstep]
  | succ n ih =>
    intro rowNum ins route rvs insX routeX rvX h hstep
    obtain ⟨ins1, route1, value1, hs, hrest⟩ := rowLoop_succ_ok_inv h
    have hstep2 : rowStep D table (rowNum + 1 + n) insX routeX
        = (insB, routeB, value, .ok ()) := by
      have he : rowNum + 1 + n = rowNum + (n + 1) := by omega
      rw [he]
      exact hstep
    have := ih (rowNum + 1) ins1 route1 _ insX routeX rvX hrest hstep2
    rw [show n + 1 + 1 = (n + 1) + 1 from rfl]
    conv => lhs; unfold rowLoop
    simp only [hs]
    exact this

theorem rowStep_ok_frame {D : Deps} {table : Table} {r : Nat} {ins ins2 : Insert}
    {route route2 : Route} {value : List Value}
    (h : rowStep D table r ins route = (ins2, route2, value, .ok ())) :
    ∀ j, j ≠ r → getRow ins2.Rows j = getRow ins.Rows j :=
  LookupChain_frame _ ins ins2 (rowStep_ok_chain h)

theorem indexLoop_ok_entries {D : Deps} {r : Nat} {cvsAll : List ColumnVindex}
    {row0 : List ValExpr} :
    ∀ (cvs : List ColumnVindex) (ins ins2 : Insert) (value value2 : List Value)
      (rowA : List ValExpr),
      (∀ cv ∈ cvs, cv ∈ cvsAll) → getRow ins.Rows r = .ok rowA →
      (∀ e ∈ rowA, SlotSource cvsAll r row0 e) →
      (∀ v ∈ value, EntryOfRow D cvsAll r row0 v) →
      indexLoop D r cvs ins value = (ins2, value2, .ok ()) →
      ∀ v ∈ value2, EntryOfRow D cvsAll r row0 v := by
  intro cvs
  induction cvs with
  | nil =>
    intro ins ins2 value value2 rowA _ _ _ hval h
    simp only [indexLoop, Prod.mk.injEq, and_true] at h
    obtain ⟨_, rfl⟩ := h
    exact hval
  | cons cv rest ih =>
    intro ins ins2 value value2 rowA hsub hrow hsrc hval h
    unfold indexLoop at h
    split at h
    · rename_i ins1 value1 u hb
      have hb2 : buildIndexPlan D ins cv value r = (ins1, value1, .ok ()) := hb
      obtain ⟨insF, row, pos, e, v, hloc, hslot, hconv, hins, hv1⟩ := buildIndexPlan_ok_inv hb2
      have hrowsrc : ∀ x ∈ row, SlotSource cvsAll r row0 x := by
        rcases findOrInsertPos_ok_inv hloc with ⟨_, _, hr⟩ | ⟨_, _, rowB, hr, hrowB, _⟩
        · rw [hrow] at hr
          cases hr
          exact hsrc
        · rw [hrow] at hr
          cases hr
          intro x hx
          rw [hrowB] at hx
          rcases List.mem_append.mp hx with hx | hx
          · exact hsrc x hx
          · simp only [List.mem_singleton] at hx
            exact Or.inr (Or.inl hx)
      have hrow1 : getRow ins1.Rows r = .ok (row.set pos
          (ValExpr.ValArg (":_" ++ cv.Column.Original ++ toString r))) := by
        rw [hins]
        exact getRow_setRow_self (findOrInsertPos_getRow hloc)
      refine ih ins1 ins2 value1 value2 _ (fun c hc => hsub c (List.mem_cons_of_mem _ hc))
        hrow1 ?_ ?_ h
      · intro x hx
        rcases List.mem_or_eq_of_mem_set hx with hx | hx
        · exact hrowsrc x hx
        · exact Or.inr (Or.inr ⟨cv, hsub cv (List.mem_cons_self _ _), hx⟩)
      · intro w hw
        rw [hv1] at hw
        rcases List.mem_append.mp hw with hw | hw
        · exact hval w hw
        · simp only [List.mem_singleton] at hw
          rw [hw]
          exact Or.inr ⟨e, hconv, hrowsrc e (List.getElem?_mem hslot)⟩
    · simp at h
    · simp at h

theorem rowStep_ok_entries {D : Deps} {table : Table} {r : Nat} {ins ins2 : Insert}
    {route route2 : Route} {value : List Value} {row0 : List ValExpr}
    (hrow : getRow ins.Rows r = .ok row0)
    (h : rowStep D table r ins route = (ins2, route2, value, .ok ())) :
    ∀ v ∈ value, EntryOfRow D table.ColumnVindexes r row0 v := by
  obtain ⟨ins1, value1, hl, hcase⟩ := rowStep_ok_inv h
  have h1 : ∀ v ∈ value1, EntryOfRow D table.ColumnVindexes r row0 v :=
    indexLoop_ok_entries table.ColumnVindexes ins ins1 [] value1 row0 (fun _ hc => hc) hrow
      (fun e he => Or.inl he) (by simp) hl
  rcases hcase with ⟨_, _, _, hv⟩ | ⟨autoinc, _, hb⟩
  · rw [hv]
    exact h1
  · rcases buildAutoIncrementPlan_ok_inv hb with ⟨_, _, _, _, _, hv⟩ |
      ⟨_, _, _, _, _, _, _, _, _, _, _, hv⟩
    · intro w hw
      rw [hv] at hw
      rcases List.mem_or_eq_of_mem_set hw with hw | hw
      · exact h1 w hw
      · exact Or.inl hw
    · rw [hv]
      exact h1

/-- C5: a route returned for a sharded insert holds one routing-value list per row-tuple of the
statement, every list with as many entries as the table has shard-routing descriptors, and in
row order: when the row loop has run for the rows before `r` (giving the first `r` lists), row
`r` of the statement is still the row `row0` that was passed in, the list at index `r` is the
one the loop body then produces for row number `r`, and each of its entries is the sequence
placeholder of row `r` or the conversion of an expression that is a slot of `row0`, the NULL
literal, or a bind variable `:_<column><r>` of a descriptor for row `r`. -/
theorem buildInsertPlan_values_shape (D : Deps) (vschema : VSchema) (ins ins2 : Insert)
    (table : Table) (route : Route) (values : List RowTuple)
    (hfind : vschema.Find ins.Table.Qualifier ins.Table.Name = .ok table)
    (hsharded : table.Keyspace.Sharded = true)
    (hrows : ins.Rows = .Values values)
    (hok : buildInsertPlan D vschema ins = (ins2, .ok route)) :
    ∃ routeValues, route.Values = some routeValues ∧
      routeValues.length = values.length ∧
      (∀ l ∈ routeValues, l.length = table.ColumnVindexes.length) ∧
      ∀ r, r < values.length → ∃ row0 insR routeR insB routeB l,
        values[r]? = some (.ValTuple row0) ∧
        rowLoop D table r 0 ins (shardedRoute D table ins values) []
          = (insR, routeR, .ok (routeValues.take r)) ∧
        getRow insR.Rows r = .ok row0 ∧
        rowStep D table r insR routeR = (insB, routeB, l, .ok ()) ∧
        routeValues[r]? = some l ∧
        ∀ v ∈ l, v = Value.str (":" ++ D.SeqVarName ++ toString r) ∨
          ∃ e, D.valConvert e = .ok v ∧
            (e ∈ row0 ∨ e = ValExpr.NullVal ∨
              ∃ cv ∈ table.ColumnVindexes,
                e = ValExpr.ValArg (":_" ++ cv.Column.Original ++ toString r)) := by
  obtain ⟨values1, routeL, rvs, hrows1, _, hcheck, hloop, hroute⟩ :=
    buildInsertPlan_sharded_ok_inv hfind hsharded hok
  rw [hrows] at hrows1
  cases hrows1
  have hinv := rowLoop_ok_induct values.length
    (fun n insX routeX rvX =>
      rowLoop D table n 0 ins (shardedRoute D table ins values) [] = (insX, routeX, .ok rvX) ∧
      rvX.length = n ∧
      (∀ j, n ≤ j → getRow insX.Rows j = getRow ins.Rows j) ∧
      (∀ l ∈ rvX, l.length = table.ColumnVindexes.length) ∧
      ∀ r, r < n → ∃ row0 insR routeR insB routeB l,
        values[r]? = some (.ValTuple row0) ∧
        rowLoop D table r 0 ins (shardedRoute D table ins values) []
          = (insR, routeR, .ok (rvX.take r)) ∧
        getRow insR.Rows r = .ok row0 ∧
        rowStep D table r insR routeR = (insB, routeB, l, .ok ()) ∧
        rvX[r]? = some l ∧
        ∀ v ∈ l, EntryOfRow D table.ColumnVindexes r row0 v)
    0 ins (shardedRoute D table ins values) [] ins2 routeL rvs hloop
    ⟨rfl, rfl, fun _ _ => rfl, by simp, by intro r hr; omega⟩ ?_
  · obtain ⟨_, hlen, _, hall, htrace⟩ := hinv
    refine ⟨rvs, by rw [hroute], by omega, hall, ?_⟩
    intro r hr
    obtain ⟨row0, insR, routeR, insB, routeB, l, h1, h2, h3, h4, h5, h6⟩ :=
      htrace r (by omega)
    exact ⟨row0, insR, routeR, insB, routeB, l, h1, h2, h3, h4, h5, h6⟩
  · intro r insA routeA rvA insB routeB value _ hr hP hS
    obtain ⟨hreach, hlen, hframe, hall, htrace⟩ := hP
    have hrlt : r < values.length := by omega
    obtain ⟨row0, ht, _⟩ := checkRows_none values hcheck r values[r]
      (List.getElem?_eq_getElem hrlt)
    have hv0 : values[r]? = some (.ValTuple row0) := by
      rw [List.getElem?_eq_getElem hrlt, ht]
    have hrowA : getRow insA.Rows r = .ok row0 := by
      rw [hframe r (Nat.le_refl _)]
      exact getRow_ok_iff.mpr ⟨values, hrows, hv0⟩
    have hS0 : rowStep D table (0 + r) insA routeA = (insB, routeB, value, .ok ()) := by
      rw [Nat.zero_add]
      exact hS
    refine ⟨rowLoop_snoc r 0 ins _ [] insA routeA rvA hreach hS0, by simp [hlen], ?_, ?_, ?_⟩
    · intro j hj
      rw [rowStep_ok_frame hS j (by omega), hframe j (by omega)]
    · intro l hl
      rcases List.mem_append.mp hl with hl | hl
      · exact hall l hl
      · simp only [List.mem_singleton] at hl
        rw [hl]
        exact rowStep_ok_length hS
    · intro j hj
      rcases Nat.lt_or_ge j r with hjr | hjr
      · obtain ⟨rowj, iR, rR, iB, rB, l, h1, h2, h3, h4, h5, h6⟩ := htrace j hjr
        refine ⟨rowj, iR, rR, iB, rB, l, h1, ?_, h3, h4, ?_, h6⟩
        · rw [List.take_append_of_le_length (by omega)]
          exact h2
        · rw [List.getElem?_append_left (by omega)]
          exact h5
      · have hjeq : j = r := by omega
        subst hjeq
        refine ⟨row0, insA, routeA, insB, routeB, value, hv0, ?_, hrowA, hS, ?_,
          rowStep_ok_entries hrowA hS⟩
        · rw [List.take_left' hlen]
          exact hreach
        · rw [List.getElem?_append_right (by omega)]
          simp [hlen]

/-- Witness of C5 (`buildInsertPlan_values_shape`): the two-row statement
`insert into music(user_id, id) values (1, 5), (2, 6)` and a table with one descriptor. -/
theorem buildInsertPlan_values_shape_witness :
    ∃ routeValues, insertMusicRoute.Values = some routeValues ∧
      routeValues.length
        = [RowTuple.ValTuple [.NumVal "1", .NumVal "5"], .ValTuple [.NumVal "2", .NumVal "6"]].length ∧
      (∀ l ∈ routeValues, l.length = musicTable.ColumnVindexes.length) ∧
      ∀ r, r < [RowTuple.ValTuple [.NumVal "1", .NumVal "5"],
                .ValTuple [.NumVal "2", .NumVal "6"]].length →
        ∃ row0 insR routeR insB routeB l,
          [RowTuple.ValTuple [.NumVal "1", .NumVal "5"],
            .ValTuple [.NumVal "2", .NumVal "6"]][r]? = some (.ValTuple row0) ∧
          rowLoop exampleDeps musicTable r 0 insertMusic
              (shardedRoute exampleDeps musicTable insertMusic
                [.ValTuple [.NumVal "1", .NumVal "5"], .ValTuple [.NumVal "2", .NumVal "6"]]) []
            = (insR, routeR, .ok (routeValues.take r)) ∧
          getRow insR.Rows r = .ok row0 ∧
          rowStep exampleDeps musicTable r insR routeR = (insB, routeB, l, .ok ()) ∧
          routeValues[r]? = some l ∧
          ∀ v ∈ l, v = Value.str (":" ++ exampleDeps.SeqVarName ++ toString r) ∨
            ∃ e, exampleDeps.valConvert e = .ok v ∧
              (e ∈ row0 ∨ e = ValExpr.NullVal ∨
                ∃ cv ∈ musicTable.ColumnVindexes,
                  e = ValExpr.ValArg (":_" ++ cv.Column.Original ++ toString r)) :=
  buildInsertPlan_values_shape exampleDeps (vschemaOf musicTable) insertMusic insertMusicPlanned
    musicTable insertMusicRoute
    [.ValTuple [.NumVal "1", .NumVal "5"], .ValTuple [.NumVal "2", .NumVal "6"]]
    rfl rfl rfl (by decide)

end Planbuilder
